import Mathlib

/-!
The package `parsers/mongodb`: timestamp resolution and the line-processing loop.

A shallow embedding of `parsers/mongodb/mongodb.go`.

* Part 1 models the Go values the parser handles (`interface{}` values, the
  `map[string]interface{}` of parsed fields, `error` values).
* Part 2 models the pieces of Go's standard package `time` that
  `parseTimestamp` calls: `time.Time`, `time.Date`, `Time.AddDate`,
  `Time.Year`, `Time.After`, and `time.Parse` on the layout elements that occur
  in `timestampFormats`.  The behaviour modelled is that of the Go 1.21 release.
* Part 3 is the code of `mongodb.go` itself: `timestampFormats`,
  `Parser.parseTimestamp` and `Parser.ProcessLines`.
* Part 4 holds the lemmas and the theorems about them.

Not modelled: the `logrus` debug output of `ProcessLines`, `Parser.Init`,
`MongoLineParser` (a call into another package) and `RealNower` (the system
clock); a `Parser` is given with its line parser and its clock.

State: a Go map is a reference to a map object, so the maps live on a heap
(`Heap`) and a variable of map type holds a reference (`Ref`).  The line parser
is any implementation of the interface: it has a state of its own, it reads and
writes the heap, and the map it returns may be one it returned before.  The
`delete` of `ProcessLines` changes the map object on the heap, where the line
parser finds it at its next call.  The clock has a state too: what `Now()`
answers depends on the number of earlier calls.

Idealisations: Go's `int`/`int64` are unbounded integers (no wrap-around, which
Go reaches only hundreds of millions of years away from the present), strings
are sequences of characters rather than of bytes (the layout elements are
ASCII, and a non-ASCII character matches none of them in either reading), a
`*time.Location` is the fixed offset it yields, and a channel is the finite
sequence of values that travel through it.  An event is recorded with the
content that its map has at the moment of the send.
-/

namespace Mongodb

/-! ## Part 1: Go values -/

/-- A value held in an `interface{}`.  The parser only ever asks whether the
dynamic type is `string`; every other dynamic type is kept apart by a tag and
is otherwise uninterpreted. -/
inductive Value where
  | str (s : String)
  | int (n : Int)
  | bool (b : Bool)
  | other (tag : Nat)
deriving DecidableEq, Repr

/-- A `map[string]interface{}`: a key is either absent or bound to one value.
The nil map and the empty map both bind no key. -/
abbrev Fields := String → Option Value

/-- The map without any key (also the nil map). -/
def Fields.empty : Fields := fun _ => none

/-- The map `m` after `m[k] = v`. -/
def Fields.set (m : Fields) (k : String) (v : Value) : Fields :=
  fun j => if j = k then some v else m j

/-- The map `m` after `delete(m, k)`. -/
def Fields.delete (m : Fields) (k : String) : Fields :=
  fun j => if j = k then none else m j

/-- The type assertion `m[k].(string)` in its two-result form: the string and
`true` when the key is bound to a string, the empty string and `false`
otherwise (key absent, nil map, or another dynamic type). -/
def Fields.stringAt (m : Fields) (k : String) : String × Bool :=
  match m k with
  | some (Value.str s) => (s, true)
  | _ => ("", false)

/-- A value of the type `map[string]interface{}` as a variable holds it: nil, or
the address of a map object.  Two variables that hold the same address see each
other's writes. -/
abbrev Ref := Option Nat

/-- The map objects of a program state, by address. -/
abbrev Heap := Nat → Fields

/-- The content of the map that `r` refers to.  The nil map reads as a map
without keys. -/
def Heap.fields (h : Heap) (r : Ref) : Fields :=
  match r with
  | none => Fields.empty
  | some a => h a

/-- The heap after `m[...] = ...` has made `m` the content of the map object at
the address `a`. -/
def Heap.store (h : Heap) (a : Nat) (m : Fields) : Heap :=
  fun b => if b = a then m else h b

/-- The heap after `delete(values, k)` where `values` holds `r`: the key goes
from the map object itself.  On the nil map `delete` does nothing. -/
def Heap.delete (h : Heap) (r : Ref) (k : String) : Heap :=
  match r with
  | none => h
  | some a => h.store a ((h a).delete k)

/-- A non-nil Go `error`.  A nil error is `none : Option Error`.
`errorString` is what `errors.New` builds, `parseError` is the
`*time.ParseError` of `time.Parse` (only its `Layout` and `Value` fields are
kept; nothing in this program reads the others), and `foreign` is an error of
any other dynamic type, such as those the line parser returns. -/
inductive Error where
  | errorString (s : String)
  | parseError (layout value : String)
  | foreign (dynType : String) (msg : String)
deriving DecidableEq, Repr

/-! ## Part 2: package `time` -/

/-- A `*time.Location`, reduced to the offset (seconds east of UTC) it yields. -/
structure Location where
  offset : Int
deriving DecidableEq, Repr

/-- The location `time.UTC`. -/
def UTC : Location := ⟨0⟩

/-- A `time.Time` without monotonic clock reading: `sec` counts the seconds since
January 1, year 1, 00:00:00 UTC, `nsec` the nanoseconds within that second. -/
structure Time where
  sec : Int
  nsec : Int
  loc : Location
deriving DecidableEq, Repr

/-- The zero value `time.Time{}`: January 1, year 1, 00:00:00.000000000 UTC. -/
def Time.zero : Time := ⟨0, 0, UTC⟩

/-- `Time.IsZero`. -/
def Time.IsZero (t : Time) : Bool := t.sec == 0 && t.nsec == 0

/-- `Time.After`: is the instant `t` after `u`? -/
def Time.After (t u : Time) : Bool :=
  decide (t.sec > u.sec) || (t.sec == u.sec && decide (t.nsec > u.nsec))

/-- `Time.Before`: is the instant `t` before `u`? -/
def Time.Before (t u : Time) : Bool :=
  decide (t.sec < u.sec) || (t.sec == u.sec && decide (t.nsec < u.nsec))

/-- `Time.Equal`: do `t` and `u` denote the same instant? -/
def Time.Equal (t u : Time) : Bool := t.sec == u.sec && t.nsec == u.nsec

/-- `isLeap`.  Go's `%` truncates, Lean's `%` on `Int` is Euclidean; the two
agree on whether a remainder is zero. -/
def isLeap (year : Int) : Bool :=
  year % 4 == 0 && (year % 100 != 0 || year % 400 == 0)

/-- `daysBefore[i]`: the number of days in a non-leap year before month `i+1`. -/
def daysBefore (i : Int) : Int :=
  [0, 31, 59, 90, 120, 151, 181, 212, 243, 273, 304, 334, 365].getD i.toNat 0

/-- `daysIn`: the number of days in month `m` of `year`. -/
def daysIn (m : Int) (year : Int) : Int :=
  if m == 2 && isLeap year then 29 else daysBefore m - daysBefore (m - 1)

/-- `norm`: `(nhi, nlo)` with `hi * base + lo == nhi * base + nlo` and
`0 <= nlo < base`. -/
def norm (hi lo base : Int) : Int × Int :=
  let r : Int × Int :=
    if lo < 0 then
      let n := (-lo - 1) / base + 1
      (hi - n, lo + n * base)
    else (hi, lo)
  if r.2 ≥ base then
    let n := r.2 / base
    (r.1 + n, r.2 - n * base)
  else r

/-- `daysSinceEpoch`: the days from January 1 of year 1 to January 1 of `year`.
Go counts from the year -292277022399 in unsigned arithmetic; that year is
congruent to 1 modulo 400, so counting from year 1 with flooring division is
the same computation shifted by a constant. -/
def daysSinceEpoch (year : Int) : Int :=
  let y := year - 1
  let n := y / 400
  let y := y - 400 * n
  let d := 146097 * n
  let n := y / 100
  let y := y - 100 * n
  let d := d + 36524 * n
  let n := y / 4
  let y := y - 4 * n
  let d := d + 1461 * n
  let n := y
  d + 365 * n

/-- `time.Date`. -/
def Date (year month day hour min sec nsec : Int) (loc : Location) : Time :=
  let ym := norm year (month - 1) 12
  let year := ym.1
  let month := ym.2 + 1
  let sn := norm sec nsec 1000000000
  let ms := norm min sn.1 60
  let hm := norm hour ms.1 60
  let dh := norm day hm.1 24
  let nsec := sn.2
  let sec := ms.2
  let min := hm.2
  let hour := dh.2
  let day := dh.1
  let d := daysSinceEpoch year
  let d := d + daysBefore (month - 1)
  let d := if isLeap year && decide (month ≥ 3) then d + 1 else d
  let d := d + (day - 1)
  let abs := d * 86400
  let abs := abs + (hour * 3600 + min * 60 + sec)
  ⟨abs - loc.offset, nsec, loc⟩

/-- `Time.abs`: the seconds since the epoch as read on a clock in `t`'s location. -/
def Time.abs (t : Time) : Int := t.sec + t.loc.offset

/-- The year and the zero-based day of the year of a day count, the first half
of `absDate`. -/
def absYear (days : Int) : Int × Int :=
  let d := days
  let n := d / 146097
  let y := 400 * n
  let d := d - 146097 * n
  let n := d / 36524
  let n := n - n / 4
  let y := y + 100 * n
  let d := d - 36524 * n
  let n := d / 1461
  let y := y + 4 * n
  let d := d - 1461 * n
  let n := d / 365
  let n := n - n / 4
  let y := y + n
  let d := d - 365 * n
  (y + 1, d)

/-- The month and day of the month for a zero-based day of the year, the second
half of `absDate`; `leap` is `isLeap(year)`. -/
def absMonthDay (leap : Bool) (yday : Int) : Int × Int :=
  let adj : Option Int :=
    if leap then
      if yday > 31 + 29 - 1 then some (yday - 1)
      else if yday == 31 + 29 - 1 then none
      else some yday
    else some yday
  match adj with
  | none => (2, 29)
  | some day =>
    let month := day / 31
    let fin := daysBefore (month + 1)
    if day ≥ fin then (month + 1 + 1, day - fin + 1)
    else (month + 1, day - daysBefore month + 1)

/-- `absDate`: year, month, day of the month and zero-based day of the year of
an absolute second count. -/
def absDate (abs : Int) : Int × Int × Int × Int :=
  let yd := absYear (abs / 86400)
  let md := absMonthDay (isLeap yd.1) yd.2
  (yd.1, md.1, md.2, yd.2)

/-- `absClock`: hour, minute and second within the day. -/
def absClock (abs : Int) : Int × Int × Int :=
  let sec := abs % 86400
  let hour := sec / 3600
  let sec := sec - hour * 3600
  let min := sec / 60
  let sec := sec - min * 60
  (hour, min, sec)

/-- `Time.Date`: year, month and day in `t`'s location. -/
def Time.Date (t : Time) : Int × Int × Int :=
  let r := absDate t.abs
  (r.1, r.2.1, r.2.2.1)

/-- `Time.Year`. -/
def Time.Year (t : Time) : Int := (absDate t.abs).1

/-- `Time.Month`. -/
def Time.Month (t : Time) : Int := (absDate t.abs).2.1

/-- `Time.Day`. -/
def Time.Day (t : Time) : Int := (absDate t.abs).2.2.1

/-- `Time.Clock`: hour, minute and second in `t`'s location. -/
def Time.Clock (t : Time) : Int × Int × Int := absClock t.abs

/-- `Time.AddDate`. -/
def Time.AddDate (t : Time) (years months days : Int) : Time :=
  let ymd := t.Date
  let hms := t.Clock
  Mongodb.Date (ymd.1 + years) (ymd.2.1 + months) (ymd.2.2 + days) hms.1 hms.2.1 hms.2.2 t.nsec t.loc

/-! ### `time.Parse`

The parser of package `time`, for layouts built from the elements that occur in
`timestampFormats`: `2006 01 02 15 04 05 Jan Mon _2 -0700` and the fractional
seconds `.000` and `.999999999`.  Other layout elements are not modelled. -/

/-- The `std` codes of the layout elements that are modelled. -/
inductive Std where
  | stdLongYear
  | stdMonth
  | stdZeroMonth
  | stdWeekDay
  | stdZeroDay
  | stdUnderDay
  | stdHour
  | stdZeroMinute
  | stdZeroSecond
  | stdNumTZ
  | stdFracSecond0 (digits : Nat)
  | stdFracSecond9 (digits : Nat)
deriving DecidableEq, Repr

/-- Is `c` one of `0` to `9`? -/
def isDigitChar (c : Char) : Bool := decide (48 ≤ c.toNat) && decide (c.toNat ≤ 57)

/-- `isDigit`: is `s[i]` in range and a decimal digit? -/
def isDigit (s : List Char) (i : Nat) : Bool :=
  match s.get? i with
  | some c => isDigitChar c
  | none => false

/-- The number `int(c - 48)` of a digit character. -/
def digitVal (c : Char) : Int := (c.toNat : Int) - 48

/-- `startsWithLowerCase`. -/
def startsWithLowerCase (s : List Char) : Bool :=
  match s with
  | [] => false
  | c :: _ => decide (97 ≤ c.toNat) && decide (c.toNat ≤ 122)

/-- `commaOrPeriod`. -/
def commaOrPeriod (c : Char) : Bool := c == '.' || c == ','

/-- The layout element, if any, that starts at the head of `layout`, with the
layout that follows it: the body of the `switch` in `nextStdChunk`. -/
def stdAt (layout : List Char) : Option (Std × List Char) :=
  match layout with
  | [] => none
  | c :: cs =>
    if c = 'J' then
      if "Jan".toList.isPrefixOf layout && !"January".toList.isPrefixOf layout
          && !startsWithLowerCase (layout.drop 3) then
        some (Std.stdMonth, layout.drop 3)
      else none
    else if c = 'M' then
      if "Mon".toList.isPrefixOf layout && !"Monday".toList.isPrefixOf layout
          && !startsWithLowerCase (layout.drop 3) then
        some (Std.stdWeekDay, layout.drop 3)
      else none
    else if c = '0' then
      match cs with
      | '1' :: r => some (Std.stdZeroMonth, r)
      | '2' :: r => some (Std.stdZeroDay, r)
      | '4' :: r => some (Std.stdZeroMinute, r)
      | '5' :: r => some (Std.stdZeroSecond, r)
      | _ => none
    else if c = '1' then
      match cs with
      | '5' :: r => some (Std.stdHour, r)
      | _ => none
    else if c = '2' then
      if "2006".toList.isPrefixOf layout then some (Std.stdLongYear, layout.drop 4) else none
    else if c = '_' then
      if "_2".toList.isPrefixOf layout && !"_2006".toList.isPrefixOf layout then
        some (Std.stdUnderDay, layout.drop 2)
      else none
    else if c = '-' then
      if "-0700".toList.isPrefixOf layout && !"-070000".toList.isPrefixOf layout then
        some (Std.stdNumTZ, layout.drop 5)
      else none
    else if c = '.' || c = ',' then
      match cs with
      | ch :: _ =>
        if ch = '0' || ch = '9' then
          let digits := cs.takeWhile (fun x => x == ch)
          let rest := cs.dropWhile (fun x => x == ch)
          if !isDigit rest 0 then
            some (if ch = '0' then Std.stdFracSecond0 digits.length
              else Std.stdFracSecond9 digits.length, rest)
          else none
        else none
      | [] => none
    else none

/-- The scanning loop of `nextStdChunk`; `seen` holds, in reverse, the layout
characters already passed over. -/
def nextStdChunk.scan (seen : List Char) : List Char → List Char × Option Std × List Char
  | [] => (seen.reverse, none, [])
  | c :: cs =>
    match stdAt (c :: cs) with
    | some (std, suffix) => (seen.reverse, some std, suffix)
    | none => nextStdChunk.scan (c :: seen) cs

/-- `nextStdChunk`: the text before the first layout element, the element (or
`none` when the layout holds no further element) and the text after it. -/
def nextStdChunk (layout : List Char) : List Char × Option Std × List Char :=
  nextStdChunk.scan [] layout

/-- `cutspace`. -/
def cutspace (s : List Char) : List Char := s.dropWhile (fun c => c == ' ')

/-- The loop of `skip`; each round removes at least one character of `pre`, so
`fuel = pre.length` rounds are enough. -/
def skip.loop : Nat → List Char → List Char → Option (List Char)
  | 0, value, pre => if pre.isEmpty then some value else none
  | fuel + 1, value, pre =>
    match pre with
    | [] => some value
    | p :: ps =>
      if p = ' ' then
        if value.length > 0 && value.head? != some ' ' then none
        else skip.loop fuel (cutspace value) (cutspace (p :: ps))
      else
        match value with
        | [] => none
        | v :: vs => if v != p then none else skip.loop fuel vs ps

/-- `skip`: remove the literal text `pre` from the front of `value`; a space in
`pre` stands for any run of spaces, also an empty one at the end of `value`. -/
def skip (value pre : List Char) : Option (List Char) :=
  skip.loop pre.length value pre

/-- `getnum`: one or two (`fixed`: exactly two) digits at the front of `s`. -/
def getnum (s : List Char) (fixed : Bool) : Option (Int × List Char) :=
  match s with
  | [] => none
  | a :: r =>
    if !isDigitChar a then none
    else
      match r with
      | [] => if fixed then none else some (digitVal a, [])
      | b :: r2 =>
        if !isDigitChar b then
          if fixed then none else some (digitVal a, b :: r2)
        else some (digitVal a * 10 + digitVal b, r2)

/-- The loop of `leadingInt`: the digits at the front of `s`, read onto `x`. -/
def leadingInt.loop (x : Int) : List Char → Int × List Char
  | [] => (x, [])
  | c :: cs => if isDigitChar c then leadingInt.loop (x * 10 + digitVal c) cs else (x, c :: cs)

/-- `leadingInt`, without its overflow exit: `time.Parse` passes it at most
nine digits. -/
def leadingInt (s : List Char) : Int × List Char := leadingInt.loop 0 s

/-- `atoi`: an optional sign and then digits only. -/
def atoi (s : List Char) : Option Int :=
  let neg := s.head? == some '-'
  let s := if s.head? == some '-' || s.head? == some '+' then s.drop 1 else s
  let r := leadingInt s
  if r.2.length > 0 then none
  else some (if neg then -r.1 else r.1)

/-- `match`: do `s1` and `s2`, of the same length, agree up to the case of
letters? On bytes, `c | 0x20` is the lower-case form of a letter. -/
def matchFold : List Char → List Char → Bool
  | c1 :: r1, c2 :: r2 =>
    (c1 == c2 ||
      ((c1.toNat ||| 32) == (c2.toNat ||| 32) &&
        decide (97 ≤ (c1.toNat ||| 32)) && decide ((c1.toNat ||| 32) ≤ 122)))
    && matchFold r1 r2
  | _, _ => true

/-- The loop of `lookup`, at index `i` of the table. -/
def lookup.loop (val : List Char) (i : Int) : List String → Option (Int × List Char)
  | [] => none
  | v :: tab =>
    if val.length ≥ v.length && matchFold (val.take v.length) v.toList then
      some (i, val.drop v.length)
    else lookup.loop val (i + 1) tab

/-- `lookup`: the index of the first entry of `tab` that `val` starts with, up to
case, and the rest of `val`. -/
def lookup (tab : List String) (val : List Char) : Option (Int × List Char) :=
  lookup.loop val 0 tab

/-- `shortDayNames`. -/
def shortDayNames : List String := ["Sun", "Mon", "Tue", "Wed", "Thu", "Fri", "Sat"]

/-- `shortMonthNames`. -/
def shortMonthNames : List String :=
  ["Jan", "Feb", "Mar", "Apr", "May", "Jun", "Jul", "Aug", "Sep", "Oct", "Nov", "Dec"]

/-- `parseNanoseconds`: the fraction of a second written in `value[0:nbytes]`
(separator and digits), in nanoseconds. -/
def parseNanoseconds (value : List Char) (nbytes : Nat) : Option Int :=
  match value with
  | [] => none
  | c :: _ =>
    if !commaOrPeriod c then none
    else
      let value := if nbytes > 10 then value.take 10 else value
      let nbytes := if nbytes > 10 then 10 else nbytes
      match atoi ((value.take nbytes).drop 1) with
      | none => none
      | some ns => if ns < 0 then none else some (ns * 10 ^ (10 - nbytes))

/-- The time under construction in `parse`. -/
structure ParseState where
  year : Int
  month : Int
  day : Int
  hour : Int
  min : Int
  sec : Int
  nsec : Int
  zoneOffset : Int
deriving DecidableEq, Repr

/-- The initial values of `parse`: month, day and zone offset are unset (`-1`). -/
def ParseState.init : ParseState := ⟨0, -1, -1, 0, 0, 0, 0, -1⟩

/-- One round of the `switch std & stdMask` of `parse`: read the layout element
`std` off the front of `value`.  `layout` is the layout after `std`, which the
seconds element looks into.  `none` stands for either way the round can fail
(`err` or `rangeErrString` set). -/
def parseStd (std : Std) (layout : List Char) (st : ParseState) (value : List Char) :
    Option (ParseState × List Char) :=
  match std with
  | Std.stdLongYear =>
    if value.length < 4 || !isDigit value 0 then none
    else
      match atoi (value.take 4) with
      | none => none
      | some year => some ({ st with year := year }, value.drop 4)
  | Std.stdMonth =>
    match lookup shortMonthNames value with
    | none => none
    | some (month, value) => some ({ st with month := month + 1 }, value)
  | Std.stdZeroMonth =>
    match getnum value true with
    | none => none
    | some (month, value) =>
      if month ≤ 0 || 12 < month then none else some ({ st with month := month }, value)
  | Std.stdWeekDay =>
    match lookup shortDayNames value with
    | none => none
    | some (_, value) => some (st, value)
  | Std.stdZeroDay =>
    match getnum value true with
    | none => none
    | some (day, value) => some ({ st with day := day }, value)
  | Std.stdUnderDay =>
    let value := if value.length > 0 && value.head? == some ' ' then value.drop 1 else value
    match getnum value false with
    | none => none
    | some (day, value) => some ({ st with day := day }, value)
  | Std.stdHour =>
    match getnum value false with
    | none => none
    | some (hour, value) =>
      if hour < 0 || 24 ≤ hour then none else some ({ st with hour := hour }, value)
  | Std.stdZeroMinute =>
    match getnum value true with
    | none => none
    | some (min, value) =>
      if min < 0 || 60 ≤ min then none else some ({ st with min := min }, value)
  | Std.stdZeroSecond =>
    match getnum value true with
    | none => none
    | some (sec, value) =>
      if sec < 0 || 60 ≤ sec then none
      else
        match value with
        | c :: _ :: _ =>
          if commaOrPeriod c && isDigit value 1 then
            match (nextStdChunk layout).2.1 with
            | some (Std.stdFracSecond0 _) => some ({ st with sec := sec }, value)
            | some (Std.stdFracSecond9 _) => some ({ st with sec := sec }, value)
            | _ =>
              let n := 1 + ((value.drop 1).takeWhile isDigitChar).length
              match parseNanoseconds value n with
              | none => none
              | some nsec => some ({ st with sec := sec, nsec := nsec }, value.drop n)
          else some ({ st with sec := sec }, value)
        | _ => some ({ st with sec := sec }, value)
  | Std.stdNumTZ =>
    if value.length < 5 then none
    else
      match getnum ((value.drop 1).take 2) true, getnum ((value.drop 3).take 2) true with
      | some (hr, _), some (mm, _) =>
        if hr > 24 || mm > 60 then none
        else
          let zoneOffset := (hr * 60 + mm) * 60 + 0
          match value.head? with
          | some '+' => some ({ st with zoneOffset := zoneOffset }, value.drop 5)
          | some '-' => some ({ st with zoneOffset := -zoneOffset }, value.drop 5)
          | _ => none
      | _, _ => none
  | Std.stdFracSecond0 digits =>
    let ndigit := 1 + digits
    if value.length < ndigit then none
    else
      match parseNanoseconds value ndigit with
      | none => none
      | some nsec => some ({ st with nsec := nsec }, value.drop ndigit)
  | Std.stdFracSecond9 _ =>
    match value with
    | c :: _ :: _ =>
      if !commaOrPeriod c || !isDigit value 1 then some (st, value)
      else
        let i := ((value.drop 1).takeWhile isDigitChar).length
        match parseNanoseconds value (1 + i) with
        | none => none
        | some nsec => some ({ st with nsec := nsec }, value.drop (1 + i))
    | _ => some (st, value)

/-- The `for` loop of `parse`, one layout element per round.  Every round that
goes on shortens the layout, so `fuel = len(layout) + 1` rounds are enough. -/
def parseLoop : Nat → List Char → List Char → ParseState → Option ParseState
  | 0, _, _, _ => none
  | fuel + 1, layout, value, st =>
    match skip value (nextStdChunk layout).1 with
    | none => none
    | some value =>
      match (nextStdChunk layout).2.1 with
      | none => if value.length != 0 then none else some st
      | some std =>
        match parseStd std (nextStdChunk layout).2.2 st value with
        | none => none
        | some (st, value) => parseLoop fuel (nextStdChunk layout).2.2 value st

/-- The end of `parse`: default month and day, the check of the day against the
month, and the construction of the time, in UTC unless the value gave a zone
offset. -/
def parseFinish (st : ParseState) : Option Time :=
  let month := if st.month < 0 then 1 else st.month
  let day := if st.day < 0 then 1 else st.day
  if day < 1 || day > daysIn month st.year then none
  else if st.zoneOffset != -1 then
    let t := Date st.year month day st.hour st.min st.sec st.nsec UTC
    some ⟨t.sec - st.zoneOffset, t.nsec, ⟨st.zoneOffset⟩⟩
  else some (Date st.year month day st.hour st.min st.sec st.nsec UTC)

deriving instance DecidableEq for Except

/-- `time.Parse`. -/
def Parse (layout value : String) : Except Error Time :=
  match parseLoop (layout.length + 1) layout.toList value.toList ParseState.init with
  | none => Except.error (Error.parseError layout value)
  | some st =>
    match parseFinish st with
    | none => Except.error (Error.parseError layout value)
    | some t => Except.ok t

/-! ## Part 3: `parsers/mongodb/mongodb.go` -/

/-- The constant `ctimeTimeFormat`. -/
def ctimeTimeFormat : String := "Mon Jan _2 15:04:05.000"

/-- The constant `ctimeNoMSTimeFormat`. -/
def ctimeNoMSTimeFormat : String := "Mon Jan _2 15:04:05"

/-- The constant `iso8601UTCTimeFormat`. -/
def iso8601UTCTimeFormat : String := "2006-01-02T15:04:05Z"

/-- The constant `iso8601LocalTimeFormat`. -/
def iso8601LocalTimeFormat : String := "2006-01-02T15:04:05.999999999-0700"

/-- The variable `timestampFormats`. -/
def timestampFormats : List String :=
  [iso8601LocalTimeFormat, iso8601UTCTimeFormat, ctimeNoMSTimeFormat, ctimeTimeFormat]

/-- The struct `Options`. -/
structure Options where
  LogPartials : Bool
deriving DecidableEq, Repr

/-- What a call of `ParseLogLine` returns and leaves behind: the map and the
error returned, either of which may be nil whatever the other is, the state of
the line parser after the call and the heap after the call. -/
structure ParseResult (σ : Type) where
  values : Ref
  err : Option Error
  state : σ
  heap : Heap

/-- The interface `LineParser`.  An implementation may keep a state of its own
from call to call (`σ`, which is `init` before the first call), and the maps it
returns are objects on the heap (which is `heap` before the first call): at a
call it sees what became of the maps it returned earlier, it may change them,
and it may return one of them again. -/
structure LineParser (σ : Type) where
  init : σ
  heap : Heap
  ParseLogLine : σ → Heap → String → ParseResult σ

/-- The interface `Nower`.  A clock has state: `Now k` is what the call of
`Now()` answers after `k` earlier calls. -/
structure Nower where
  Now : Nat → Time

/-- The struct `Parser`; `σ` is the type of the states of its line parser. -/
structure Parser (σ : Type) where
  conf : Options
  lineParser : LineParser σ
  nower : Nower

/-- The struct `event.Event`, with the two fields that `ProcessLines` sets. -/
structure Event where
  Timestamp : Time
  Data : Fields

/-- The loop `for _, f := range timestampFormats` of `parseTimestamp` together
with the `return time.Time{}, err` that follows it, on the formats still to be
tried.  `err` is the variable declared by `var err error` before the loop.  The
loop body declares its own `err` (`timestamp, err := time.Parse(...)`), so the
outer one is handed on unchanged from round to round. -/
def Parser.parseTimestamp.loop (now : Time) (timestamp_value : String) (err : Option Error) :
    List String → Time × Option Error
  | [] => (Time.zero, err)
  | f :: formats =>
    match Parse f timestamp_value with
    | Except.ok timestamp =>
      if f == ctimeTimeFormat || f == ctimeNoMSTimeFormat then
        let ts := timestamp.AddDate now.Year 0 0
        if now.After ts then (ts, none)
        else (timestamp.AddDate (now.Year - 1) 0 0, none)
      else (timestamp, none)
    | Except.error _ => Parser.parseTimestamp.loop now timestamp_value err formats

/-- The body of the method `parseTimestamp` on what it reads: the content of the
map `values`, and the clock after `calls` earlier calls of `Now()`. -/
def Parser.parseTimestamp {σ : Type} (p : Parser σ) (calls : Nat) (values : Fields) :
    Time × Option Error :=
  let now := p.nower.Now calls
  let r := values.stringAt "timestamp"
  if r.2 then
    Parser.parseTimestamp.loop now r.1 none timestampFormats
  else (Time.zero, some (Error.errorString "timestamp missing from logline"))

/-- What a call of `parseTimestamp` returns and leaves behind: the time and the
error returned, the number of calls of `Now()` made so far and the heap after
the call. -/
structure TimestampResult where
  timestamp : Time
  err : Option Error
  calls : Nat
  heap : Heap

/-- A call of the method `parseTimestamp` in a program state: `values` is the
reference handed over, `heap` holds the map objects and `calls` is the number
of calls of `Now()` made before.  The method calls `Now()` once, reads the map
with `values["timestamp"]` and holds no assignment to the map and no `delete`
on it. -/
def Parser.parseTimestamp.call {σ : Type} (p : Parser σ) (calls : Nat) (heap : Heap)
    (values : Ref) : TimestampResult :=
  let r := p.parseTimestamp calls (heap.fields values)
  { timestamp := r.1, err := r.2, calls := calls + 1, heap := heap }

/-- The state of a run of `ProcessLines`: how often the clock has been read, the
state of the line parser, the heap, and the events sent on the channel `send`
so far, oldest first. -/
structure LoopState (σ : Type) where
  calls : Nat
  parser : σ
  heap : Heap
  sent : List Event

/-- The body of the loop `for line := range lines` of `ProcessLines`.
`IsPartialLogLine` is the function `logparser.IsPartialLogLine` of the package
`mongodbtools/logparser`.  The `delete` works on the map object that the line
parser returned, and the event sent holds that same map. -/
def Parser.ProcessLines.body {σ : Type} (IsPartialLogLine : Option Error → Bool) (p : Parser σ)
    (st : LoopState σ) (line : String) : LoopState σ :=
  let r := p.lineParser.ParseLogLine st.parser st.heap line
  let st : LoopState σ := { st with parser := r.state, heap := r.heap }
  let values := r.values
  let err := r.err
  if err.isNone || (p.conf.LogPartials && IsPartialLogLine err) then
    let tr := Parser.parseTimestamp.call p st.calls st.heap values
    let st : LoopState σ := { st with calls := tr.calls, heap := tr.heap }
    if tr.err.isSome then st
    else
      let st : LoopState σ := { st with heap := st.heap.delete values "timestamp" }
      { st with sent := st.sent ++ [{ Timestamp := tr.timestamp, Data := st.heap.fields values }] }
  else st

/-- The loop of `ProcessLines` from the state `st` on. -/
def Parser.ProcessLines.run {σ : Type} (IsPartialLogLine : Option Error → Bool) (p : Parser σ)
    (st : LoopState σ) (lines : List String) : LoopState σ :=
  lines.foldl (Parser.ProcessLines.body IsPartialLogLine p) st

/-- The state in which a parser starts: the clock not yet read, the line parser
in its first state, nothing sent. -/
def Parser.start {σ : Type} (p : Parser σ) : LoopState σ :=
  { calls := 0, parser := p.lineParser.init, heap := p.lineParser.heap, sent := [] }

/-- The method `Parser.ProcessLines`: the events sent on `send` while the lines of
`lines` are received, up to the closing of `lines`. -/
def Parser.ProcessLines {σ : Type} (IsPartialLogLine : Option Error → Bool) (p : Parser σ)
    (lines : List String) : List Event :=
  (Parser.ProcessLines.run IsPartialLogLine p p.start lines).sent

/-! ## Notions used in the statements -/

/-- The zero-based day of the year of day `d` of month `m`, as `Date` adds it
up; `leap` is `isLeap(year)`. -/
def dayOfYear (leap : Bool) (m d : Int) : Int :=
  daysBefore (m - 1) + (if leap && decide (m ≥ 3) then 1 else 0) + (d - 1)

/-- The length of month `m`, as `daysIn` computes it; `leap` is `isLeap(year)`. -/
def monthLength (leap : Bool) (m : Int) : Int :=
  if m == 2 && leap then 29 else daysBefore m - daysBefore (m - 1)

/-- The fields of a time within their ranges: the hour, minute, second and
nanosecond of a clock reading. -/
structure ClockRange (hour min sec nsec : Int) : Prop where
  hour0 : 0 ≤ hour
  hour1 : hour < 24
  min0 : 0 ≤ min
  min1 : min < 60
  sec0 : 0 ≤ sec
  sec1 : sec < 60
  nsec0 : 0 ≤ nsec
  nsec1 : nsec < 1000000000

/-- The parse stage of the line processor in the words of the specification: a
line goes on to the resolve stage when the line parser reports success, or when
it reports an error classified as partial and partial-acceptance is on; on any
other error the line is dropped.  `err` is what the line parser reported. -/
def Parser.passesParse {σ : Type} (IsPartialLogLine : Option Error → Bool) (p : Parser σ)
    (err : Option Error) : Bool :=
  match err with
  | none => true
  | some e => p.conf.LogPartials && IsPartialLogLine (some e)

/-- The outcome of one line in the words of the specification: a line that
passes the parse stage and whose timestamp resolves yields the event made of
the resolved time and the fields without the raw timestamp; any other line
yields nothing.  The line is parsed by the line parser in the state `st`. -/
def Parser.lineOutcome {σ : Type} (IsPartialLogLine : Option Error → Bool) (p : Parser σ)
    (st : LoopState σ) (line : String) : Option Event :=
  let r := p.lineParser.ParseLogLine st.parser st.heap line
  if p.passesParse IsPartialLogLine r.err then
    match p.parseTimestamp st.calls (r.heap.fields r.values) with
    | (t, none) => some ⟨t, (r.heap.fields r.values).delete "timestamp"⟩
    | (_, some _) => none
  else none

/-- The state of the collaborators after a line, in the words of the
specification: the line parser has parsed the line, the clock has been read
once if the line reached the resolve stage, and the raw timestamp is gone from
the fields of a line that yielded an event.  Nothing is recorded as sent. -/
def Parser.afterLine {σ : Type} (IsPartialLogLine : Option Error → Bool) (p : Parser σ)
    (st : LoopState σ) (line : String) : LoopState σ :=
  let r := p.lineParser.ParseLogLine st.parser st.heap line
  { calls := if p.passesParse IsPartialLogLine r.err then st.calls + 1 else st.calls
    parser := r.state
    heap :=
      if (p.lineOutcome IsPartialLogLine st line).isSome then r.heap.delete r.values "timestamp"
      else r.heap
    sent := [] }

/-- The outcomes of the lines of an input, one entry for every line, in the
order of the input, from the state `st` of the collaborators on. -/
def Parser.lineOutcomes {σ : Type} (IsPartialLogLine : Option Error → Bool) (p : Parser σ) :
    LoopState σ → List String → List (Option Event)
  | _, [] => []
  | st, line :: rest =>
    p.lineOutcome IsPartialLogLine st line ::
      Parser.lineOutcomes IsPartialLogLine p (p.afterLine IsPartialLogLine st line) rest

/-- A line parser that answers by the line alone: in every state of its own and
on every heap, the error it returns for a line and the content of the map it
returns are those that `f` gives for the line. -/
def LineParser.Answers {σ : Type} (lp : LineParser σ) (f : String → Fields × Option Error) :
    Prop :=
  ∀ (s : σ) (h : Heap) (line : String),
    (lp.ParseLogLine s h line).err = (f line).2 ∧
    (lp.ParseLogLine s h line).heap.fields (lp.ParseLogLine s h line).values = (f line).1

/-! ### Test doubles

Stand-ins for the two collaborators of a `Parser`, used to run the code on
concrete inputs. -/

/-- A clock that answers `now` at every call. -/
def Nower.fixed (now : Time) : Nower := ⟨fun _ => now⟩

/-- A line parser that makes a new map at every call, with the content `(f line).1`,
and returns it with the error `(f line).2`.  Its state is the address of the
next map. -/
def LineParser.fresh (f : String → Fields × Option Error) : LineParser Nat :=
  { init := 0
    heap := fun _ => Fields.empty
    ParseLogLine := fun next heap line =>
      { values := some next, err := (f line).2, state := next + 1,
        heap := heap.store next (f line).1 } }

/-- A line parser that owns one map, with the content `m` before the first call,
and returns it at every call with no error, whatever the line. -/
def LineParser.shared (m : Fields) : LineParser Unit :=
  { init := ()
    heap := fun _ => m
    ParseLogLine := fun s heap _ => { values := some 0, err := none, state := s, heap := heap } }

/-- A line parser that returns the nil map with every line, and the error `err`. -/
def LineParser.nilMap (err : Option Error) : LineParser Unit :=
  { init := ()
    heap := fun _ => Fields.empty
    ParseLogLine := fun s heap _ => { values := none, err := err, state := s, heap := heap } }

/-- The fields `"line"` and `"timestamp"`, the latter bound to the string `s`. -/
def Fields.lineTimestamp (s : String) : Fields :=
  (Fields.empty.set "line" (Value.int 1)).set "timestamp" (Value.str s)

/-- A line parser that returns the whole line as the field `"timestamp"`,
together with the field `"line"`, in a new map and with no error. -/
def LineParser.timestampOnly : LineParser Nat :=
  LineParser.fresh (fun line => (Fields.lineTimestamp line, none))

/-- A line parser that returns the whole line as the field `"timestamp"`, in a new
map, and with it the error `e`. -/
def LineParser.failing (e : Error) : LineParser Nat :=
  LineParser.fresh (fun line => (Fields.lineTimestamp line, some e))

/-- An error of the dynamic type that `logparser.IsPartialLogLine` recognises. -/
def partialLogLineError : Error := Error.foreign "logparser.partialLogLineError" "truncated"

/-- A stand-in for `logparser.IsPartialLogLine`: a test of the dynamic type. -/
def isPartialByType : Option Error → Bool
  | some (Error.foreign "logparser.partialLogLineError" _) => true
  | _ => false

/-- The fields holding only `"timestamp"`, bound to the string `s`. -/
def Fields.timestamp (s : String) : Fields := Fields.empty.set "timestamp" (Value.str s)

/-- A parser made of the test doubles: the line parser `timestampOnly` and a
clock fixed at `now`. -/
def Parser.test (logPartials : Bool) (now : Time) : Parser Nat :=
  ⟨⟨logPartials⟩, LineParser.timestampOnly, Nower.fixed now⟩

/-- A parser made of the test doubles: a line parser that returns the error `e`
with every line, and a clock fixed at `now`. -/
def Parser.testFailing (logPartials : Bool) (e : Error) (now : Time) : Parser Nat :=
  ⟨⟨logPartials⟩, LineParser.failing e, Nower.fixed now⟩

/-- A parser made of the test doubles: a line parser that returns one and the same
map with every line, which holds the field `"timestamp"` bound to `s` before
the first call, and a clock fixed at `now`. -/
def Parser.testShared (s : String) (now : Time) : Parser Unit :=
  ⟨⟨false⟩, LineParser.shared (Fields.timestamp s), Nower.fixed now⟩

/-- The error that `parseTimestamp` builds with `errors.New`. -/
def errTimestampMissing : Error := Error.errorString "timestamp missing from logline"


/-- The fields of a `ParseState` within the ranges that `parse` keeps them in:
the month unset or a month, and a clock reading. -/
structure ParseState.InRange (st : ParseState) : Prop where
  month : st.month = -1 ∨ (1 ≤ st.month ∧ st.month ≤ 12)
  clock : ClockRange st.hour st.min st.sec st.nsec

/-- The layout elements of a layout, in order: what the rounds of `parseLoop`
find with `nextStdChunk`. -/
def layoutStds : Nat → List Char → List Std
  | 0, _ => []
  | fuel + 1, layout =>
    match (nextStdChunk layout).2.1 with
    | none => []
    | some std => std :: layoutStds fuel (nextStdChunk layout).2.2

/-- One round of the loop of `parse` on a state and the value still to be read:
skip the text `pre` that stands before the layout element, then read the
element `std`; `suffix` is the layout after the element. -/
def parseRound (pre : List Char) (std : Std) (suffix : List Char)
    (x : ParseState × List Char) : Option (ParseState × List Char) :=
  match skip x.2 pre with
  | none => none
  | some value => parseStd std suffix x.1 value

/-- The last round of the loop of `parse`: skip the text `pre` that ends the
layout; nothing of the value may be left. -/
def parseEnd (pre : List Char) (x : ParseState × List Char) : Option ParseState :=
  match skip x.2 pre with
  | none => none
  | some value => if value.length != 0 then none else some x.1

/-- The rounds that `parseLoop` makes on a layout, each with the text before the
layout element, the element and the layout after it, and the text that ends
the layout. -/
def layoutRounds : Nat → List Char → List (List Char × Std × List Char) × List Char
  | 0, layout => ([], layout)
  | fuel + 1, layout =>
    match (nextStdChunk layout).2.1 with
    | none => ([], (nextStdChunk layout).1)
    | some std =>
      (((nextStdChunk layout).1, std, (nextStdChunk layout).2.2) ::
          (layoutRounds fuel (nextStdChunk layout).2.2).1,
        (layoutRounds fuel (nextStdChunk layout).2.2).2)

/-- The rounds of a list made one after the other, and then the last round. -/
def runRounds : List (List Char × Std × List Char) → List Char → ParseState × List Char →
    Option ParseState
  | [], last, x => parseEnd last x
  | r :: rest, last, x =>
    match parseRound r.1 r.2.1 r.2.2 x with
    | none => none
    | some y => runRounds rest last y

/-- The time that the first year-absent layout to parse `s`, in the order of
`timestampFormats`, gives for it. -/
def ctimeParse (s : String) : Option Time :=
  match Parse ctimeNoMSTimeFormat s with
  | Except.ok t => some t
  | Except.error _ =>
    match Parse ctimeTimeFormat s with
    | Except.ok t => some t
    | Except.error _ => none
/-! ## Part 4: lemmas and theorems -/

/-! ### `parseTimestamp` -/

theorem stringAt_of_str (values : Fields) (k s : String) (h : values k = some (Value.str s)) :
    values.stringAt k = (s, true) := by
  simp [Fields.stringAt, h]

theorem stringAt_snd_eq_true (values : Fields) (k : String) :
    (values.stringAt k).2 = true ↔ ∃ s, values k = some (Value.str s) := by
  unfold Fields.stringAt
  split
  · next s h => simp [h]
  · next h =>
    simp only [Bool.false_eq_true, false_iff, not_exists]
    intro s hs
    exact h s hs

theorem parseTimestamp_of_str {σ : Type} (p : Parser σ) (calls : Nat) (values : Fields) (s : String)
    (h : values "timestamp" = some (Value.str s)) :
    p.parseTimestamp calls values
      = Parser.parseTimestamp.loop (p.nower.Now calls) s none timestampFormats := by
  simp [Parser.parseTimestamp, stringAt_of_str values "timestamp" s h]

theorem loop_all_fail (now : Time) (s : String) (err : Option Error) (formats : List String)
    (h : ∀ f ∈ formats, ∃ e, Parse f s = Except.error e) :
    Parser.parseTimestamp.loop now s err formats = (Time.zero, err) := by
  induction formats with
  | nil => rfl
  | cons f rest ih =>
    obtain ⟨e, he⟩ := h f (List.mem_cons_self f rest)
    simp only [Parser.parseTimestamp.loop, he]
    exact ih (fun g hg => h g (List.mem_cons_of_mem f hg))

theorem loop_skip_failures (now : Time) (s : String) (err : Option Error)
    (before rest : List String) (h : ∀ g ∈ before, ∃ e, Parse g s = Except.error e) :
    Parser.parseTimestamp.loop now s err (before ++ rest)
      = Parser.parseTimestamp.loop now s err rest := by
  induction before with
  | nil => rfl
  | cons g gs ih =>
    obtain ⟨e, he⟩ := h g (List.mem_cons_self g gs)
    simp only [List.cons_append, Parser.parseTimestamp.loop, he]
    exact ih (fun k hk => h k (List.mem_cons_of_mem g hk))

theorem loop_first_success (now : Time) (s : String) (err : Option Error) (f : String)
    (after : List String) (t : Time) (h : Parse f s = Except.ok t) :
    Parser.parseTimestamp.loop now s err (f :: after)
      = Parser.parseTimestamp.loop now s err [f] := by
  simp only [Parser.parseTimestamp.loop, h]

theorem loop_error_eq (now : Time) (s : String) (err : Option Error) (formats : List String) :
    (Parser.parseTimestamp.loop now s err formats).2 = none ∨
      (Parser.parseTimestamp.loop now s err formats).2 = err := by
  induction formats with
  | nil => right; rfl
  | cons f rest ih =>
    simp only [Parser.parseTimestamp.loop]
    split
    · left
      split
      · split <;> rfl
      · rfl
    · exact ih

/-! ### The heap -/

theorem Heap.fields_delete (h : Heap) (r : Ref) (k : String) :
    (h.delete r k).fields r = (h.fields r).delete k := by
  cases r with
  | none =>
    funext j
    simp [Heap.delete, Heap.fields, Fields.delete, Fields.empty]
  | some a => simp [Heap.delete, Heap.fields, Heap.store]

theorem Heap.fields_delete_same (h : Heap) (r : Ref) (k : String) :
    (h.delete r k).fields r k = none := by
  rw [Heap.fields_delete]
  simp [Fields.delete]

/-! ### `ProcessLines` -/

theorem passesParse_eq {σ : Type} (isP : Option Error → Bool) (p : Parser σ)
    (err : Option Error) :
    p.passesParse isP err = (err.isNone || (p.conf.LogPartials && isP err)) := by
  unfold Parser.passesParse
  cases err <;> rfl

/-- The loop body in terms of the outcome of the line and of the state after it. -/
theorem body_eq_lineOutcome {σ : Type} (isP : Option Error → Bool) (p : Parser σ)
    (st : LoopState σ) (line : String) :
    Parser.ProcessLines.body isP p st line
      = ⟨(p.afterLine isP st line).calls, (p.afterLine isP st line).parser,
          (p.afterLine isP st line).heap, st.sent ++ (p.lineOutcome isP st line).toList⟩ := by
  simp only [Parser.ProcessLines.body, Parser.afterLine, Parser.lineOutcome, passesParse_eq,
    Parser.parseTimestamp.call]
  split
  · rcases hr : p.parseTimestamp st.calls
      ((p.lineParser.ParseLogLine st.parser st.heap line).heap.fields
        (p.lineParser.ParseLogLine st.parser st.heap line).values) with ⟨t, e⟩
    cases e with
    | none => simp [Heap.fields_delete]
    | some e => simp
  · simp

theorem lineOutcome_sent {σ : Type} (isP : Option Error → Bool) (p : Parser σ)
    (st : LoopState σ) (sent : List Event) (line : String) :
    p.lineOutcome isP ⟨st.calls, st.parser, st.heap, sent⟩ line = p.lineOutcome isP st line :=
  rfl

theorem afterLine_sent {σ : Type} (isP : Option Error → Bool) (p : Parser σ)
    (st : LoopState σ) (sent : List Event) (line : String) :
    p.afterLine isP ⟨st.calls, st.parser, st.heap, sent⟩ line = p.afterLine isP st line :=
  rfl

theorem lineOutcomes_sent {σ : Type} (isP : Option Error → Bool) (p : Parser σ)
    (st : LoopState σ) (sent : List Event) (lines : List String) :
    p.lineOutcomes isP ⟨st.calls, st.parser, st.heap, sent⟩ lines = p.lineOutcomes isP st lines := by
  cases lines <;> rfl

theorem run_append {σ : Type} (isP : Option Error → Bool) (p : Parser σ) (xs ys : List String)
    (st : LoopState σ) :
    Parser.ProcessLines.run isP p st (xs ++ ys)
      = Parser.ProcessLines.run isP p (Parser.ProcessLines.run isP p st xs) ys := by
  simp [Parser.ProcessLines.run, List.foldl_append]

theorem run_cons {σ : Type} (isP : Option Error → Bool) (p : Parser σ) (x : String)
    (ys : List String) (st : LoopState σ) :
    Parser.ProcessLines.run isP p st (x :: ys)
      = Parser.ProcessLines.run isP p (Parser.ProcessLines.body isP p st x) ys := by
  simp [Parser.ProcessLines.run]

/-- The events of a run are the outcomes of its lines. -/
theorem run_eq_lineOutcomes {σ : Type} (isP : Option Error → Bool) (p : Parser σ)
    (lines : List String) (st : LoopState σ) :
    (Parser.ProcessLines.run isP p st lines).sent
      = st.sent ++ (p.lineOutcomes isP st lines).reduceOption := by
  induction lines generalizing st with
  | nil => simp [Parser.ProcessLines.run, Parser.lineOutcomes]
  | cons line rest ih =>
    rw [run_cons, ih, body_eq_lineOutcome]
    have hrest := lineOutcomes_sent isP p (p.afterLine isP st line)
      (st.sent ++ (p.lineOutcome isP st line).toList) rest
    simp only at hrest ⊢
    rw [hrest]
    simp only [Parser.lineOutcomes, List.append_assoc]
    cases p.lineOutcome isP st line with
    | none => simp
    | some ev => simp

/-- The state of the clock, of the line parser and of the heap after a run does
not depend on what was sent before the run, and the run adds to it. -/
theorem run_calls_sent {σ : Type} (isP : Option Error → Bool) (p : Parser σ)
    (lines : List String) (st : LoopState σ) :
    Parser.ProcessLines.run isP p st lines
      = ⟨(Parser.ProcessLines.run isP p ⟨st.calls, st.parser, st.heap, []⟩ lines).calls,
         (Parser.ProcessLines.run isP p ⟨st.calls, st.parser, st.heap, []⟩ lines).parser,
         (Parser.ProcessLines.run isP p ⟨st.calls, st.parser, st.heap, []⟩ lines).heap,
         st.sent ++ (Parser.ProcessLines.run isP p ⟨st.calls, st.parser, st.heap, []⟩ lines).sent⟩ := by
  induction lines generalizing st with
  | nil => simp [Parser.ProcessLines.run]
  | cons line rest ih =>
    rw [run_cons, run_cons, ih (Parser.ProcessLines.body isP p st line),
      ih (Parser.ProcessLines.body isP p ⟨st.calls, st.parser, st.heap, []⟩ line)]
    simp only [body_eq_lineOutcome, lineOutcome_sent, afterLine_sent, List.nil_append,
      List.append_assoc]

theorem body_sent_timestamp_absent {σ : Type} (isP : Option Error → Bool) (p : Parser σ)
    (st : LoopState σ) (line : String) (h : ∀ e ∈ st.sent, e.Data "timestamp" = none) :
    ∀ e ∈ (Parser.ProcessLines.body isP p st line).sent, e.Data "timestamp" = none := by
  simp only [Parser.ProcessLines.body, Parser.parseTimestamp.call]
  split
  · split
    · exact h
    · intro e he
      rcases List.mem_append.mp he with h1 | h1
      · exact h e h1
      · rw [List.mem_singleton.mp h1]
        exact Heap.fields_delete_same _ _ _
  · exact h

theorem run_sent_timestamp_absent {σ : Type} (isP : Option Error → Bool) (p : Parser σ)
    (lines : List String) (st : LoopState σ) (h : ∀ e ∈ st.sent, e.Data "timestamp" = none) :
    ∀ e ∈ (Parser.ProcessLines.run isP p st lines).sent, e.Data "timestamp" = none := by
  induction lines generalizing st with
  | nil => simpa [Parser.ProcessLines.run] using h
  | cons line rest ih =>
    rw [run_cons]
    exact ih _ (body_sent_timestamp_absent isP p st line h)

/-! ### The calendar of package `time` -/

theorem daysIn_eq_monthLength (m year : Int) : daysIn m year = monthLength (isLeap year) m := rfl

theorem isLeap_iff (Y : Int) :
    isLeap Y = true ↔ (Y % 4 = 0 ∧ (Y % 100 ≠ 0 ∨ Y % 400 = 0)) := by
  simp [isLeap]

theorem norm_of_range (hi lo base : Int) (h0 : 0 ≤ lo) (h1 : lo < base) :
    norm hi lo base = (hi, lo) := by
  simp [norm, not_lt.mpr h0, not_le.mpr h1]

/-- A year splits into 400-, 100-, 4- and 1-year cycles, and `daysSinceEpoch`
adds up the days of those cycles. -/
theorem daysSinceEpoch_cycles (Y : Int) :
    ∃ a b c e : Int, 0 ≤ b ∧ b ≤ 3 ∧ 0 ≤ c ∧ c ≤ 24 ∧ 0 ≤ e ∧ e ≤ 3 ∧
      Y = 400 * a + 100 * b + 4 * c + e + 1 ∧
      daysSinceEpoch Y = 146097 * a + 36524 * b + 1461 * c + 365 * e := by
  refine ⟨(Y - 1) / 400, (Y - 1 - 400 * ((Y - 1) / 400)) / 100,
    (Y - 1 - 400 * ((Y - 1) / 400) - 100 * ((Y - 1 - 400 * ((Y - 1) / 400)) / 100)) / 4,
    (Y - 1 - 400 * ((Y - 1) / 400) - 100 * ((Y - 1 - 400 * ((Y - 1) / 400)) / 100)) -
      4 * ((Y - 1 - 400 * ((Y - 1) / 400) - 100 * ((Y - 1 - 400 * ((Y - 1) / 400)) / 100)) / 4),
    ?_, ?_, ?_, ?_, ?_, ?_, ?_, ?_⟩
  · omega
  · omega
  · omega
  · omega
  · omega
  · omega
  · omega
  · simp only [daysSinceEpoch]

theorem absYear_of_cycles (a b c e k : Int) (hb0 : 0 ≤ b) (hb : b ≤ 3) (hc0 : 0 ≤ c)
    (hc : c ≤ 24) (he0 : 0 ≤ e) (he : e ≤ 3) (h0 : 0 ≤ k)
    (hk : k < 365 ∨ (k = 365 ∧ e = 3 ∧ (c ≠ 24 ∨ b = 3))) :
    absYear (146097 * a + 36524 * b + 1461 * c + 365 * e + k)
      = (400 * a + 100 * b + 4 * c + e + 1, k) := by
  simp only [absYear]
  have h1 : (146097 * a + 36524 * b + 1461 * c + 365 * e + k) / 146097 = a := by omega
  rw [h1]
  have h2 : (146097 * a + 36524 * b + 1461 * c + 365 * e + k - 146097 * a) / 36524
      = b + (if b = 3 ∧ c = 24 ∧ e = 3 ∧ k = 365 then 1 else 0) := by
    split <;> omega
  rw [h2]
  have h3 : (b + (if b = 3 ∧ c = 24 ∧ e = 3 ∧ k = 365 then 1 else 0)) -
      (b + (if b = 3 ∧ c = 24 ∧ e = 3 ∧ k = 365 then 1 else 0)) / 4 = b := by
    split <;> omega
  rw [h3]
  have h4 : (146097 * a + 36524 * b + 1461 * c + 365 * e + k - 146097 * a - 36524 * b) / 1461
      = c := by omega
  rw [h4]
  have h5 : (146097 * a + 36524 * b + 1461 * c + 365 * e + k - 146097 * a - 36524 * b
      - 1461 * c) / 365 = e + (if e = 3 ∧ k = 365 then 1 else 0) := by
    split <;> omega
  rw [h5]
  have h6 : (e + (if e = 3 ∧ k = 365 then 1 else 0)) -
      (e + (if e = 3 ∧ k = 365 then 1 else 0)) / 4 = e := by
    split <;> omega
  rw [h6]
  refine Prod.ext rfl ?_
  simp only
  omega

/-- Day `k` of year `Y` (zero-based, within the year) is found back by `absYear`. -/
theorem absYear_daysSinceEpoch (Y k : Int) (h0 : 0 ≤ k)
    (hk : k < 365 + (if isLeap Y then 1 else 0)) :
    absYear (daysSinceEpoch Y + k) = (Y, k) := by
  obtain ⟨a, b, c, e, hb0, hb, hc0, hc, he0, he, hY, hD⟩ := daysSinceEpoch_cycles Y
  have hl := isLeap_iff Y
  have hk2 : k < 365 ∨ (k = 365 ∧ e = 3 ∧ (c ≠ 24 ∨ b = 3)) := by
    by_cases h : isLeap Y = true
    · simp only [h, if_true] at hk
      have := hl.mp h
      omega
    · simp only [h] at hk
      left
      simpa using hk
  rw [hD, absYear_of_cycles a b c e k hb0 hb hc0 hc he0 he h0 hk2, ← hY]

set_option maxRecDepth 100000 in
/-- Every day of every month is found back by `absMonthDay`. -/
theorem absMonthDay_table : ∀ leap : Bool, ∀ m : Fin 12, ∀ d : Fin 31,
    ((d.val : Int) + 1 ≤ monthLength leap ((m.val : Int) + 1)) →
    absMonthDay leap (dayOfYear leap ((m.val : Int) + 1) ((d.val : Int) + 1))
      = ((m.val : Int) + 1, (d.val : Int) + 1) := by
  decide

set_option maxRecDepth 100000 in
/-- No day of a month, not even a February 29 in a common year, leaves the year. -/
theorem dayOfYear_table : ∀ leap : Bool, ∀ m : Fin 12, ∀ d : Fin 31,
    ((d.val : Int) + 1 ≤ monthLength true ((m.val : Int) + 1)) →
    0 ≤ dayOfYear leap ((m.val : Int) + 1) ((d.val : Int) + 1) ∧
    dayOfYear leap ((m.val : Int) + 1) ((d.val : Int) + 1) < 365 + (if leap then 1 else 0) := by
  decide

set_option maxRecDepth 100000 in
theorem monthLength_table : ∀ leap : Bool, ∀ m : Fin 12,
    28 ≤ monthLength leap ((m.val : Int) + 1) ∧ monthLength leap ((m.val : Int) + 1) ≤ 31 ∧
      monthLength leap ((m.val : Int) + 1) ≤ monthLength true ((m.val : Int) + 1) := by
  decide

theorem monthLength_le (leap : Bool) (m : Int) (hm1 : 1 ≤ m) (hm2 : m ≤ 12) :
    monthLength leap m ≤ 31 ∧ monthLength leap m ≤ monthLength true m := by
  have h := monthLength_table leap ⟨(m - 1).toNat, by omega⟩
  have e : (((m - 1).toNat : Nat) : Int) + 1 = m := by omega
  simp only [e] at h
  exact ⟨h.2.1, h.2.2⟩

theorem absMonthDay_dayOfYear (leap : Bool) (m d : Int) (hm1 : 1 ≤ m) (hm2 : m ≤ 12)
    (hd1 : 1 ≤ d) (hd2 : d ≤ monthLength leap m) :
    absMonthDay leap (dayOfYear leap m d) = (m, d) := by
  have hlen := monthLength_le leap m hm1 hm2
  have h := absMonthDay_table leap ⟨(m - 1).toNat, by omega⟩ ⟨(d - 1).toNat, by omega⟩
  have e1 : (((m - 1).toNat : Nat) : Int) + 1 = m := by omega
  have e2 : (((d - 1).toNat : Nat) : Int) + 1 = d := by omega
  simp only [e1, e2] at h
  exact h hd2

theorem dayOfYear_range (leap : Bool) (m d : Int) (hm1 : 1 ≤ m) (hm2 : m ≤ 12)
    (hd1 : 1 ≤ d) (hd2 : d ≤ monthLength true m) :
    0 ≤ dayOfYear leap m d ∧ dayOfYear leap m d < 365 + (if leap then 1 else 0) := by
  have hlen := monthLength_le true m hm1 hm2
  have h := dayOfYear_table leap ⟨(m - 1).toNat, by omega⟩ ⟨(d - 1).toNat, by omega⟩
  have e1 : (((m - 1).toNat : Nat) : Int) + 1 = m := by omega
  have e2 : (((d - 1).toNat : Nat) : Int) + 1 = d := by omega
  simp only [e1, e2] at h
  exact h hd2

/-- `Date` on a month and a clock reading that need no normalising. -/
theorem Date_of_range (Y m d hh mi ss ns : Int) (loc : Location) (hm1 : 1 ≤ m)
    (hm2 : m ≤ 12) (hc : ClockRange hh mi ss ns) :
    Date Y m d hh mi ss ns loc
      = ⟨(daysSinceEpoch Y + dayOfYear (isLeap Y) m d) * 86400 + (hh * 3600 + mi * 60 + ss)
          - loc.offset, ns, loc⟩ := by
  obtain ⟨a1, a2, a3, a4, a5, a6, a7, a8⟩ := hc
  have n1 : norm Y (m - 1) 12 = (Y, m - 1) := norm_of_range _ _ _ (by omega) (by omega)
  have n2 : norm ss ns 1000000000 = (ss, ns) := norm_of_range _ _ _ a7 a8
  have n3 : norm mi ss 60 = (mi, ss) := norm_of_range _ _ _ a5 a6
  have n4 : norm hh mi 60 = (hh, mi) := norm_of_range _ _ _ a3 a4
  have n5 : norm d hh 24 = (d, hh) := norm_of_range _ _ _ a1 a2
  simp only [Date, n1, n2, n3, n4, n5, dayOfYear]
  have e : m - 1 + 1 = m := by omega
  rw [e]
  congr 1
  split <;> omega

theorem Date_abs (Y m d hh mi ss ns : Int) (loc : Location) (hm1 : 1 ≤ m)
    (hm2 : m ≤ 12) (hc : ClockRange hh mi ss ns) :
    (Date Y m d hh mi ss ns loc).abs
      = (daysSinceEpoch Y + dayOfYear (isLeap Y) m d) * 86400 + (hh * 3600 + mi * 60 + ss) := by
  rw [Date_of_range Y m d hh mi ss ns loc hm1 hm2 hc]
  simp only [Time.abs]
  omega

theorem abs_div_day (D hh mi ss ns : Int) (hc : ClockRange hh mi ss ns) :
    (D * 86400 + (hh * 3600 + mi * 60 + ss)) / 86400 = D := by
  obtain ⟨a1, a2, a3, a4, a5, a6, a7, a8⟩ := hc
  omega

/-- The year of a date is the year given to `Date`, for every day that the month
can have in a leap year. -/
theorem Date_Year (Y m d hh mi ss ns : Int) (loc : Location) (hm1 : 1 ≤ m) (hm2 : m ≤ 12)
    (hd1 : 1 ≤ d) (hd2 : d ≤ monthLength true m) (hc : ClockRange hh mi ss ns) :
    (Date Y m d hh mi ss ns loc).Year = Y := by
  have hr := dayOfYear_range (isLeap Y) m d hm1 hm2 hd1 hd2
  simp only [Time.Year, absDate, Date_abs Y m d hh mi ss ns loc hm1 hm2 hc,
    abs_div_day _ hh mi ss ns hc, absYear_daysSinceEpoch Y _ hr.1 hr.2]

/-- Year, month and day of a date are those given to `Date`, for every day that
the month has in that year. -/
theorem Date_Date (Y m d hh mi ss ns : Int) (loc : Location) (hm1 : 1 ≤ m) (hm2 : m ≤ 12)
    (hd1 : 1 ≤ d) (hd2 : d ≤ monthLength (isLeap Y) m) (hc : ClockRange hh mi ss ns) :
    (Date Y m d hh mi ss ns loc).Date = (Y, m, d) := by
  have hd3 : d ≤ monthLength true m := le_trans hd2 (monthLength_le (isLeap Y) m hm1 hm2).2
  have hr := dayOfYear_range (isLeap Y) m d hm1 hm2 hd1 hd3
  simp only [Time.Date, absDate, Date_abs Y m d hh mi ss ns loc hm1 hm2 hc,
    abs_div_day _ hh mi ss ns hc, absYear_daysSinceEpoch Y _ hr.1 hr.2,
    absMonthDay_dayOfYear (isLeap Y) m d hm1 hm2 hd1 hd2]

/-- The clock reading of a date is the one given to `Date`. -/
theorem Date_Clock (Y m d hh mi ss ns : Int) (loc : Location) (hm1 : 1 ≤ m) (hm2 : m ≤ 12)
    (hc : ClockRange hh mi ss ns) :
    (Date Y m d hh mi ss ns loc).Clock = (hh, mi, ss) := by
  simp only [Time.Clock, absClock, Date_abs Y m d hh mi ss ns loc hm1 hm2 hc]
  obtain ⟨a1, a2, a3, a4, a5, a6, a7, a8⟩ := hc
  refine Prod.ext ?_ (Prod.ext ?_ ?_)
  · simp only
    omega
  · simp only
    omega
  · simp only
    omega

/-- `AddDate(years, 0, 0)` on a date: the same month, day and clock reading are
handed to `Date` with the year moved. -/
theorem Date_AddDate (Y m d hh mi ss ns : Int) (loc : Location) (years : Int) (hm1 : 1 ≤ m)
    (hm2 : m ≤ 12) (hd1 : 1 ≤ d) (hd2 : d ≤ monthLength (isLeap Y) m)
    (hc : ClockRange hh mi ss ns) :
    (Date Y m d hh mi ss ns loc).AddDate years 0 0 = Date (Y + years) m d hh mi ss ns loc := by
  simp only [Time.AddDate, Date_Date Y m d hh mi ss ns loc hm1 hm2 hd1 hd2 hc,
    Date_Clock Y m d hh mi ss ns loc hm1 hm2 hc, add_zero]
  rw [Date_of_range Y m d hh mi ss ns loc hm1 hm2 hc]
/-! ### `time.Parse` -/

theorem digitVal_range (c : Char) (h : isDigitChar c = true) : 0 ≤ digitVal c ∧ digitVal c ≤ 9 := by
  simp only [isDigitChar, Bool.and_eq_true, decide_eq_true_eq] at h
  simp only [digitVal]
  omega

theorem leadingInt_loop_bound (s : List Char) (x : Int) (hx : 0 ≤ x) :
    0 ≤ (leadingInt.loop x s).1 ∧
      ((leadingInt.loop x s).2 = [] → (leadingInt.loop x s).1 < (x + 1) * 10 ^ s.length) := by
  induction s generalizing x with
  | nil => simp [leadingInt.loop, hx]
  | cons c cs ih =>
    simp only [leadingInt.loop]
    by_cases hc : isDigitChar c = true
    · simp only [hc, if_true]
      have hd := digitVal_range c hc
      have h := ih (x * 10 + digitVal c) (by omega)
      refine ⟨h.1, fun hnil => lt_of_lt_of_le (h.2 hnil) ?_⟩
      have hp : (0 : Int) ≤ 10 ^ cs.length := by positivity
      have : (x * 10 + digitVal c + 1) * 10 ^ cs.length ≤ ((x + 1) * 10) * 10 ^ cs.length :=
        Int.mul_le_mul_of_nonneg_right (by omega) hp
      calc (x * 10 + digitVal c + 1) * 10 ^ cs.length
          ≤ ((x + 1) * 10) * 10 ^ cs.length := this
        _ = (x + 1) * 10 ^ (c :: cs).length := by
          rw [List.length_cons, pow_succ]
          ring
    · simp [hc, hx]

theorem atoi_lt (s : List Char) (n : Int) (h : atoi s = some n) : n < 10 ^ s.length := by
  simp only [atoi] at h
  generalize hs2 : (if (s.head? == some '-' || s.head? == some '+') = true then s.drop 1
    else s) = s2 at h
  have hlen : s2.length ≤ s.length := by
    rw [← hs2]
    split
    · simp
    · exact le_rfl
  by_cases hrem : (leadingInt s2).2.length > 0
  · simp [hrem] at h
  · simp only [hrem, if_false, Option.some.injEq] at h
    have hr : (leadingInt s2).2 = [] := by
      cases hl : (leadingInt s2).2 with
      | nil => rfl
      | cons a b => simp [hl] at hrem
    have hb := leadingInt_loop_bound s2 0 le_rfl
    have h1 := hb.2 hr
    have hpow : (10 : Int) ^ s2.length ≤ 10 ^ s.length :=
      pow_le_pow_right₀ (by norm_num) hlen
    have hpos : (0 : Int) < 10 ^ s.length := by positivity
    simp only [leadingInt] at h
    split at h <;> omega

theorem parseNanoseconds_range (value : List Char) (nbytes : Nat) (ns : Int)
    (h : parseNanoseconds value nbytes = some ns) : 0 ≤ ns ∧ ns < 1000000000 := by
  unfold parseNanoseconds at h
  split at h
  · exact absurd h (by simp)
  · rename_i c cs
    split at h
    · exact absurd h (by simp)
    · simp only at h
      generalize hnb : (if nbytes > 10 then 10 else nbytes) = nb at h
      generalize (if nbytes > 10 then List.take 10 (c :: cs) else c :: cs) = v2 at h
      have hnb10 : nb ≤ 10 := by
        rw [← hnb]
        split <;> omega
      split at h
      · exact absurd h (by simp)
      · rename_i n hn
        split at h
        · exact absurd h (by simp)
        · rename_i hneg
          have hlt := atoi_lt _ n hn
          simp only [Option.some.injEq] at h
          subst h
          have hn0 : 0 ≤ n := by omega
          have hlen : ((v2.take nb).drop 1).length ≤ nb - 1 := by
            simp only [List.length_drop, List.length_take]
            omega
          have hp1 : (10 : Int) ^ ((v2.take nb).drop 1).length ≤ 10 ^ (nb - 1) :=
            pow_le_pow_right₀ (by norm_num) hlen
          have hn1 : n < 10 ^ (nb - 1) := lt_of_lt_of_le hlt hp1
          clear hlt hp1 hn hlen hnb
          interval_cases nb <;> norm_num at hn1 ⊢ <;> omega

theorem lookup_loop_range (val : List Char) (tab : List String) (i j : Int) (r : List Char)
    (h : lookup.loop val i tab = some (j, r)) : i ≤ j ∧ j < i + tab.length := by
  induction tab generalizing i with
  | nil => simp [lookup.loop] at h
  | cons v tab ih =>
    simp only [lookup.loop] at h
    split at h
    · simp only [Option.some.injEq, Prod.mk.injEq] at h
      simp only [List.length_cons, Nat.cast_add, Nat.cast_one]
      omega
    · have := ih (i + 1) h
      simp only [List.length_cons, Nat.cast_add, Nat.cast_one]
      omega

theorem lookup_shortMonthNames_range (val r : List Char) (j : Int)
    (h : lookup shortMonthNames val = some (j, r)) : 0 ≤ j ∧ j < 12 := by
  have := lookup_loop_range val shortMonthNames 0 j r h
  simpa [shortMonthNames] using this

theorem parseStd_inRange (std : Std) (layout : List Char) (st st2 : ParseState)
    (value value2 : List Char) (h : parseStd std layout st value = some (st2, value2))
    (hr : st.InRange) : st2.InRange := by
  obtain ⟨hm, ⟨a1, a2, a3, a4, a5, a6, a7, a8⟩⟩ := hr
  cases std <;> simp only [parseStd] at h
  case stdMonth =>
    split at h
    · exact absurd h (by simp)
    · rename_i month v hl
      have := lookup_shortMonthNames_range _ _ _ hl
      simp only [Option.some.injEq, Prod.mk.injEq] at h
      obtain ⟨rfl, -⟩ := h
      exact ⟨Or.inr ⟨by simp only; omega, by simp only; omega⟩, ⟨a1, a2, a3, a4, a5, a6, a7, a8⟩⟩
  case stdZeroSecond =>
    split at h
    · exact absurd h (by simp)
    · split at h
      · exact absurd h (by simp)
      · rename_i sec v hg hsec
        simp only [Bool.or_eq_true, decide_eq_true_eq, not_or, not_lt, not_le] at hsec
        repeat' (split at h)
        all_goals first
          | (simp only [reduceCtorEq] at h)
          | (simp only [Option.some.injEq, Prod.mk.injEq] at h
             obtain ⟨rfl, -⟩ := h
             exact ⟨hm, ⟨a1, a2, a3, a4, hsec.1, hsec.2, a7, a8⟩⟩)
          | (rename_i ns hns
             have hnr := parseNanoseconds_range _ _ _ hns
             simp only [Option.some.injEq, Prod.mk.injEq] at h
             obtain ⟨rfl, -⟩ := h
             exact ⟨hm, ⟨a1, a2, a3, a4, hsec.1, hsec.2, hnr.1, hnr.2⟩⟩)
  case stdFracSecond0 =>
    repeat' (split at h)
    all_goals first
      | (simp only [reduceCtorEq] at h)
      | (rename_i ns hns
         have hnr := parseNanoseconds_range _ _ _ hns
         simp only [Option.some.injEq, Prod.mk.injEq] at h
         obtain ⟨rfl, -⟩ := h
         exact ⟨hm, ⟨a1, a2, a3, a4, a5, a6, hnr.1, hnr.2⟩⟩)
  case stdFracSecond9 =>
    repeat' (split at h)
    all_goals first
      | (simp only [reduceCtorEq] at h)
      | (simp only [Option.some.injEq, Prod.mk.injEq] at h
         obtain ⟨rfl, -⟩ := h
         exact ⟨hm, ⟨a1, a2, a3, a4, a5, a6, a7, a8⟩⟩)
      | (rename_i ns hns
         have hnr := parseNanoseconds_range _ _ _ hns
         simp only [Option.some.injEq, Prod.mk.injEq] at h
         obtain ⟨rfl, -⟩ := h
         exact ⟨hm, ⟨a1, a2, a3, a4, a5, a6, hnr.1, hnr.2⟩⟩)
  all_goals
    repeat' (split at h)
    all_goals first
      | (simp only [reduceCtorEq] at h)
      | (simp only [Option.some.injEq, Prod.mk.injEq] at h
         obtain ⟨rfl, -⟩ := h
         exact ⟨hm, ⟨a1, a2, a3, a4, a5, a6, a7, a8⟩⟩)
      | (rename_i hrange
         simp only [Bool.or_eq_true, decide_eq_true_eq, not_or, not_lt, not_le] at hrange
         simp only [Option.some.injEq, Prod.mk.injEq] at h
         obtain ⟨rfl, -⟩ := h
         first
           | exact ⟨Or.inr ⟨by simp only; omega, by simp only; omega⟩,
               ⟨a1, a2, a3, a4, a5, a6, a7, a8⟩⟩
           | exact ⟨hm, ⟨hrange.1, hrange.2, a3, a4, a5, a6, a7, a8⟩⟩
           | exact ⟨hm, ⟨a1, a2, hrange.1, hrange.2, a5, a6, a7, a8⟩⟩)
theorem parseStd_year (std : Std) (layout : List Char) (st st2 : ParseState)
    (value value2 : List Char) (h : parseStd std layout st value = some (st2, value2))
    (hs : std ≠ Std.stdLongYear) : st2.year = st.year := by
  cases std <;> simp only [parseStd] at h
  case stdLongYear => exact absurd rfl hs
  all_goals
    repeat' (split at h)
    all_goals first
      | (simp only [reduceCtorEq] at h)
      | (simp only [Option.some.injEq, Prod.mk.injEq] at h
         obtain ⟨rfl, -⟩ := h
         rfl)

theorem parseStd_zoneOffset (std : Std) (layout : List Char) (st st2 : ParseState)
    (value value2 : List Char) (h : parseStd std layout st value = some (st2, value2))
    (hs : std ≠ Std.stdNumTZ) : st2.zoneOffset = st.zoneOffset := by
  cases std <;> simp only [parseStd] at h
  case stdNumTZ => exact absurd rfl hs
  all_goals
    repeat' (split at h)
    all_goals first
      | (simp only [reduceCtorEq] at h)
      | (simp only [Option.some.injEq, Prod.mk.injEq] at h
         obtain ⟨rfl, -⟩ := h
         rfl)

theorem parseLoop_invariant (fuel : Nat) (layout value : List Char) (st st2 : ParseState)
    (h : parseLoop fuel layout value st = some st2) (hr : st.InRange) :
    st2.InRange ∧
      (Std.stdLongYear ∉ layoutStds fuel layout → st2.year = st.year) ∧
      (Std.stdNumTZ ∉ layoutStds fuel layout → st2.zoneOffset = st.zoneOffset) := by
  induction fuel generalizing layout value st with
  | zero => simp [parseLoop] at h
  | succ fuel ih =>
    simp only [parseLoop] at h
    split at h
    · simp only [reduceCtorEq] at h
    · split at h
      · split at h
        · simp only [reduceCtorEq] at h
        · simp only [Option.some.injEq] at h
          subst h
          exact ⟨hr, fun _ => rfl, fun _ => rfl⟩
      · rename_i v hv std hstd
        split at h
        · simp only [reduceCtorEq] at h
        · rename_i st1 v1 hp
          have h1 := ih _ _ _ h (parseStd_inRange _ _ _ _ _ _ hp hr)
          refine ⟨h1.1, ?_, ?_⟩
          · intro hy
            simp only [layoutStds, hstd, List.mem_cons, not_or] at hy
            rw [h1.2.1 hy.2]
            exact parseStd_year _ _ _ _ _ _ hp (fun e => hy.1 e.symm)
          · intro hz
            simp only [layoutStds, hstd, List.mem_cons, not_or] at hz
            rw [h1.2.2 hz.2]
            exact parseStd_zoneOffset _ _ _ _ _ _ hp (fun e => hz.1 e.symm)

theorem init_inRange : ParseState.init.InRange :=
  ⟨Or.inl rfl, ⟨by decide, by decide, by decide, by decide, by decide, by decide, by decide,
    by decide⟩⟩

theorem layoutStds_ctimeNoMS :
    layoutStds (ctimeNoMSTimeFormat.length + 1) ctimeNoMSTimeFormat.toList
      = [Std.stdWeekDay, Std.stdMonth, Std.stdUnderDay, Std.stdHour, Std.stdZeroMinute,
          Std.stdZeroSecond] := by
  decide

theorem layoutStds_ctime :
    layoutStds (ctimeTimeFormat.length + 1) ctimeTimeFormat.toList
      = [Std.stdWeekDay, Std.stdMonth, Std.stdUnderDay, Std.stdHour, Std.stdZeroMinute,
          Std.stdZeroSecond, Std.stdFracSecond0 3] := by
  decide

/-- What `parseFinish` builds from a state without year and zone offset. -/
theorem parseFinish_shape (st : ParseState) (t : Time) (h : parseFinish st = some t)
    (hr : st.InRange) (hy : st.year = 0) (hz : st.zoneOffset = -1) :
    ∃ m d : Int, 1 ≤ m ∧ m ≤ 12 ∧ 1 ≤ d ∧ d ≤ monthLength true m ∧
      t = Date 0 m d st.hour st.min st.sec st.nsec UTC := by
  have hm : 1 ≤ (if st.month < 0 then 1 else st.month) ∧
      (if st.month < 0 then 1 else st.month) ≤ 12 := by
    rcases hr.month with hm | hm
    · simp [hm]
    · have : ¬ st.month < 0 := by omega
      simp only [this, if_false]
      exact hm
  simp only [parseFinish, hy, hz] at h
  generalize (if st.month < 0 then 1 else st.month) = m at h hm
  generalize (if st.day < 0 then 1 else st.day) = d at h
  by_cases hday : (decide (d < 1) || decide (d > daysIn m 0)) = true
  · simp only [hday, if_true, reduceCtorEq] at h
  · simp only [hday, if_false, bne_self_eq_false, Bool.false_eq_true, Option.some.injEq] at h
    simp only [Bool.or_eq_true, decide_eq_true_eq, not_or, not_lt, not_le] at hday
    have h2 := hday.2
    rw [daysIn_eq_monthLength] at h2
    exact ⟨m, d, hm.1, hm.2, hday.1, h2, h.symm⟩

/-- A string that parses under a year-absent layout gives a date of year 0 in
UTC, with a month, a day that the month has in a leap year, and a clock reading. -/
theorem Parse_ctime_shape (f s : String) (t : Time)
    (hf : f = ctimeNoMSTimeFormat ∨ f = ctimeTimeFormat) (h : Parse f s = Except.ok t) :
    ∃ m d hh mi ss ns : Int, 1 ≤ m ∧ m ≤ 12 ∧ 1 ≤ d ∧ d ≤ monthLength true m ∧
      ClockRange hh mi ss ns ∧ t = Date 0 m d hh mi ss ns UTC := by
  simp only [Parse] at h
  split at h
  · simp only [reduceCtorEq] at h
  · rename_i st hst
    split at h
    · simp only [reduceCtorEq] at h
    · rename_i t2 hfin
      simp only [Except.ok.injEq] at h
      subst h
      have hinv := parseLoop_invariant _ _ _ _ _ hst init_inRange
      have hyz : st.year = 0 ∧ st.zoneOffset = -1 := by
        rcases hf with rfl | rfl
        · exact ⟨hinv.2.1 (by rw [layoutStds_ctimeNoMS]; decide),
            hinv.2.2 (by rw [layoutStds_ctimeNoMS]; decide)⟩
        · exact ⟨hinv.2.1 (by rw [layoutStds_ctime]; decide),
            hinv.2.2 (by rw [layoutStds_ctime]; decide)⟩
      obtain ⟨m, d, h1, h2, h3, h4, h5⟩ := parseFinish_shape st t2 hfin hinv.1 hyz.1 hyz.2
      exact ⟨m, d, _, _, _, _, h1, h2, h3, h4, hinv.1.clock, h5⟩
theorem digit_lor_lt (n : Nat) (h1 : 48 ≤ n) (h2 : n ≤ 57) : n ||| 32 < 97 := by
  interval_cases n <;> decide

theorem matchFold_digit (c c2 : Char) (r1 r2 : List Char) (hc : isDigitChar c = true)
    (hc2 : isDigitChar c2 = false) : matchFold (c :: r1) (c2 :: r2) = false := by
  have hne : (c == c2) = false := by
    rw [beq_eq_false_iff_ne]
    intro e
    rw [e, hc2] at hc
    exact absurd hc (by simp)
  have hd := hc
  simp only [isDigitChar, Bool.and_eq_true, decide_eq_true_eq] at hd
  have hlt := digit_lor_lt c.toNat hd.1 hd.2
  have h97 : decide (97 ≤ c.toNat ||| 32) = false := by
    rw [decide_eq_false_iff_not]
    omega
  simp [matchFold, hne, h97]

theorem lookup_loop_digit (val : List Char) (tab : List String) (i : Int)
    (htab : ∀ v ∈ tab, v.toList.head?.map isDigitChar = some false)
    (hval : isDigit val 0 = true) : lookup.loop val i tab = none := by
  induction tab generalizing i with
  | nil => rfl
  | cons v tab ih =>
    have hv0 := htab v (List.mem_cons_self v tab)
    cases val with
    | nil => simp [isDigit] at hval
    | cons c cs =>
      have hc : isDigitChar c = true := by simpa [isDigit] using hval
      cases hv : v.toList with
      | nil =>
        rw [hv] at hv0
        simp at hv0
      | cons c2 r2 =>
        have hc2 : isDigitChar c2 = false := by
          rw [hv] at hv0
          simpa using hv0
        have hlen : v.length = r2.length + 1 := by
          have : v.length = v.toList.length := rfl
          rw [this, hv]
          rfl
        simp only [lookup.loop, hlen, hv, List.take_succ_cons, matchFold_digit c c2 _ _ hc hc2,
          Bool.and_false, Bool.false_eq_true, if_false]
        exact ih (i + 1) (fun w hw => htab w (List.mem_cons_of_mem v hw))

theorem lookup_shortDayNames_digit (val : List Char) (hval : isDigit val 0 = true) :
    lookup shortDayNames val = none :=
  lookup_loop_digit val shortDayNames 0 (by decide) hval

/-- The first round of `parse` on a layout that starts with a layout element. -/
theorem Parse_first_std (layout s : String) (t : Time) (std : Std) (rest : List Char)
    (hl : nextStdChunk layout.toList = ([], some std, rest))
    (h : Parse layout s = Except.ok t) :
    ∃ r, parseStd std rest ParseState.init s.toList = some r := by
  simp only [Parse] at h
  split at h
  · simp only [reduceCtorEq] at h
  · rename_i st hst
    simp only [parseLoop, hl, skip, skip.loop, List.length_nil, List.isEmpty_nil, if_true] at hst
    split at hst
    · simp only [reduceCtorEq] at hst
    · rename_i st1 v1 hp
      exact ⟨_, hp⟩

theorem nextStdChunk_ctimeNoMS :
    nextStdChunk ctimeNoMSTimeFormat.toList
      = ([], some Std.stdWeekDay, " Jan _2 15:04:05".toList) := by
  decide

theorem nextStdChunk_ctime :
    nextStdChunk ctimeTimeFormat.toList
      = ([], some Std.stdWeekDay, " Jan _2 15:04:05.000".toList) := by
  decide

theorem nextStdChunk_iso8601UTC :
    nextStdChunk iso8601UTCTimeFormat.toList
      = ([], some Std.stdLongYear, "-01-02T15:04:05Z".toList) := by
  decide

theorem nextStdChunk_iso8601Local :
    nextStdChunk iso8601LocalTimeFormat.toList
      = ([], some Std.stdLongYear, "-01-02T15:04:05.999999999-0700".toList) := by
  decide

/-- A string that parses under a layout starting with the weekday does not start
with a digit. -/
theorem weekDay_first_not_digit (layout s : String) (t : Time) (rest : List Char)
    (hl : nextStdChunk layout.toList = ([], some Std.stdWeekDay, rest))
    (h : Parse layout s = Except.ok t) : isDigit s.toList 0 = false := by
  obtain ⟨r, hr⟩ := Parse_first_std layout s t _ rest hl h
  by_contra hd
  have hd2 : isDigit s.toList 0 = true := by simpa using hd
  simp only [parseStd] at hr
  rw [lookup_shortDayNames_digit s.toList hd2] at hr
  simp only [reduceCtorEq] at hr

/-- A string that parses under a layout starting with the year starts with a digit. -/
theorem longYear_first_digit (layout s : String) (t : Time) (rest : List Char)
    (hl : nextStdChunk layout.toList = ([], some Std.stdLongYear, rest))
    (h : Parse layout s = Except.ok t) : isDigit s.toList 0 = true := by
  obtain ⟨r, hr⟩ := Parse_first_std layout s t _ rest hl h
  simp only [parseStd] at hr
  split at hr
  · simp only [reduceCtorEq] at hr
  · rename_i hc
    simp only [Bool.or_eq_true, decide_eq_true_eq, Bool.not_eq_true', not_or,
      Bool.not_eq_false] at hc
    exact hc.2

/-- A string that parses under a year-absent layout parses under neither ISO-8601
layout. -/
theorem Parse_iso_error_of_ctime (f s : String) (t : Time)
    (hf : f = ctimeNoMSTimeFormat ∨ f = ctimeTimeFormat) (h : Parse f s = Except.ok t) :
    (∃ e, Parse iso8601LocalTimeFormat s = Except.error e) ∧
      (∃ e, Parse iso8601UTCTimeFormat s = Except.error e) := by
  have hnd : isDigit s.toList 0 = false := by
    rcases hf with rfl | rfl
    · exact weekDay_first_not_digit _ s t _ nextStdChunk_ctimeNoMS h
    · exact weekDay_first_not_digit _ s t _ nextStdChunk_ctime h
  constructor
  · cases hp : Parse iso8601LocalTimeFormat s with
    | error e => exact ⟨e, rfl⟩
    | ok u =>
      have := longYear_first_digit _ s u _ nextStdChunk_iso8601Local hp
      rw [hnd] at this
      exact absurd this (by simp)
  · cases hp : Parse iso8601UTCTimeFormat s with
    | error e => exact ⟨e, rfl⟩
    | ok u =>
      have := longYear_first_digit _ s u _ nextStdChunk_iso8601UTC hp
      rw [hnd] at this
      exact absurd this (by simp)

/-! ### Year inference -/

theorem After_eq_Before (t u : Time) : t.After u = u.Before t := by
  have hb : (t.sec == u.sec) = (u.sec == t.sec) := by
    by_cases h : t.sec = u.sec
    · rw [h]
    · have h2 : ¬ u.sec = t.sec := fun e => h e.symm
      rw [beq_eq_false_iff_ne.mpr h, beq_eq_false_iff_ne.mpr h2]
  simp only [Time.After, Time.Before, gt_iff_lt, hb]

theorem After_asymm (t u : Time) (h : t.After u = true) : u.After t = false := by
  simp only [Time.After, gt_iff_lt, Bool.or_eq_true, decide_eq_true_eq, Bool.and_eq_true,
    beq_iff_eq] at h
  simp only [Time.After, gt_iff_lt, Bool.or_eq_false_iff, decide_eq_false_iff_not, not_lt,
    Bool.and_eq_false_imp, beq_iff_eq]
  omega

/-- On a string that a year-absent layout parses, `parseTimestamp` is the year
inference on the value of the first such layout. -/
theorem parseTimestamp_ctime {σ : Type} (p : Parser σ) (calls : Nat) (values : Fields) (s : String)
    (t : Time) (hv : values "timestamp" = some (Value.str s)) (ht : ctimeParse s = some t) :
    p.parseTimestamp calls values
      = (if (p.nower.Now calls).After (t.AddDate (p.nower.Now calls).Year 0 0) then
          (t.AddDate (p.nower.Now calls).Year 0 0, none)
        else (t.AddDate ((p.nower.Now calls).Year - 1) 0 0, none)) := by
  rw [parseTimestamp_of_str p calls values s hv]
  have hsplit : timestampFormats
      = [iso8601LocalTimeFormat, iso8601UTCTimeFormat] ++ [ctimeNoMSTimeFormat, ctimeTimeFormat] :=
    rfl
  simp only [ctimeParse] at ht
  cases h1 : Parse ctimeNoMSTimeFormat s with
  | ok t1 =>
    simp only [h1, Option.some.injEq] at ht
    subst ht
    have hiso := Parse_iso_error_of_ctime _ s t1 (Or.inl rfl) h1
    rw [hsplit, loop_skip_failures _ _ _ _ _ (by
      intro g hg
      simp only [List.mem_cons, List.mem_singleton, List.not_mem_nil, or_false] at hg
      rcases hg with rfl | rfl
      · exact hiso.1
      · exact hiso.2)]
    simp only [Parser.parseTimestamp.loop, h1]
    have hc : (ctimeNoMSTimeFormat == ctimeTimeFormat || ctimeNoMSTimeFormat == ctimeNoMSTimeFormat)
        = true := by decide
    simp only [hc, if_true]
  | error e1 =>
    simp only [h1] at ht
    cases h2 : Parse ctimeTimeFormat s with
    | error e2 => simp only [h2, reduceCtorEq] at ht
    | ok t2 =>
      simp only [h2, Option.some.injEq] at ht
      subst ht
      have hiso := Parse_iso_error_of_ctime _ s t2 (Or.inr rfl) h2
      have hsplit2 : timestampFormats
          = [iso8601LocalTimeFormat, iso8601UTCTimeFormat, ctimeNoMSTimeFormat]
            ++ [ctimeTimeFormat] := rfl
      rw [hsplit2, loop_skip_failures _ _ _ _ _ (by
        intro g hg
        simp only [List.mem_cons, List.mem_singleton, List.not_mem_nil, or_false] at hg
        rcases hg with rfl | rfl | rfl
        · exact hiso.1
        · exact hiso.2
        · exact ⟨e1, h1⟩)]
      simp only [Parser.parseTimestamp.loop, h2]
      have hc : (ctimeTimeFormat == ctimeTimeFormat || ctimeTimeFormat == ctimeNoMSTimeFormat)
          = true := by decide
      simp only [hc, if_true]

theorem ctimeParse_shape (s : String) (t : Time) (ht : ctimeParse s = some t) :
    ∃ m d hh mi ss ns : Int, 1 ≤ m ∧ m ≤ 12 ∧ 1 ≤ d ∧ d ≤ monthLength true m ∧
      ClockRange hh mi ss ns ∧ t = Date 0 m d hh mi ss ns UTC := by
  simp only [ctimeParse] at ht
  cases h1 : Parse ctimeNoMSTimeFormat s with
  | ok t1 =>
    simp only [h1, Option.some.injEq] at ht
    subst ht
    exact Parse_ctime_shape _ s t1 (Or.inl rfl) h1
  | error e1 =>
    simp only [h1] at ht
    cases h2 : Parse ctimeTimeFormat s with
    | error e2 => simp only [h2, reduceCtorEq] at ht
    | ok t2 =>
      simp only [h2, Option.some.injEq] at ht
      subst ht
      exact Parse_ctime_shape _ s t2 (Or.inr rfl) h2

/-- Attaching the year `Y` to the value of a year-absent layout gives a time of
the year `Y`. -/
theorem ctimeParse_AddDate_Year (s : String) (t : Time) (Y : Int)
    (ht : ctimeParse s = some t) : (t.AddDate Y 0 0).Year = Y := by
  obtain ⟨m, d, hh, mi, ss, ns, hm1, hm2, hd1, hd2, hc, rfl⟩ := ctimeParse_shape s t ht
  rw [Date_AddDate 0 m d hh mi ss ns UTC Y hm1 hm2 hd1 hd2 hc,
    Date_Year (0 + Y) m d hh mi ss ns UTC hm1 hm2 hd1 hd2 hc]
  omega

/-- At and after the reference time: when the value of a year-absent layout with
the year of `now` attached is not before `now`, `parseTimestamp` returns the
value with the year before attached. -/
theorem parseTimestamp_ctime_not_before {σ : Type} (p : Parser σ) (calls : Nat) (values : Fields)
    (s : String) (t : Time) (hv : values "timestamp" = some (Value.str s))
    (ht : ctimeParse s = some t)
    (h : (t.AddDate (p.nower.Now calls).Year 0 0).Before (p.nower.Now calls) = false) :
    p.parseTimestamp calls values = (t.AddDate ((p.nower.Now calls).Year - 1) 0 0, none) := by
  rw [parseTimestamp_ctime p calls values s t hv ht, After_eq_Before, h]
  rfl
/-! ### The fuel of the loops is enough -/

theorem cutspace_length_le (s : List Char) : (cutspace s).length ≤ s.length := by
  unfold cutspace
  induction s with
  | nil => simp
  | cons c cs ih =>
    simp only [List.dropWhile_cons]
    split
    · exact Nat.le_succ_of_le ih
    · exact le_rfl

/-- One more round than the length of the text to skip changes nothing: `skip`
never stops for want of fuel. -/
theorem skip_loop_fuel (fuel : Nat) (value pre : List Char) (h : pre.length ≤ fuel) :
    skip.loop (fuel + 1) value pre = skip.loop fuel value pre := by
  induction fuel generalizing value pre with
  | zero =>
    have hp : pre = [] := List.length_eq_zero.mp (Nat.le_zero.mp h)
    subst hp
    simp [skip.loop]
  | succ fuel ih =>
    cases pre with
    | nil => simp [skip.loop]
    | cons c cs =>
      have hcs : cs.length ≤ fuel := by simpa using h
      rw [skip.loop.eq_def, skip.loop.eq_def (fuel + 1)]
      simp only
      by_cases hc : c = ' '
      · subst hc
        simp only [if_true]
        have hcut : (cutspace (' ' :: cs)).length ≤ fuel := by
          have : cutspace (' ' :: cs) = cutspace cs := by simp [cutspace]
          rw [this]
          exact le_trans (cutspace_length_le cs) hcs
        rw [ih _ _ hcut]
      · simp only [hc, if_false]
        cases value with
        | nil => rfl
        | cons v vs =>
          simp only
          rw [ih _ _ hcs]

theorem skip_loop_fuel_add (k : Nat) (value pre : List Char) :
    skip.loop (pre.length + k) value pre = skip value pre := by
  induction k with
  | zero => rfl
  | succ k ih => rw [← Nat.add_assoc, skip_loop_fuel _ _ _ (Nat.le_add_right _ _), ih]

theorem stdAt_length (layout suffix : List Char) (std : Std)
    (h : stdAt layout = some (std, suffix)) : suffix.length < layout.length := by
  cases layout with
  | nil => simp [stdAt] at h
  | cons c cs =>
    have hdrop : ∀ k : Nat, 0 < k → ((c :: cs).drop k).length < (c :: cs).length := by
      intro k hk
      simp only [List.length_drop, List.length_cons]
      omega
    simp only [stdAt] at h
    by_cases h1 : c = 'J'
    · simp only [h1, if_true] at h
      split at h
      · simp only [Option.some.injEq, Prod.mk.injEq] at h
        rw [← h.2, ← h1]
        exact hdrop 3 (by omega)
      · simp only [reduceCtorEq] at h
    simp only [h1, if_false] at h
    by_cases h2 : c = 'M'
    · simp only [h2, if_true] at h
      split at h
      · simp only [Option.some.injEq, Prod.mk.injEq] at h
        rw [← h.2, ← h2]
        exact hdrop 3 (by omega)
      · simp only [reduceCtorEq] at h
    simp only [h2, if_false] at h
    by_cases h3 : c = '0'
    · simp only [h3, if_true] at h
      split at h
      all_goals first
        | (simp only [reduceCtorEq] at h)
        | (simp only [Option.some.injEq, Prod.mk.injEq] at h
           rw [← h.2]
           simp only [List.length_cons]
           omega)
    simp only [h3, if_false] at h
    by_cases h4 : c = '1'
    · simp only [h4, if_true] at h
      split at h
      all_goals first
        | (simp only [reduceCtorEq] at h)
        | (simp only [Option.some.injEq, Prod.mk.injEq] at h
           rw [← h.2]
           simp only [List.length_cons]
           omega)
    simp only [h4, if_false] at h
    by_cases h5 : c = '2'
    · simp only [h5, if_true] at h
      split at h
      · simp only [Option.some.injEq, Prod.mk.injEq] at h
        rw [← h.2, ← h5]
        exact hdrop 4 (by omega)
      · simp only [reduceCtorEq] at h
    simp only [h5, if_false] at h
    by_cases h6 : c = '_'
    · simp only [h6, if_true] at h
      split at h
      · simp only [Option.some.injEq, Prod.mk.injEq] at h
        rw [← h.2, ← h6]
        exact hdrop 2 (by omega)
      · simp only [reduceCtorEq] at h
    simp only [h6, if_false] at h
    by_cases h7 : c = '-'
    · simp only [h7, if_true] at h
      split at h
      · simp only [Option.some.injEq, Prod.mk.injEq] at h
        rw [← h.2, ← h7]
        exact hdrop 5 (by omega)
      · simp only [reduceCtorEq] at h
    simp only [h7, if_false] at h
    by_cases h8 : (decide (c = '.') || decide (c = ',')) = true
    · simp only [h8, if_true] at h
      cases cs with
      | nil => simp only [reduceCtorEq] at h
      | cons ch tail =>
        simp only at h
        by_cases h9 : (decide (ch = '0') || decide (ch = '9')) = true
        · simp only [h9, if_true] at h
          by_cases h10 : (!isDigit (List.dropWhile (fun x => x == ch) (ch :: tail)) 0) = true
          · simp only [h10, if_true, Option.some.injEq, Prod.mk.injEq] at h
            rw [← h.2]
            have := (List.dropWhile_sublist (fun x => x == ch) (l := ch :: tail)).length_le
            simp only [List.length_cons] at this ⊢
            omega
          · simp only [h10, if_false, reduceCtorEq] at h
        · simp only [h9, if_false, reduceCtorEq] at h
    · simp only [h8, if_false, reduceCtorEq] at h

theorem scan_length (seen layout pre suffix : List Char) (std : Std)
    (h : nextStdChunk.scan seen layout = (pre, some std, suffix)) :
    suffix.length < layout.length := by
  induction layout generalizing seen with
  | nil => simp [nextStdChunk.scan] at h
  | cons c cs ih =>
    simp only [nextStdChunk.scan] at h
    split at h
    · rename_i std2 suffix2 hs
      simp only [Prod.mk.injEq, Option.some.injEq] at h
      rw [← h.2.2]
      exact stdAt_length _ _ _ hs
    · have := ih _ h
      simp only [List.length_cons]
      omega

/-- Every round of `parse` that finds a layout element goes on with a shorter
layout. -/
theorem nextStdChunk_length (layout : List Char) (std : Std)
    (h : (nextStdChunk layout).2.1 = some std) :
    (nextStdChunk layout).2.2.length < layout.length :=
  scan_length [] layout (nextStdChunk layout).1 (nextStdChunk layout).2.2 std (by
    rw [← h]
    rfl)

/-- One more round than the length of the layout plus one changes nothing:
`parse` never stops for want of fuel. -/
theorem parseLoop_fuel (fuel : Nat) (layout value : List Char) (st : ParseState)
    (h : layout.length < fuel) :
    parseLoop (fuel + 1) layout value st = parseLoop fuel layout value st := by
  induction fuel generalizing layout value st with
  | zero => exact absurd h (Nat.not_lt_zero _)
  | succ fuel ih =>
    rw [parseLoop, parseLoop]
    split
    · rfl
    · split
      · rfl
      · rename_i v hv std hstd
        split
        · rfl
        · rename_i st1 v1 hp
          have := nextStdChunk_length layout std hstd
          exact ih _ _ _ (by omega)

theorem parseLoop_fuel_add (k : Nat) (layout value : List Char) (st : ParseState) :
    parseLoop (layout.length + 1 + k) layout value st
      = parseLoop (layout.length + 1) layout value st := by
  induction k with
  | zero => rfl
  | succ k ih => rw [← Nat.add_assoc, parseLoop_fuel _ _ _ _ (by omega), ih]
/-! ### More on `ProcessLines` -/

theorem lineOutcomes_length {σ : Type} (isP : Option Error → Bool) (p : Parser σ)
    (lines : List String) (st : LoopState σ) :
    (p.lineOutcomes isP st lines).length = lines.length := by
  induction lines generalizing st with
  | nil => rfl
  | cons line rest ih => simp [Parser.lineOutcomes, ih]

theorem parseTimestamp_fixed_clock {σ : Type} (p : Parser σ) (now : Time)
    (h : ∀ k, p.nower.Now k = now) (calls : Nat) (values : Fields) :
    p.parseTimestamp calls values = p.parseTimestamp 0 values := by
  simp only [Parser.parseTimestamp, h]

/-- The events of an input in two parts: those of the first part, then those of
the second part from the state that the first part leaves. -/
theorem ProcessLines_append_general {σ : Type} (isP : Option Error → Bool) (p : Parser σ)
    (xs ys : List String) :
    p.ProcessLines isP (xs ++ ys)
      = p.ProcessLines isP xs ++
        (Parser.ProcessLines.run isP p
          ⟨(Parser.ProcessLines.run isP p p.start xs).calls,
            (Parser.ProcessLines.run isP p p.start xs).parser,
            (Parser.ProcessLines.run isP p p.start xs).heap, []⟩ ys).sent := by
  simp only [Parser.ProcessLines, run_append]
  rw [run_calls_sent]

/-! ### Line parsers that answer by the line alone -/

theorem fresh_Answers (f : String → Fields × Option Error) : (LineParser.fresh f).Answers f := by
  intro s h line
  exact ⟨rfl, by simp [LineParser.fresh, Heap.fields, Heap.store]⟩

theorem lineOutcome_of_Answers {σ : Type} (isP : Option Error → Bool) (p : Parser σ)
    (f : String → Fields × Option Error) (hf : p.lineParser.Answers f) (st : LoopState σ)
    (line : String) :
    p.lineOutcome isP st line
      = (if p.passesParse isP (f line).2 then
          match p.parseTimestamp st.calls (f line).1 with
          | (t, none) => some ⟨t, (f line).1.delete "timestamp"⟩
          | (_, some _) => none
        else none) := by
  simp only [Parser.lineOutcome, (hf st.parser st.heap line).1, (hf st.parser st.heap line).2]

theorem afterLine_calls_of_Answers {σ : Type} (isP : Option Error → Bool) (p : Parser σ)
    (f : String → Fields × Option Error) (hf : p.lineParser.Answers f) (st : LoopState σ)
    (line : String) :
    (p.afterLine isP st line).calls
      = (if p.passesParse isP (f line).2 then st.calls + 1 else st.calls) := by
  simp only [Parser.afterLine, (hf st.parser st.heap line).1]

/-- With a line parser that answers by the line alone, the outcomes of the lines
depend on the state only through the number of clock readings. -/
theorem lineOutcomes_of_Answers {σ : Type} (isP : Option Error → Bool) (p : Parser σ)
    (f : String → Fields × Option Error) (hf : p.lineParser.Answers f) (lines : List String)
    (st st2 : LoopState σ) (hc : st.calls = st2.calls) :
    p.lineOutcomes isP st lines = p.lineOutcomes isP st2 lines := by
  induction lines generalizing st st2 with
  | nil => rfl
  | cons line rest ih =>
    simp only [Parser.lineOutcomes]
    rw [lineOutcome_of_Answers isP p f hf st line, lineOutcome_of_Answers isP p f hf st2 line, hc,
      ih (p.afterLine isP st line) (p.afterLine isP st2 line)
        (by rw [afterLine_calls_of_Answers isP p f hf, afterLine_calls_of_Answers isP p f hf, hc])]

/-- With a line parser that answers by the line alone, a line that does not pass
the parse stage leaves no trace in the events of a run. -/
theorem run_sent_of_dropped {σ : Type} (isP : Option Error → Bool) (p : Parser σ)
    (f : String → Fields × Option Error) (hf : p.lineParser.Answers f) (line : String)
    (hdrop : p.passesParse isP (f line).2 = false) (st : LoopState σ) (after : List String) :
    (Parser.ProcessLines.run isP p st (line :: after)).sent
      = (Parser.ProcessLines.run isP p st after).sent := by
  rw [run_eq_lineOutcomes, run_eq_lineOutcomes]
  simp only [Parser.lineOutcomes]
  rw [lineOutcome_of_Answers isP p f hf st line,
    lineOutcomes_of_Answers isP p f hf after (p.afterLine isP st line) st
      (by rw [afterLine_calls_of_Answers isP p f hf, hdrop]; rfl), hdrop]
  simp

theorem ProcessLines_of_dropped {σ : Type} (isP : Option Error → Bool) (p : Parser σ)
    (f : String → Fields × Option Error) (hf : p.lineParser.Answers f) (line : String)
    (hdrop : p.passesParse isP (f line).2 = false) (before after : List String) :
    p.ProcessLines isP (before ++ line :: after) = p.ProcessLines isP (before ++ after) := by
  simp only [Parser.ProcessLines, run_append]
  exact run_sent_of_dropped isP p f hf line hdrop _ after

/-- With a line parser that answers by the line alone and a clock that stands
still, the outcome of a line is the same in every state. -/
theorem lineOutcome_of_Answers_fixed {σ : Type} (isP : Option Error → Bool) (p : Parser σ)
    (f : String → Fields × Option Error) (hf : p.lineParser.Answers f) (now : Time)
    (hclock : ∀ k, p.nower.Now k = now) (st st2 : LoopState σ) (line : String) :
    p.lineOutcome isP st line = p.lineOutcome isP st2 line := by
  rw [lineOutcome_of_Answers isP p f hf st line, lineOutcome_of_Answers isP p f hf st2 line,
    parseTimestamp_fixed_clock p now hclock st.calls, parseTimestamp_fixed_clock p now hclock st2.calls]

theorem lineOutcomes_of_Answers_fixed {σ : Type} (isP : Option Error → Bool) (p : Parser σ)
    (f : String → Fields × Option Error) (hf : p.lineParser.Answers f) (now : Time)
    (hclock : ∀ k, p.nower.Now k = now) (lines : List String) (st st0 : LoopState σ) :
    p.lineOutcomes isP st lines = lines.map (p.lineOutcome isP st0) := by
  induction lines generalizing st with
  | nil => rfl
  | cons line rest ih =>
    simp only [Parser.lineOutcomes, List.map_cons]
    rw [ih, lineOutcome_of_Answers_fixed isP p f hf now hclock st st0 line]

theorem ProcessLines_of_Answers_fixed {σ : Type} (isP : Option Error → Bool) (p : Parser σ)
    (f : String → Fields × Option Error) (hf : p.lineParser.Answers f) (now : Time)
    (hclock : ∀ k, p.nower.Now k = now) (lines : List String) :
    p.ProcessLines isP lines = lines.filterMap (p.lineOutcome isP p.start) := by
  simp only [Parser.ProcessLines, run_eq_lineOutcomes,
    lineOutcomes_of_Answers_fixed isP p f hf now hclock lines p.start p.start]
  simp [Parser.start, List.reduceOption, List.filterMap_map]

/-! ### More on the calendar -/

set_option maxRecDepth 100000 in
theorem monthLength_leap_table : ∀ m : Fin 12,
    monthLength false ((m.val : Int) + 1) = monthLength true ((m.val : Int) + 1) ∨
      ((m.val : Int) + 1 = 2 ∧ monthLength true ((m.val : Int) + 1) = 29 ∧
        monthLength false ((m.val : Int) + 1) = 28) := by
  decide

/-- Only February differs between leap and common years. -/
theorem monthLength_leap (m : Int) (hm1 : 1 ≤ m) (hm2 : m ≤ 12) :
    monthLength false m = monthLength true m ∨
      (m = 2 ∧ monthLength true m = 29 ∧ monthLength false m = 28) := by
  have h := monthLength_leap_table ⟨(m - 1).toNat, by omega⟩
  have e : (((m - 1).toNat : Nat) : Int) + 1 = m := by omega
  simp only [e] at h
  exact h

/-- In a common year `Date` turns February 29 into March 1. -/
theorem Date_feb29_common (Y hh mi ss ns : Int) (loc : Location) (hY : isLeap Y = false)
    (hc : ClockRange hh mi ss ns) :
    Date Y 2 29 hh mi ss ns loc = Date Y 3 1 hh mi ss ns loc := by
  rw [Date_of_range Y 2 29 hh mi ss ns loc (by decide) (by decide) hc,
    Date_of_range Y 3 1 hh mi ss ns loc (by decide) (by decide) hc, hY]
  rfl

/-- `daysSinceEpoch` on a year given by its 400-, 100-, 4- and 1-year cycles. -/
theorem daysSinceEpoch_of_cycles (a b c e : Int) (hb0 : 0 ≤ b) (hb : b ≤ 3) (hc0 : 0 ≤ c)
    (hc : c ≤ 24) (he0 : 0 ≤ e) (he : e ≤ 3) :
    daysSinceEpoch (400 * a + 100 * b + 4 * c + e + 1)
      = 146097 * a + 36524 * b + 1461 * c + 365 * e := by
  simp only [daysSinceEpoch]
  have h0 : 400 * a + 100 * b + 4 * c + e + 1 - 1 = 400 * a + (100 * b + 4 * c + e) := by omega
  rw [h0]
  have h1 : (400 * a + (100 * b + 4 * c + e)) / 400 = a := by omega
  rw [h1]
  have h2 : 400 * a + (100 * b + 4 * c + e) - 400 * a = 100 * b + (4 * c + e) := by omega
  rw [h2]
  have h3 : (100 * b + (4 * c + e)) / 100 = b := by omega
  rw [h3]
  have h4 : 100 * b + (4 * c + e) - 100 * b = 4 * c + e := by omega
  rw [h4]
  have h5 : (4 * c + e) / 4 = c := by omega
  rw [h5]
  omega

/-- The day count that `absYear` is given lies on or after the first day of the
year it returns. -/
theorem absYear_daysSinceEpoch_le (D : Int) : daysSinceEpoch (absYear D).1 ≤ D := by
  simp only [absYear]
  generalize hn1 : D / 146097 = n1
  have hd1 : 0 ≤ D - 146097 * n1 ∧ D - 146097 * n1 < 146097 := by omega
  generalize hx1 : D - 146097 * n1 = d1 at hd1
  generalize hn2 : d1 / 36524 = n2
  have hn2r : 0 ≤ n2 ∧ n2 ≤ 4 := by omega
  generalize hm2 : n2 - n2 / 4 = m2
  have hm2r : 0 ≤ m2 ∧ m2 ≤ 3 ∧ 0 ≤ d1 - 36524 * m2 ∧ d1 - 36524 * m2 ≤ 36524 := by omega
  generalize hx2 : d1 - 36524 * m2 = d2 at hm2r
  generalize hn3 : d2 / 1461 = n3
  have hn3r : 0 ≤ n3 ∧ n3 ≤ 24 ∧ 0 ≤ d2 - 1461 * n3 ∧ d2 - 1461 * n3 ≤ 1460 := by omega
  generalize hx3 : d2 - 1461 * n3 = d3 at hn3r
  generalize hn4 : d3 / 365 = n4
  have hn4r : 0 ≤ n4 ∧ n4 ≤ 4 := by omega
  generalize hm4 : n4 - n4 / 4 = m4
  have hm4r : 0 ≤ m4 ∧ m4 ≤ 3 ∧ 0 ≤ d3 - 365 * m4 := by omega
  rw [daysSinceEpoch_of_cycles n1 m2 n3 m4 hm2r.1 hm2r.2.1 hn3r.1 hn3r.2.1 hm4r.1 hm4r.2.1]
  omega

/-- A year has 365 days, and one more if it is a leap year. -/
theorem daysSinceEpoch_succ (Y : Int) :
    daysSinceEpoch (Y + 1) = daysSinceEpoch Y + 365 + (if isLeap Y then 1 else 0) := by
  obtain ⟨a, b, c, e, hb0, hb, hc0, hc, he0, he, hY, hD⟩ := daysSinceEpoch_cycles Y
  have hl := isLeap_iff Y
  rw [hD]
  by_cases he3 : e = 3
  · subst he3
    have h4 : Y % 4 = 0 := by omega
    by_cases hc24 : c = 24
    · subst hc24
      have h100 : Y % 100 = 0 := by omega
      by_cases hb3 : b = 3
      · subst hb3
        have h400 : Y % 400 = 0 := by omega
        have hleap : isLeap Y = true := hl.mpr ⟨h4, Or.inr h400⟩
        have hY1 : Y + 1 = 400 * (a + 1) + 100 * 0 + 4 * 0 + 0 + 1 := by omega
        rw [hY1, daysSinceEpoch_of_cycles (a + 1) 0 0 0 (by omega) (by omega) (by omega)
          (by omega) (by omega) (by omega), hleap]
        simp only [if_true]
        omega
      · have h400 : Y % 400 ≠ 0 := by
          have hb2 : b = 0 ∨ b = 1 ∨ b = 2 := by omega
          rcases hb2 with rfl | rfl | rfl <;> omega
        have hleap : isLeap Y = false := by
          cases h : isLeap Y with
          | false => rfl
          | true =>
            rcases (hl.mp h).2 with h1 | h1
            · exact absurd h100 h1
            · exact absurd h1 h400
        have hY1 : Y + 1 = 400 * a + 100 * (b + 1) + 4 * 0 + 0 + 1 := by omega
        rw [hY1, daysSinceEpoch_of_cycles a (b + 1) 0 0 (by omega) (by omega) (by omega)
          (by omega) (by omega) (by omega), hleap]
        simp only [Bool.false_eq_true, if_false]
        omega
    · have h100 : Y % 100 ≠ 0 := by
        have h25 : (4 * c + 4) % 100 ≠ 0 := by omega
        have hb2 : b = 0 ∨ b = 1 ∨ b = 2 ∨ b = 3 := by omega
        rcases hb2 with rfl | rfl | rfl | rfl <;> omega
      have hleap : isLeap Y = true := hl.mpr ⟨h4, Or.inl h100⟩
      have hY1 : Y + 1 = 400 * a + 100 * b + 4 * (c + 1) + 0 + 1 := by omega
      rw [hY1, daysSinceEpoch_of_cycles a b (c + 1) 0 hb0 hb (by omega) (by omega) (by omega)
        (by omega), hleap]
      simp only [if_true]
      omega
  · have h4 : Y % 4 ≠ 0 := by
      have he2 : e = 0 ∨ e = 1 ∨ e = 2 := by omega
      rcases he2 with rfl | rfl | rfl <;> omega
    have hleap : isLeap Y = false := by
      cases h : isLeap Y with
      | false => rfl
      | true => exact absurd (hl.mp h).1 h4
    have hY1 : Y + 1 = 400 * a + 100 * b + 4 * c + (e + 1) + 1 := by omega
    rw [hY1, daysSinceEpoch_of_cycles a b c (e + 1) hb0 hb hc0 hc (by omega) (by omega), hleap]
    simp only [Bool.false_eq_true, if_false]
    omega
/-! ### What year inference keeps and what it moves -/

theorem Date_nsec_loc (Y m d hh mi ss ns : Int) (loc : Location) (hm1 : 1 ≤ m) (hm2 : m ≤ 12)
    (hc : ClockRange hh mi ss ns) :
    (Date Y m d hh mi ss ns loc).nsec = ns ∧ (Date Y m d hh mi ss ns loc).loc = loc := by
  rw [Date_of_range Y m d hh mi ss ns loc hm1 hm2 hc]
  exact ⟨rfl, rfl⟩

/-- Month and day of `Date`, for a day that the month can have in a leap year:
they are the month and day given, but for a February 29 in a common year, which
comes out as March 1. -/
theorem Date_Month_Day (Y m d hh mi ss ns : Int) (loc : Location) (hm1 : 1 ≤ m) (hm2 : m ≤ 12)
    (hd1 : 1 ≤ d) (hd2 : d ≤ monthLength true m) (hc : ClockRange hh mi ss ns) :
    ((m = 2 ∧ d = 29 ∧ isLeap Y = false) →
      (Date Y m d hh mi ss ns loc).Month = 3 ∧ (Date Y m d hh mi ss ns loc).Day = 1) ∧
    (¬ (m = 2 ∧ d = 29 ∧ isLeap Y = false) →
      (Date Y m d hh mi ss ns loc).Month = m ∧ (Date Y m d hh mi ss ns loc).Day = d) := by
  constructor
  · rintro ⟨rfl, rfl, hY⟩
    rw [Date_feb29_common Y hh mi ss ns loc hY hc]
    have h := Date_Date Y 3 1 hh mi ss ns loc (by decide) (by decide) (by decide)
      (by cases isLeap Y <;> decide) hc
    simp only [Time.Date, Prod.mk.injEq] at h
    exact ⟨h.2.1, h.2.2⟩
  · intro hn
    have hd3 : d ≤ monthLength (isLeap Y) m := by
      cases hY : isLeap Y with
      | true => exact hd2
      | false =>
        rcases monthLength_leap m hm1 hm2 with h | ⟨h2, h29, h28⟩
        · rw [h]
          exact hd2
        · rw [h28]
          rw [h29] at hd2
          by_contra hlt
          exact hn ⟨h2, by omega, hY⟩
    have h := Date_Date Y m d hh mi ss ns loc hm1 hm2 hd1 hd3 hc
    simp only [Time.Date, Prod.mk.injEq] at h
    exact ⟨h.2.1, h.2.2⟩

/-- What `AddDate(Y, 0, 0)` makes of the value of a year-absent layout: the clock
reading, the nanoseconds and the location stay, the year is `Y`, and month and
day stay but for a February 29 when `Y` is a common year. -/
theorem ctimeParse_AddDate_fields (s : String) (t : Time) (Y : Int)
    (ht : ctimeParse s = some t) :
    (t.AddDate Y 0 0).Clock = t.Clock ∧ (t.AddDate Y 0 0).nsec = t.nsec ∧
    (t.AddDate Y 0 0).loc = UTC ∧ (t.AddDate Y 0 0).Year = Y ∧
    ((t.Month = 2 ∧ t.Day = 29 ∧ isLeap Y = false) →
      (t.AddDate Y 0 0).Month = 3 ∧ (t.AddDate Y 0 0).Day = 1) ∧
    (¬ (t.Month = 2 ∧ t.Day = 29 ∧ isLeap Y = false) →
      (t.AddDate Y 0 0).Month = t.Month ∧ (t.AddDate Y 0 0).Day = t.Day) := by
  obtain ⟨m, d, hh, mi, ss, ns, hm1, hm2, hd1, hd2, hc, rfl⟩ := ctimeParse_shape s t ht
  have hdate := Date_Date 0 m d hh mi ss ns UTC hm1 hm2 hd1 hd2 hc
  have hM : (Date 0 m d hh mi ss ns UTC).Month = m := by
    simp only [Time.Date, Prod.mk.injEq] at hdate
    exact hdate.2.1
  have hD : (Date 0 m d hh mi ss ns UTC).Day = d := by
    simp only [Time.Date, Prod.mk.injEq] at hdate
    exact hdate.2.2
  rw [Date_AddDate 0 m d hh mi ss ns UTC Y hm1 hm2 hd1 hd2 hc, hM, hD,
    Date_Clock _ m d hh mi ss ns UTC hm1 hm2 hc, Date_Clock _ m d hh mi ss ns UTC hm1 hm2 hc]
  have hY : (0 : Int) + Y = Y := by omega
  rw [hY]
  have hmd := Date_Month_Day Y m d hh mi ss ns UTC hm1 hm2 hd1 hd2 hc
  exact ⟨rfl, ((Date_nsec_loc Y m d hh mi ss ns UTC hm1 hm2 hc).1).trans
      ((Date_nsec_loc 0 m d hh mi ss ns UTC hm1 hm2 hc).1).symm,
    (Date_nsec_loc Y m d hh mi ss ns UTC hm1 hm2 hc).2,
    Date_Year Y m d hh mi ss ns UTC hm1 hm2 hd1 hd2 hc, hmd.1, hmd.2⟩

/-- What `AddDate(Y, 0, 0)` makes of the value of a year-absent layout is what
`Date` gives for the year `Y` and the month, day, clock reading and nanoseconds
of the value, in UTC. -/
theorem ctimeParse_AddDate_eq_Date (s : String) (t : Time) (Y : Int)
    (ht : ctimeParse s = some t) :
    t.AddDate Y 0 0 = Date Y t.Month t.Day t.Clock.1 t.Clock.2.1 t.Clock.2.2 t.nsec UTC := by
  obtain ⟨m, d, hh, mi, ss, ns, hm1, hm2, hd1, hd2, hc, rfl⟩ := ctimeParse_shape s t ht
  have hdate := Date_Date 0 m d hh mi ss ns UTC hm1 hm2 hd1 hd2 hc
  have hM : (Date 0 m d hh mi ss ns UTC).Month = m := by
    simp only [Time.Date, Prod.mk.injEq] at hdate
    exact hdate.2.1
  have hD : (Date 0 m d hh mi ss ns UTC).Day = d := by
    simp only [Time.Date, Prod.mk.injEq] at hdate
    exact hdate.2.2
  rw [Date_AddDate 0 m d hh mi ss ns UTC Y hm1 hm2 hd1 hd2 hc, hM, hD,
    Date_Clock 0 m d hh mi ss ns UTC hm1 hm2 hc, (Date_nsec_loc 0 m d hh mi ss ns UTC hm1 hm2 hc).1]
  have hY : (0 : Int) + Y = Y := by omega
  rw [hY]

/-- A date of the year before the year of a UTC time is before that time. -/
theorem Date_Before_of_next_year (Y m d hh mi ss ns : Int) (now : Time) (hm1 : 1 ≤ m)
    (hm2 : m ≤ 12) (hd1 : 1 ≤ d) (hd2 : d ≤ monthLength true m) (hc : ClockRange hh mi ss ns)
    (hn : now.loc = UTC) (hy : now.Year = Y + 1) :
    (Date Y m d hh mi ss ns UTC).Before now = true := by
  have h1 := absYear_daysSinceEpoch_le (now.abs / 86400)
  have hyear : (absYear (now.abs / 86400)).1 = Y + 1 := hy
  rw [hyear, daysSinceEpoch_succ Y] at h1
  have hk := dayOfYear_range (isLeap Y) m d hm1 hm2 hd1 hd2
  have habs : now.abs = now.sec := by
    simp only [Time.abs, hn, UTC]
    omega
  rw [habs] at h1
  rw [Date_of_range Y m d hh mi ss ns UTC hm1 hm2 hc]
  obtain ⟨a1, a2, a3, a4, a5, a6, a7, a8⟩ := hc
  have hlt : (daysSinceEpoch Y + dayOfYear (isLeap Y) m d) * 86400 + (hh * 3600 + mi * 60 + ss)
      - UTC.offset < now.sec := by
    have hu : UTC.offset = 0 := rfl
    rw [hu]
    generalize daysSinceEpoch Y = D at h1 ⊢
    generalize dayOfYear (isLeap Y) m d = k at hk ⊢
    generalize (if isLeap Y = true then (1 : Int) else 0) = l at h1 hk
    omega
  simp only [Time.Before, hlt, decide_True, Bool.true_or]

/-- Whatever year inference returns for a UTC reference time is before it. -/
theorem ctimeParse_inferred_Before (s : String) (t now : Time) (ht : ctimeParse s = some t)
    (hn : now.loc = UTC) :
    (if now.After (t.AddDate now.Year 0 0) then t.AddDate now.Year 0 0
      else t.AddDate (now.Year - 1) 0 0).Before now = true := by
  by_cases ha : now.After (t.AddDate now.Year 0 0) = true
  · simp only [ha, if_true]
    rw [← After_eq_Before]
    exact ha
  · simp only [ha, Bool.false_eq_true, if_false]
    obtain ⟨m, d, hh, mi, ss, ns, hm1, hm2, hd1, hd2, hc, rfl⟩ := ctimeParse_shape s t ht
    rw [Date_AddDate 0 m d hh mi ss ns UTC _ hm1 hm2 hd1 hd2 hc]
    exact Date_Before_of_next_year _ m d hh mi ss ns now hm1 hm2 hd1 hd2 hc hn (by omega)

theorem Before_not_Equal_After (r now : Time) (h : r.Before now = true) :
    r.Equal now = false ∧ r.After now = false := by
  simp only [Time.Before, Bool.or_eq_true, decide_eq_true_eq, Bool.and_eq_true, beq_iff_eq] at h
  constructor
  · simp only [Time.Equal, Bool.and_eq_false_imp, beq_iff_eq, beq_eq_false_iff_ne]
    omega
  · simp only [Time.After, gt_iff_lt, Bool.or_eq_false_iff, decide_eq_false_iff_not, not_lt,
      Bool.and_eq_false_imp, beq_iff_eq]
    omega
/-! ### The loop of `parse`, round by round -/

theorem parseLoop_eq_runRounds (fuel : Nat) (layout value : List Char) (st : ParseState)
    (h : layout.length < fuel) :
    parseLoop fuel layout value st
      = runRounds (layoutRounds fuel layout).1 (layoutRounds fuel layout).2 (st, value) := by
  induction fuel generalizing layout value st with
  | zero => exact absurd h (Nat.not_lt_zero _)
  | succ fuel ih =>
    rw [parseLoop, layoutRounds]
    cases hstd : (nextStdChunk layout).2.1 with
    | none =>
      simp only [runRounds, parseEnd]
    | some std =>
      simp only [runRounds, parseRound]
      cases skip value (nextStdChunk layout).1 with
      | none => rfl
      | some v =>
        simp only
        cases hp : parseStd std (nextStdChunk layout).2.2 st v with
        | none => rfl
        | some y =>
          have := nextStdChunk_length layout std hstd
          simp only
          exact ih _ _ _ (by omega)

theorem Parse_eq_runRounds (layout s : String) :
    Parse layout s
      = (match runRounds (layoutRounds (layout.length + 1) layout.toList).1
            (layoutRounds (layout.length + 1) layout.toList).2 (ParseState.init, s.toList) with
        | none => Except.error (Error.parseError layout s)
        | some st =>
          match parseFinish st with
          | none => Except.error (Error.parseError layout s)
          | some t => Except.ok t) := by
  have hlen : layout.toList.length < layout.length + 1 := Nat.lt_succ_self _
  rw [Parse, parseLoop_eq_runRounds _ _ _ _ hlen]

theorem layoutRounds_ctimeNoMS :
    layoutRounds (ctimeNoMSTimeFormat.length + 1) ctimeNoMSTimeFormat.toList
      = ([([], Std.stdWeekDay, " Jan _2 15:04:05".toList),
          (" ".toList, Std.stdMonth, " _2 15:04:05".toList),
          (" ".toList, Std.stdUnderDay, " 15:04:05".toList),
          (" ".toList, Std.stdHour, ":04:05".toList),
          (":".toList, Std.stdZeroMinute, ":05".toList),
          (":".toList, Std.stdZeroSecond, [])], []) := by
  decide

theorem layoutRounds_ctime :
    layoutRounds (ctimeTimeFormat.length + 1) ctimeTimeFormat.toList
      = ([([], Std.stdWeekDay, " Jan _2 15:04:05.000".toList),
          (" ".toList, Std.stdMonth, " _2 15:04:05.000".toList),
          (" ".toList, Std.stdUnderDay, " 15:04:05.000".toList),
          (" ".toList, Std.stdHour, ":04:05.000".toList),
          (":".toList, Std.stdZeroMinute, ":05.000".toList),
          (":".toList, Std.stdZeroSecond, ".000".toList),
          ([], Std.stdFracSecond0 3, [])], []) := by
  decide

theorem layoutRounds_iso8601UTC :
    layoutRounds (iso8601UTCTimeFormat.length + 1) iso8601UTCTimeFormat.toList
      = ([([], Std.stdLongYear, "-01-02T15:04:05Z".toList),
          ("-".toList, Std.stdZeroMonth, "-02T15:04:05Z".toList),
          ("-".toList, Std.stdZeroDay, "T15:04:05Z".toList),
          ("T".toList, Std.stdHour, ":04:05Z".toList),
          (":".toList, Std.stdZeroMinute, ":05Z".toList),
          (":".toList, Std.stdZeroSecond, "Z".toList)], "Z".toList) := by
  decide

theorem layoutRounds_iso8601Local :
    layoutRounds (iso8601LocalTimeFormat.length + 1) iso8601LocalTimeFormat.toList
      = ([([], Std.stdLongYear, "-01-02T15:04:05.999999999-0700".toList),
          ("-".toList, Std.stdZeroMonth, "-02T15:04:05.999999999-0700".toList),
          ("-".toList, Std.stdZeroDay, "T15:04:05.999999999-0700".toList),
          ("T".toList, Std.stdHour, ":04:05.999999999-0700".toList),
          (":".toList, Std.stdZeroMinute, ":05.999999999-0700".toList),
          (":".toList, Std.stdZeroSecond, ".999999999-0700".toList),
          ([], Std.stdFracSecond9 9, "-0700".toList),
          ([], Std.stdNumTZ, [])], []) := by
  decide

/-- The layout after a layout element matters to the seconds only. -/
theorem parseRound_suffix (pre : List Char) (std : Std) (l1 l2 : List Char)
    (x : ParseState × List Char) (h : std ≠ Std.stdZeroSecond) :
    parseRound pre std l1 x = parseRound pre std l2 x := by
  simp only [parseRound]
  cases skip x.2 pre with
  | none => rfl
  | some v =>
    simp only
    cases std <;> first | rfl | exact absurd rfl h
theorem runRounds_cons_some (r : List Char × Std × List Char)
    (rest : List (List Char × Std × List Char)) (last : List Char) (x : ParseState × List Char)
    (st : ParseState) (h : runRounds (r :: rest) last x = some st) :
    ∃ y, parseRound r.1 r.2.1 r.2.2 x = some y ∧ runRounds rest last y = some st := by
  simp only [runRounds] at h
  cases hp : parseRound r.1 r.2.1 r.2.2 x with
  | none => simp only [hp, reduceCtorEq] at h
  | some y =>
    simp only [hp] at h
    exact ⟨y, rfl, h⟩

theorem runRounds_cons_of_some (r : List Char × Std × List Char)
    (rest : List (List Char × Std × List Char)) (last : List Char) (x y : ParseState × List Char)
    (h : parseRound r.1 r.2.1 r.2.2 x = some y) :
    runRounds (r :: rest) last x = runRounds rest last y := by
  simp only [runRounds, h]

theorem skip_nil (v : List Char) : skip v [] = some v := rfl

theorem parseEnd_nil_some (a st : ParseState) (v : List Char)
    (h : parseEnd [] (a, v) = some st) : v = [] ∧ st = a := by
  simp only [parseEnd, skip_nil] at h
  cases v with
  | nil =>
    simp only [List.length_nil, bne_self_eq_false, Bool.false_eq_true, if_false,
      Option.some.injEq] at h
    exact ⟨rfl, h.symm⟩
  | cons c cs => simp at h

/-- The seconds round when the layout goes on with a fraction: only the two
digits of the seconds are read. -/
theorem parseStd_second_before_frac (l : List Char) (st st2 : ParseState) (v v2 : List Char)
    (hl : (∃ k, (nextStdChunk l).2.1 = some (Std.stdFracSecond0 k)) ∨
      (∃ k, (nextStdChunk l).2.1 = some (Std.stdFracSecond9 k)))
    (h : parseStd Std.stdZeroSecond l st v = some (st2, v2)) :
    ∃ sec, getnum v true = some (sec, v2) ∧ 0 ≤ sec ∧ sec < 60 ∧
      st2 = { st with sec := sec } := by
  simp only [parseStd] at h
  cases hg : getnum v true with
  | none => simp only [hg, reduceCtorEq] at h
  | some r =>
    obtain ⟨sec, w⟩ := r
    simp only [hg] at h
    by_cases hr : (decide (sec < 0) || decide (60 ≤ sec)) = true
    · simp only [hr, if_true, reduceCtorEq] at h
    · simp only [hr, if_false] at h
      have hr2 : 0 ≤ sec ∧ sec < 60 := by
        simp only [Bool.or_eq_true, decide_eq_true_eq, not_or, not_lt, not_le] at hr
        exact hr
      have key : some (({ st with sec := sec } : ParseState), w) = some (st2, v2) := by
        cases w with
        | nil => exact h
        | cons c w1 =>
          cases w1 with
          | nil => exact h
          | cons c1 w2 =>
            simp only at h
            by_cases hc : (commaOrPeriod c && isDigit (c :: c1 :: w2) 1) = true
            · simp only [hc, if_true] at h
              rcases hl with ⟨k, hk⟩ | ⟨k, hk⟩
              · rw [hk] at h
                exact h
              · rw [hk] at h
                exact h
            · simp only [hc, if_false] at h
              exact h
      simp only [Option.some.injEq, Prod.mk.injEq] at key
      exact ⟨sec, by rw [key.2], hr2.1, hr2.2, key.1.symm⟩
theorem digit_ne_sign (c : Char) (h : isDigitChar c = true) :
    (some c == some '-') = false ∧ (some c == some '+') = false := by
  constructor
  · rw [beq_eq_false_iff_ne]
    intro e
    simp only [Option.some.injEq] at e
    rw [e] at h
    exact absurd h (by decide)
  · rw [beq_eq_false_iff_ne]
    intro e
    simp only [Option.some.injEq] at e
    rw [e] at h
    exact absurd h (by decide)

/-- Three characters that `atoi` accepts and that start with a digit are three
digits. -/
theorem atoi_three_digits (x1 x2 x3 : Char) (k : Int) (h : atoi [x1, x2, x3] = some k)
    (h1 : isDigitChar x1 = true) : isDigitChar x2 = true ∧ isDigitChar x3 = true := by
  have hs := digit_ne_sign x1 h1
  simp only [atoi, List.head?_cons, hs.1, hs.2, Bool.or_self, Bool.false_eq_true, if_false,
    leadingInt, leadingInt.loop, h1, if_true] at h
  by_cases h2 : isDigitChar x2 = true
  · by_cases h3 : isDigitChar x3 = true
    · exact ⟨h2, h3⟩
    · simp [h2, h3] at h
  · simp [h2] at h

/-- What the fraction round `.000` needs of a value of four characters. -/
theorem parseNanoseconds_four (c x1 x2 x3 : Char) (ns : Int)
    (h : parseNanoseconds [c, x1, x2, x3] 4 = some ns) :
    commaOrPeriod c = true ∧ ∃ k, atoi [x1, x2, x3] = some k := by
  simp only [parseNanoseconds] at h
  by_cases hc : commaOrPeriod c = true
  · refine ⟨hc, ?_⟩
    simp only [hc, Bool.not_true, Bool.false_eq_true, if_false, gt_iff_lt,
      show ¬ (10 < 4) by decide, List.take_succ_cons, List.take_zero, List.drop_succ_cons,
      List.drop_zero] at h
    cases ha : atoi [x1, x2, x3] with
    | none => simp [ha] at h
    | some k => exact ⟨k, rfl⟩
  · simp [hc] at h

set_option maxHeartbeats 1000000 in
/-- The end of `ctimeTimeFormat` against the end of `ctimeNoMSTimeFormat`: where
the seconds, the fraction `.000` and the end of the value succeed, the seconds
round without a fraction in the layout, followed by the end of the value,
either fails or ends in the same state. -/
theorem ctime_end_vs_ctimeNoMS (x5 y6 y7 : ParseState × List Char) (st : ParseState)
    (h6 : parseRound ":".toList Std.stdZeroSecond ".000".toList x5 = some y6)
    (h7 : parseRound [] (Std.stdFracSecond0 3) [] y6 = some y7)
    (h8 : parseEnd [] y7 = some st) :
    runRounds [(":".toList, Std.stdZeroSecond, [])] [] x5 = none ∨
      runRounds [(":".toList, Std.stdZeroSecond, [])] [] x5 = some st := by
  obtain ⟨a6, w⟩ := y6
  obtain ⟨a7, w7⟩ := y7
  simp only [parseRound] at h6
  cases hs : skip x5.2 ":".toList with
  | none => simp only [hs, reduceCtorEq] at h6
  | some v =>
    simp only [hs] at h6
    obtain ⟨sec, hg, hs0, hs1, ha6⟩ := parseStd_second_before_frac _ _ _ _ _
      (Or.inl ⟨3, by decide⟩) h6
    simp only [parseRound, skip_nil, parseStd] at h7
    by_cases hlen : w.length < 1 + 3
    · simp only [hlen, if_true, reduceCtorEq] at h7
    · simp only [hlen, if_false] at h7
      have hlen4 : 4 ≤ w.length := by omega
      cases hn : parseNanoseconds w (1 + 3) with
      | none => simp only [hn, reduceCtorEq] at h7
      | some ns =>
        simp only [hn, Option.some.injEq, Prod.mk.injEq] at h7
        obtain ⟨h7a, h7w⟩ := h7
        obtain ⟨hw7, hst⟩ := parseEnd_nil_some a7 st w7 h8
        have hdrop : w.drop 4 = [] := by rw [← hw7, ← h7w]
        have hlen5 : w.length ≤ 4 := by
          have := congrArg List.length hdrop
          simp only [List.length_drop, List.length_nil] at this
          omega
        match w, hlen4, hlen5, hg, hn, hdrop with
        | [c, x1, x2, x3], _, _, hg, hn, _ =>
          obtain ⟨hc, k, hk⟩ := parseNanoseconds_four c x1 x2 x3 ns hn
          have hrange : (decide (sec < 0) || decide (60 ≤ sec)) = false := by
            simp only [Bool.or_eq_false_iff, decide_eq_false_iff_not, not_lt, not_le]
            exact ⟨hs0, hs1⟩
          have hnone : (nextStdChunk []).2.1 = none := rfl
          simp only [runRounds, parseRound, hs, parseStd, hg, hrange, Bool.false_eq_true,
            if_false, hc, Bool.true_and, isDigit, List.get?_cons_succ, List.get?_cons_zero, hnone]
          by_cases h1 : isDigitChar x1 = true
          · obtain ⟨h2, h3⟩ := atoi_three_digits x1 x2 x3 k hk h1
            right
            simp only [h1, if_true, List.drop_succ_cons, List.drop_zero, List.takeWhile_cons, h2,
              h3, List.takeWhile_nil, List.length_cons, List.length_nil]
            have e4 : 1 + (0 + 1 + 1 + 1) = 1 + 3 := rfl
            simp only [e4, hn, List.drop_nil, parseEnd, skip_nil, List.length_nil,
              bne_self_eq_false, Bool.false_eq_true, if_false, hst, ← h7a, ha6]
          · left
            simp only [h1, Bool.false_eq_true, if_false, parseEnd, skip_nil, List.length_cons,
              List.length_nil]
            rfl
theorem skip_Z (v : List Char) (h : skip v "Z".toList = some []) : v = "Z".toList := by
  cases v with
  | nil => simp [skip, skip.loop] at h
  | cons c vs =>
    have hl : "Z".toList = ['Z'] := rfl
    rw [hl] at h ⊢
    simp only [skip, List.length_cons, List.length_nil, skip.loop] at h
    by_cases hc : c = 'Z'
    · subst hc
      simp at h
      rw [h]
    · simp [hc] at h

set_option maxHeartbeats 1000000 in
/-- The end of `iso8601UTCTimeFormat` against the end of
`iso8601LocalTimeFormat`: where the seconds and the closing `Z` succeed, the
rounds for seconds, fraction and numeric zone fail, for what is left for the zone
is the one character `Z`. -/
theorem isoUTC_end_vs_isoLocal (x5 y6 : ParseState × List Char) (st : ParseState)
    (h6 : parseRound ":".toList Std.stdZeroSecond "Z".toList x5 = some y6)
    (h7 : parseEnd "Z".toList y6 = some st) :
    runRounds [(":".toList, Std.stdZeroSecond, ".999999999-0700".toList),
        ([], Std.stdFracSecond9 9, "-0700".toList), ([], Std.stdNumTZ, [])] [] x5 = none := by
  obtain ⟨a6, w6⟩ := y6
  have hw6 : w6 = "Z".toList := by
    simp only [parseEnd] at h7
    cases hs7 : skip w6 "Z".toList with
    | none => simp only [hs7, reduceCtorEq] at h7
    | some v7 =>
      simp only [hs7] at h7
      cases v7 with
      | nil => exact skip_Z w6 hs7
      | cons c cs => simp at h7
  subst hw6
  simp only [parseRound] at h6
  cases hs : skip x5.2 ":".toList with
  | none => simp only [runRounds, parseRound, hs]
  | some v =>
    simp only [hs] at h6
    simp only [runRounds, parseRound, hs]
    cases hl : parseStd Std.stdZeroSecond ".999999999-0700".toList x5.1 v with
    | none => rfl
    | some y =>
      obtain ⟨b6, w⟩ := y
      obtain ⟨sec, hg, hs0, hs1, hb6⟩ := parseStd_second_before_frac _ _ _ _ _
        (Or.inr ⟨9, by decide⟩) hl
      have hrange : (decide (sec < 0) || decide (60 ≤ sec)) = false := by
        simp only [Bool.or_eq_false_iff, decide_eq_false_iff_not, not_lt, not_le]
        exact ⟨hs0, hs1⟩
      have hnone : (nextStdChunk "Z".toList).2.1 = none := by decide
      simp only [parseStd, hg, hrange, Bool.false_eq_true, if_false, hnone] at h6
      simp only [skip_nil]
      have hZ : ∀ b : ParseState, parseStd Std.stdNumTZ [] b "Z".toList = none := by
        intro b
        rfl
      cases w with
      | nil =>
        simp only [Option.some.injEq, Prod.mk.injEq] at h6
        exact absurd h6.2 (by decide)
      | cons c w1 =>
        cases w1 with
        | nil =>
          simp only [Option.some.injEq, Prod.mk.injEq] at h6
          simp only [parseStd, ← h6.2]
          rfl
        | cons c1 w2 =>
          simp only at h6
          by_cases hc : (commaOrPeriod c && isDigit (c :: c1 :: w2) 1) = true
          · simp only [hc, if_true] at h6
            have hc2 : (!commaOrPeriod c || !isDigit (c :: c1 :: w2) 1) = false := by
              simp only [Bool.and_eq_true] at hc
              simp [hc.1, hc.2]
            simp only [parseStd, hc2, Bool.false_eq_true, if_false]
            cases hn : parseNanoseconds (c :: c1 :: w2)
                (1 + (List.takeWhile isDigitChar (List.drop 1 (c :: c1 :: w2))).length) with
            | none => rfl
            | some ns =>
              simp only [hn, Option.some.injEq, Prod.mk.injEq] at h6
              simp only [h6.2]
              rfl
          · simp only [hc, Bool.false_eq_true, if_false, Option.some.injEq, Prod.mk.injEq] at h6
            have hlen := congrArg List.length h6.2
            have hl1 : "Z".toList.length = 1 := rfl
            rw [hl1] at hlen
            simp only [List.length_cons] at hlen
            omega

/-- Five rounds that differ only in the layout after their elements, none of them
the seconds, give the same. -/
theorem runRounds_five (p1 p2 p3 p4 p5 : List Char) (s1 s2 s3 s4 s5 : Std)
    (a1 a2 a3 a4 a5 b1 b2 b3 b4 b5 : List Char) (ra rb : List (List Char × Std × List Char))
    (la lb : List Char) (x : ParseState × List Char) (st : ParseState)
    (h1 : s1 ≠ Std.stdZeroSecond) (h2 : s2 ≠ Std.stdZeroSecond) (h3 : s3 ≠ Std.stdZeroSecond)
    (h4 : s4 ≠ Std.stdZeroSecond) (h5 : s5 ≠ Std.stdZeroSecond)
    (h : runRounds ((p1, s1, a1) :: (p2, s2, a2) :: (p3, s3, a3) :: (p4, s4, a4) ::
      (p5, s5, a5) :: ra) la x = some st) :
    ∃ x5, runRounds ra la x5 = some st ∧
      runRounds ((p1, s1, b1) :: (p2, s2, b2) :: (p3, s3, b3) :: (p4, s4, b4) ::
        (p5, s5, b5) :: rb) lb x = runRounds rb lb x5 := by
  obtain ⟨x1, e1, h⟩ := runRounds_cons_some _ _ _ _ _ h
  obtain ⟨x2, e2, h⟩ := runRounds_cons_some _ _ _ _ _ h
  obtain ⟨x3, e3, h⟩ := runRounds_cons_some _ _ _ _ _ h
  obtain ⟨x4, e4, h⟩ := runRounds_cons_some _ _ _ _ _ h
  obtain ⟨x5, e5, h⟩ := runRounds_cons_some _ _ _ _ _ h
  refine ⟨x5, h, ?_⟩
  simp only at e1 e2 e3 e4 e5
  rw [runRounds_cons_of_some _ _ _ _ x1 (by rw [← e1]; exact parseRound_suffix _ _ _ _ _ h1),
    runRounds_cons_of_some _ _ _ _ x2 (by rw [← e2]; exact parseRound_suffix _ _ _ _ _ h2),
    runRounds_cons_of_some _ _ _ _ x3 (by rw [← e3]; exact parseRound_suffix _ _ _ _ _ h3),
    runRounds_cons_of_some _ _ _ _ x4 (by rw [← e4]; exact parseRound_suffix _ _ _ _ _ h4),
    runRounds_cons_of_some _ _ _ _ x5 (by rw [← e5]; exact parseRound_suffix _ _ _ _ _ h5)]

theorem Parse_ok_runRounds (layout s : String) (t : Time) (h : Parse layout s = Except.ok t) :
    ∃ st, runRounds (layoutRounds (layout.length + 1) layout.toList).1
        (layoutRounds (layout.length + 1) layout.toList).2 (ParseState.init, s.toList) = some st ∧
      parseFinish st = some t := by
  rw [Parse_eq_runRounds] at h
  split at h
  · simp only [reduceCtorEq] at h
  · rename_i st hst
    split at h
    · simp only [reduceCtorEq] at h
    · rename_i t2 hfin
      simp only [Except.ok.injEq] at h
      exact ⟨st, hst, by rw [hfin, h]⟩

/-- A string that parses under `iso8601UTCTimeFormat` does not parse under
`iso8601LocalTimeFormat`. -/
theorem Parse_isoLocal_error_of_isoUTC (s : String) (t : Time)
    (h : Parse iso8601UTCTimeFormat s = Except.ok t) :
    ∃ e, Parse iso8601LocalTimeFormat s = Except.error e := by
  obtain ⟨st, hst, -⟩ := Parse_ok_runRounds _ s t h
  rw [layoutRounds_iso8601UTC] at hst
  simp only at hst
  obtain ⟨x5, h5, heq⟩ := runRounds_five _ _ _ _ _ _ _ _ _ _ _ _ _ _ _
    "-01-02T15:04:05.999999999-0700".toList "-02T15:04:05.999999999-0700".toList
    "T15:04:05.999999999-0700".toList ":04:05.999999999-0700".toList
    ":05.999999999-0700".toList _
    [(":".toList, Std.stdZeroSecond, ".999999999-0700".toList),
        ([], Std.stdFracSecond9 9, "-0700".toList), ([], Std.stdNumTZ, [])]
    _ [] _ _ (by decide) (by decide) (by decide) (by decide) (by decide) hst
  obtain ⟨y6, h6, h7⟩ := runRounds_cons_some _ _ _ _ _ h5
  simp only [runRounds] at h7
  have hnone := isoUTC_end_vs_isoLocal x5 y6 st h6 h7
  rw [hnone] at heq
  rw [Parse_eq_runRounds, layoutRounds_iso8601Local]
  simp only [heq]
  exact ⟨_, rfl⟩

/-- A string that parses under `ctimeTimeFormat` either does not parse under
`ctimeNoMSTimeFormat` or parses to the same time under it. -/
theorem Parse_ctimeNoMS_of_ctime (s : String) (t : Time)
    (h : Parse ctimeTimeFormat s = Except.ok t) :
    Parse ctimeNoMSTimeFormat s = Except.ok t ∨
      ∃ e, Parse ctimeNoMSTimeFormat s = Except.error e := by
  obtain ⟨st, hst, hfin⟩ := Parse_ok_runRounds _ s t h
  rw [layoutRounds_ctime] at hst
  simp only at hst
  obtain ⟨x5, h5, heq⟩ := runRounds_five _ _ _ _ _ _ _ _ _ _ _ _ _ _ _
    " Jan _2 15:04:05".toList " _2 15:04:05".toList " 15:04:05".toList ":04:05".toList
    ":05".toList _ [(":".toList, Std.stdZeroSecond, [])]
    _ [] _ _ (by decide) (by decide) (by decide) (by decide) (by decide) hst
  obtain ⟨y6, h6, h7⟩ := runRounds_cons_some _ _ _ _ _ h5
  obtain ⟨y7, h7, h8⟩ := runRounds_cons_some _ _ _ _ _ h7
  simp only [runRounds] at h8
  rw [Parse_eq_runRounds, layoutRounds_ctimeNoMS]
  simp only [heq]
  rcases ctime_end_vs_ctimeNoMS x5 y6 y7 st h6 h7 h8 with hn | hs
  · right
    rw [hn]
    exact ⟨_, rfl⟩
  · left
    rw [hs]
    simp only [hfin]
/-! ### Helpers for the claims -/

theorem parseTimestamp_all_fail {σ : Type} (p : Parser σ) (calls : Nat) (values : Fields) (s : String)
    (hv : values "timestamp" = some (Value.str s))
    (h : ∀ f ∈ timestampFormats, ∃ e, Parse f s = Except.error e) :
    p.parseTimestamp calls values = (Time.zero, none) := by
  rw [parseTimestamp_of_str p calls values s hv]
  exact loop_all_fail _ s none timestampFormats h

theorem parseTimestamp_no_string {σ : Type} (p : Parser σ) (calls : Nat) (values : Fields)
    (h : ∀ s, values "timestamp" ≠ some (Value.str s)) :
    p.parseTimestamp calls values = (Time.zero, some errTimestampMissing) := by
  have h2 : (values.stringAt "timestamp").2 = false := by
    cases hb : (values.stringAt "timestamp").2 with
    | false => rfl
    | true =>
      obtain ⟨s, hs⟩ := (stringAt_snd_eq_true values "timestamp").mp hb
      exact absurd hs (h s)
  simp only [Parser.parseTimestamp, h2, Bool.false_eq_true, if_false, errTimestampMissing]

theorem parseTimestamp_string_error {σ : Type} (p : Parser σ) (calls : Nat) (values : Fields) (s : String)
    (h : values "timestamp" = some (Value.str s)) : (p.parseTimestamp calls values).2 = none := by
  rw [parseTimestamp_of_str p calls values s h]
  rcases loop_error_eq (p.nower.Now calls) s none timestampFormats with h1 | h1 <;> exact h1

theorem body_of_dropped_at_parse {σ : Type} (isP : Option Error → Bool) (p : Parser σ)
    (st : LoopState σ) (line : String) (r : ParseResult σ)
    (hr : p.lineParser.ParseLogLine st.parser st.heap line = r)
    (h : p.passesParse isP r.err = false) :
    Parser.ProcessLines.body isP p st line = ⟨st.calls, r.state, r.heap, st.sent⟩ := by
  rw [body_eq_lineOutcome]
  simp [Parser.afterLine, Parser.lineOutcome, hr, h]

theorem body_of_resolved {σ : Type} (isP : Option Error → Bool) (p : Parser σ)
    (st : LoopState σ) (line : String) (r : ParseResult σ) (t : Time)
    (hr : p.lineParser.ParseLogLine st.parser st.heap line = r)
    (h1 : p.passesParse isP r.err = true)
    (h2 : p.parseTimestamp st.calls (r.heap.fields r.values) = (t, none)) :
    Parser.ProcessLines.body isP p st line
      = ⟨st.calls + 1, r.state, r.heap.delete r.values "timestamp",
          st.sent ++ [⟨t, (r.heap.fields r.values).delete "timestamp"⟩]⟩ := by
  rw [body_eq_lineOutcome]
  simp [Parser.afterLine, Parser.lineOutcome, hr, h1, h2]

theorem body_of_unresolved {σ : Type} (isP : Option Error → Bool) (p : Parser σ)
    (st : LoopState σ) (line : String) (r : ParseResult σ) (t : Time) (e : Error)
    (hr : p.lineParser.ParseLogLine st.parser st.heap line = r)
    (h1 : p.passesParse isP r.err = true)
    (h2 : p.parseTimestamp st.calls (r.heap.fields r.values) = (t, some e)) :
    Parser.ProcessLines.body isP p st line = ⟨st.calls + 1, r.state, r.heap, st.sent⟩ := by
  rw [body_eq_lineOutcome]
  simp [Parser.afterLine, Parser.lineOutcome, hr, h1, h2]

/-- The events of an input with a line in it: those of the lines before, then
what the loop body sends for the line, then the events of the lines after from
the state that the loop body leaves. -/
theorem ProcessLines_split {σ : Type} (isP : Option Error → Bool) (p : Parser σ)
    (before after : List String) (line : String) (c : Nat) (s : σ) (h : Heap)
    (evs : List Event)
    (hb : Parser.ProcessLines.body isP p (Parser.ProcessLines.run isP p p.start before) line
      = ⟨c, s, h, (Parser.ProcessLines.run isP p p.start before).sent ++ evs⟩) :
    p.ProcessLines isP (before ++ line :: after)
      = p.ProcessLines isP before ++ evs ++
          (Parser.ProcessLines.run isP p ⟨c, s, h, []⟩ after).sent := by
  simp only [Parser.ProcessLines, run_append, run_cons, hb]
  rw [run_calls_sent]

/-! ### The claims -/

/-- C1 (the code at the failing input). The string `"not a timestamp"` parses
under none of the four layouts of `timestampFormats`, and for it
`parseTimestamp` returns the zero time with a nil error, whatever the parser:
the error of `time.Parse` is assigned to a variable of the loop body and the
`err` that is returned after the loop is never set. -/
theorem parseTimestamp_unparseable_nil_error :
    (∀ f ∈ timestampFormats,
      Parse f "not a timestamp" = Except.error (Error.parseError f "not a timestamp")) ∧
    ∀ (σ : Type) (p : Parser σ) (calls : Nat),
      p.parseTimestamp calls (Fields.timestamp "not a timestamp") = (Time.zero, none) := by
  have h : ∀ f ∈ timestampFormats,
      Parse f "not a timestamp" = Except.error (Error.parseError f "not a timestamp") := by
    decide
  exact ⟨h, fun σ p calls => parseTimestamp_all_fail p calls _ "not a timestamp" rfl
    (fun f hf => ⟨_, h f hf⟩)⟩

/-- C2 (the code at the failing input). A line whose fields hold the timestamp
string `"not a timestamp"`, which no layout parses, is not dropped: for every
setting of `LogPartials`, every clock and every classification of errors,
`ProcessLines` sends one event for it, stamped with the zero time. -/
theorem ProcessLines_unparseable_timestamp_sent :
    (∀ f ∈ timestampFormats, ∃ e, Parse f "not a timestamp" = Except.error e) ∧
    ∀ (isP : Option Error → Bool) (conf : Options) (nower : Nower),
      ((Parser.mk conf LineParser.timestampOnly nower).ProcessLines isP
        ["not a timestamp"]).map Event.Timestamp = [Time.zero] := by
  have h : ∀ f ∈ timestampFormats, ∃ e, Parse f "not a timestamp" = Except.error e := by
    intro f hf
    exact ⟨Error.parseError f "not a timestamp", by revert f; decide⟩
  refine ⟨h, fun isP conf nower => ?_⟩
  have hb := body_of_resolved isP (Parser.mk conf LineParser.timestampOnly nower)
    (Parser.mk conf LineParser.timestampOnly nower).start "not a timestamp" _ Time.zero rfl rfl
    (parseTimestamp_all_fail _ _ _ "not a timestamp" rfl h)
  simp only [Parser.ProcessLines, Parser.ProcessLines.run, List.foldl_cons, List.foldl_nil, hb]
  rfl

/-- C3 (the code at the failing input). Of the two lines `"2021-06-15T10:00:00Z"`
and `"not a timestamp"`, each returned by the line parser as the field
`"timestamp"`, `ProcessLines` sends two events, and the `Timestamp` of the
second one is the zero `time.Time`. -/
theorem ProcessLines_sends_zero_timestamp :
    ((Parser.test false (Date 2021 6 15 12 0 0 0 UTC)).ProcessLines isPartialByType
        ["2021-06-15T10:00:00Z", "not a timestamp"]).map (fun e => e.Timestamp)
      = [Date 2021 6 15 10 0 0 0 UTC, Time.zero] ∧
    ((Parser.test false (Date 2021 6 15 12 0 0 0 UTC)).ProcessLines isPartialByType
        ["2021-06-15T10:00:00Z", "not a timestamp"]).map (fun e => e.Timestamp.IsZero)
      = [false, true] := by
  decide

/-- C4 (the code at the failing input). With the clock at 2021-01-02 10:00:00 UTC
the string `"Sat Jan  2 10:00:00"` parses under `ctimeNoMSTimeFormat`, the
candidate with the year 2021 attached is that very instant, neither before nor
after it, and `parseTimestamp` returns 2020-01-02 10:00:00, the value with the
year before, not the candidate. -/
theorem parseTimestamp_candidate_equal_now :
    ctimeParse "Sat Jan  2 10:00:00" = some (Date 0 1 2 10 0 0 0 UTC) ∧
    (Date 2021 1 2 10 0 0 0 UTC).Year = 2021 ∧
    (Date 0 1 2 10 0 0 0 UTC).AddDate 2021 0 0 = Date 2021 1 2 10 0 0 0 UTC ∧
    ((Date 0 1 2 10 0 0 0 UTC).AddDate 2021 0 0).After (Date 2021 1 2 10 0 0 0 UTC) = false ∧
    (Parser.test false (Date 2021 1 2 10 0 0 0 UTC)).parseTimestamp 0
        (Fields.timestamp "Sat Jan  2 10:00:00")
      = (Date 2020 1 2 10 0 0 0 UTC, none) ∧
    (Date 2020 1 2 10 0 0 0 UTC).Year = 2020 := by
  decide

/-- C5. Year inference away from the boundary: for every reference time and
every timestamp string that parses under a year-absent layout, with `t` the
value of the first such layout, if `t` with the year of `now` attached is
strictly before `now` then `parseTimestamp` returns it, without error, and its
year is `now.Year()`; if it is strictly after `now` then `parseTimestamp`
returns `t` with the year before attached, without error, and its year is
`now.Year() - 1`. -/
theorem parseTimestamp_year_inference_strict {σ : Type} (p : Parser σ) (calls : Nat) (values : Fields)
    (s : String) (t : Time) (hv : values "timestamp" = some (Value.str s))
    (ht : ctimeParse s = some t) :
    ((t.AddDate (p.nower.Now calls).Year 0 0).Before (p.nower.Now calls) = true →
      p.parseTimestamp calls values = (t.AddDate (p.nower.Now calls).Year 0 0, none) ∧
      (p.parseTimestamp calls values).1.Year = (p.nower.Now calls).Year) ∧
    ((t.AddDate (p.nower.Now calls).Year 0 0).After (p.nower.Now calls) = true →
      p.parseTimestamp calls values = (t.AddDate ((p.nower.Now calls).Year - 1) 0 0, none) ∧
      (p.parseTimestamp calls values).1.Year = (p.nower.Now calls).Year - 1) := by
  rw [parseTimestamp_ctime p calls values s t hv ht]
  constructor
  · intro hb
    rw [← After_eq_Before] at hb
    simp only [hb, if_true]
    exact ⟨trivial, ctimeParse_AddDate_Year s t _ ht⟩
  · intro ha
    have hn := After_asymm _ _ ha
    simp only [hn, Bool.false_eq_true, if_false]
    exact ⟨trivial, ctimeParse_AddDate_Year s t _ ht⟩

/-- C5 at the two inputs of the claim: with the clock at 2021-06-15 the string
`"Sat Jan  2 10:00:00.000"` resolves to 2021-01-02 10:00:00, and with the clock
at 2021-01-02 the string `"Thu Dec 31 23:59:59.000"` resolves to
2020-12-31 23:59:59. -/
theorem parseTimestamp_year_inference_strict_witness :
    (Fields.timestamp "Sat Jan  2 10:00:00.000" "timestamp"
        = some (Value.str "Sat Jan  2 10:00:00.000") ∧
      ctimeParse "Sat Jan  2 10:00:00.000" = some (Date 0 1 2 10 0 0 0 UTC) ∧
      ((Date 0 1 2 10 0 0 0 UTC).AddDate (Date 2021 6 15 0 0 0 0 UTC).Year 0 0).Before
        (Date 2021 6 15 0 0 0 0 UTC) = true ∧
      (Parser.test false (Date 2021 6 15 0 0 0 0 UTC)).parseTimestamp 0
          (Fields.timestamp "Sat Jan  2 10:00:00.000")
        = (Date 2021 1 2 10 0 0 0 UTC, none) ∧
      ((Parser.test false (Date 2021 6 15 0 0 0 0 UTC)).parseTimestamp 0
          (Fields.timestamp "Sat Jan  2 10:00:00.000")).1.Year = 2021) ∧
    (Fields.timestamp "Thu Dec 31 23:59:59.000" "timestamp"
        = some (Value.str "Thu Dec 31 23:59:59.000") ∧
      ctimeParse "Thu Dec 31 23:59:59.000" = some (Date 0 12 31 23 59 59 0 UTC) ∧
      ((Date 0 12 31 23 59 59 0 UTC).AddDate (Date 2021 1 2 0 0 0 0 UTC).Year 0 0).After
        (Date 2021 1 2 0 0 0 0 UTC) = true ∧
      (Parser.test false (Date 2021 1 2 0 0 0 0 UTC)).parseTimestamp 0
          (Fields.timestamp "Thu Dec 31 23:59:59.000")
        = (Date 2020 12 31 23 59 59 0 UTC, none) ∧
      ((Parser.test false (Date 2021 1 2 0 0 0 0 UTC)).parseTimestamp 0
          (Fields.timestamp "Thu Dec 31 23:59:59.000")).1.Year = 2020) := by
  have hv1 : Fields.timestamp "Sat Jan  2 10:00:00.000" "timestamp"
      = some (Value.str "Sat Jan  2 10:00:00.000") := rfl
  have ht1 : ctimeParse "Sat Jan  2 10:00:00.000" = some (Date 0 1 2 10 0 0 0 UTC) := by decide
  have hb1 : ((Date 0 1 2 10 0 0 0 UTC).AddDate (Date 2021 6 15 0 0 0 0 UTC).Year 0 0).Before
      (Date 2021 6 15 0 0 0 0 UTC) = true := by decide
  have hv2 : Fields.timestamp "Thu Dec 31 23:59:59.000" "timestamp"
      = some (Value.str "Thu Dec 31 23:59:59.000") := rfl
  have ht2 : ctimeParse "Thu Dec 31 23:59:59.000" = some (Date 0 12 31 23 59 59 0 UTC) := by
    decide
  have ha2 : ((Date 0 12 31 23 59 59 0 UTC).AddDate (Date 2021 1 2 0 0 0 0 UTC).Year 0 0).After
      (Date 2021 1 2 0 0 0 0 UTC) = true := by decide
  have w1 := (parseTimestamp_year_inference_strict
    (Parser.test false (Date 2021 6 15 0 0 0 0 UTC)) 0 _ _ _ hv1 ht1).1 hb1
  have w2 := (parseTimestamp_year_inference_strict
    (Parser.test false (Date 2021 1 2 0 0 0 0 UTC)) 0 _ _ _ hv2 ht2).2 ha2
  refine ⟨⟨hv1, ht1, hb1, ?_, ?_⟩, ⟨hv2, ht2, ha2, ?_, ?_⟩⟩
  · rw [w1.1]
    decide
  · rw [w1.2]
    decide
  · rw [w2.1]
    decide
  · rw [w2.2]
    decide

/-- C6. `parseTimestamp` returns the zero time and the error
`"timestamp missing from logline"` exactly when the fields bind `"timestamp"`
to no string (key absent, nil map, or a value of another type), whatever the
clock and the other fields; in particular it does so on the map without keys,
and it never returns that error when `"timestamp"` is bound to a string. -/
theorem parseTimestamp_missing_iff {σ : Type} (p : Parser σ) (calls : Nat) (values : Fields) :
    (p.parseTimestamp calls values = (Time.zero, some errTimestampMissing)
      ↔ ∀ s, values "timestamp" ≠ some (Value.str s)) ∧
    ((p.parseTimestamp calls values).2 = some errTimestampMissing
      ↔ ∀ s, values "timestamp" ≠ some (Value.str s)) ∧
    p.parseTimestamp calls Fields.empty = (Time.zero, some errTimestampMissing) ∧
    errTimestampMissing = Error.errorString "timestamp missing from logline" := by
  have hback : (p.parseTimestamp calls values).2 = some errTimestampMissing
      → ∀ s, values "timestamp" ≠ some (Value.str s) := by
    intro h s hs
    rw [parseTimestamp_string_error p calls values s hs] at h
    exact absurd h (by simp)
  refine ⟨⟨fun h => hback (by rw [h]), parseTimestamp_no_string p calls values⟩,
    ⟨hback, fun h => by rw [parseTimestamp_no_string p calls values h]⟩,
    parseTimestamp_no_string p calls _ (fun s hs => by simp [Fields.empty] at hs), rfl⟩

/-- C6 on concrete fields: no key at all, a `"timestamp"` that is a number, and a
`"timestamp"` that is a string no layout parses. -/
theorem parseTimestamp_missing_iff_witness :
    (Parser.test false (Date 2021 6 15 0 0 0 0 UTC)).parseTimestamp 0 Fields.empty
      = (Time.zero, some errTimestampMissing) ∧
    (Parser.test false (Date 2021 6 15 0 0 0 0 UTC)).parseTimestamp 0
        (Fields.empty.set "timestamp" (Value.int 1623751200))
      = (Time.zero, some errTimestampMissing) ∧
    ((Parser.test false (Date 2021 6 15 0 0 0 0 UTC)).parseTimestamp 0
        (Fields.timestamp "not a timestamp")).2 ≠ some errTimestampMissing := by
  refine ⟨(parseTimestamp_missing_iff _ 0 Fields.empty).2.2.1,
    (parseTimestamp_missing_iff _ 0 _).1.mpr (fun s hs => ?_),
    fun h => (parseTimestamp_missing_iff _ 0 _).2.1.mp h "not a timestamp" rfl⟩
  simp [Fields.set] at hs

/-- C7. `parseTimestamp` decides on the first layout of `timestampFormats` that
parses the timestamp string: when the layouts before `f` in the list all fail
and `f` parses the string to `t`, the result is what the loop gives on the
one-layout list `[f]`, so the layouts after `f` have no part in it; and when `f`
is one of the two ISO-8601 layouts the result is `t` itself with a nil error,
the same for every parser and clock. -/
theorem parseTimestamp_first_layout {σ : Type} (p : Parser σ) (calls : Nat) (values : Fields) (s : String)
    (before after : List String) (f : String) (t : Time)
    (hv : values "timestamp" = some (Value.str s))
    (hsplit : timestampFormats = before ++ f :: after)
    (hbefore : ∀ g ∈ before, ∃ e, Parse g s = Except.error e)
    (hf : Parse f s = Except.ok t) :
    p.parseTimestamp calls values
        = Parser.parseTimestamp.loop (p.nower.Now calls) s none [f] ∧
    (∀ later : List String,
      Parser.parseTimestamp.loop (p.nower.Now calls) s none (before ++ f :: later)
        = p.parseTimestamp calls values) ∧
    (f = iso8601LocalTimeFormat ∨ f = iso8601UTCTimeFormat →
      ∀ (τ : Type) (q : Parser τ) (n : Nat), q.parseTimestamp n values = (t, none)) := by
  have hloop : ∀ (now : Time) (later : List String),
      Parser.parseTimestamp.loop now s none (before ++ f :: later)
        = Parser.parseTimestamp.loop now s none [f] := by
    intro now later
    rw [loop_skip_failures now s none before _ hbefore,
      loop_first_success now s none f later t hf]
  have hp : ∀ (τ : Type) (q : Parser τ) (n : Nat),
      q.parseTimestamp n values = Parser.parseTimestamp.loop (q.nower.Now n) s none [f] := by
    intro τ q n
    rw [parseTimestamp_of_str q n values s hv, hsplit, hloop]
  refine ⟨hp σ p calls, fun later => by rw [hloop, hp σ p calls], fun hiso τ q n => ?_⟩
  rw [hp τ q n]
  simp only [Parser.parseTimestamp.loop, hf]
  have hc : (f == ctimeTimeFormat || f == ctimeNoMSTimeFormat) = false := by
    rcases hiso with rfl | rfl <;> decide
  simp only [hc, Bool.false_eq_true, if_false]

/-- C7 on `"2021-06-15T10:00:00Z"`, which the first layout rejects and the second
one parses. -/
theorem parseTimestamp_first_layout_witness :
    (∀ g ∈ [iso8601LocalTimeFormat], ∃ e, Parse g "2021-06-15T10:00:00Z" = Except.error e) ∧
    Parse iso8601UTCTimeFormat "2021-06-15T10:00:00Z"
      = Except.ok (Date 2021 6 15 10 0 0 0 UTC) ∧
    (Parser.test false (Date 2021 6 15 12 0 0 0 UTC)).parseTimestamp 0
        (Fields.timestamp "2021-06-15T10:00:00Z")
      = (Date 2021 6 15 10 0 0 0 UTC, none) ∧
    (Parser.test true (Date 1999 1 1 0 0 0 0 UTC)).parseTimestamp 7
        (Fields.timestamp "2021-06-15T10:00:00Z")
      = (Date 2021 6 15 10 0 0 0 UTC, none) := by
  have h1 : ∀ g ∈ [iso8601LocalTimeFormat],
      ∃ e, Parse g "2021-06-15T10:00:00Z" = Except.error e := by
    intro g hg
    rw [List.mem_singleton.mp hg]
    exact ⟨Error.parseError iso8601LocalTimeFormat "2021-06-15T10:00:00Z", by decide⟩
  have h2 : Parse iso8601UTCTimeFormat "2021-06-15T10:00:00Z"
      = Except.ok (Date 2021 6 15 10 0 0 0 UTC) := by decide
  have w := parseTimestamp_first_layout (Parser.test false (Date 2021 6 15 12 0 0 0 UTC)) 0
    (Fields.timestamp "2021-06-15T10:00:00Z") "2021-06-15T10:00:00Z"
    [iso8601LocalTimeFormat] [ctimeNoMSTimeFormat, ctimeTimeFormat] iso8601UTCTimeFormat
    (Date 2021 6 15 10 0 0 0 UTC) rfl rfl h1 h2
  exact ⟨h1, h2, w.2.2 (Or.inr rfl) _ _ 0, w.2.2 (Or.inr rfl) _ _ 7⟩

/-- C8. No event sent by `ProcessLines` has the key `"timestamp"` in its `Data`,
for every input, line parser, clock, classification of errors and setting of
`LogPartials`. -/
theorem ProcessLines_data_without_timestamp {σ : Type} (isP : Option Error → Bool)
    (p : Parser σ) (lines : List String) (e : Event) (he : e ∈ p.ProcessLines isP lines) :
    e.Data "timestamp" = none :=
  run_sent_timestamp_absent isP p lines p.start (fun _ h => absurd h (List.not_mem_nil _)) e he

/-- C8 on a run that sends one event: the line parser returned the fields
`"line"` and `"timestamp"`, and the event holds `"line"` only. -/
theorem ProcessLines_data_without_timestamp_witness :
    (⟨Date 2021 6 15 10 0 0 0 UTC,
        (Fields.lineTimestamp "2021-06-15T10:00:00Z").delete "timestamp"⟩ : Event)
      ∈ (Parser.test false (Date 2021 6 15 12 0 0 0 UTC)).ProcessLines isPartialByType
          ["2021-06-15T10:00:00Z"] ∧
    ((Fields.lineTimestamp "2021-06-15T10:00:00Z").delete "timestamp") "timestamp" = none ∧
    ((Fields.lineTimestamp "2021-06-15T10:00:00Z").delete "timestamp") "line"
      = some (Value.int 1) := by
  have hmem : (⟨Date 2021 6 15 10 0 0 0 UTC,
        (Fields.lineTimestamp "2021-06-15T10:00:00Z").delete "timestamp"⟩ : Event)
      ∈ (Parser.test false (Date 2021 6 15 12 0 0 0 UTC)).ProcessLines isPartialByType
          ["2021-06-15T10:00:00Z"] := by
    have hb := body_of_resolved isPartialByType (Parser.test false (Date 2021 6 15 12 0 0 0 UTC))
      (Parser.test false (Date 2021 6 15 12 0 0 0 UTC)).start "2021-06-15T10:00:00Z" _
      (Date 2021 6 15 10 0 0 0 UTC) rfl rfl (by decide)
    simp only [Parser.ProcessLines, Parser.ProcessLines.run, List.foldl_cons, List.foldl_nil, hb]
    exact List.mem_singleton.mpr rfl
  exact ⟨hmem, ProcessLines_data_without_timestamp _ _ _ _ hmem, by decide⟩

/-- C9. With `LogPartials` off, a line for which the line parser returns an error
classified as partial sends no event, whatever fields came with the error and
whatever the state of the line parser: the loop body reads no clock and sends
nothing, it only takes over the state in which the line parser leaves itself
and the heap, and the events of a run are those of the lines before followed
by those of the lines after. With a line parser that answers by the line
alone, the run on an input with that line in it sends what the run on the
input without the line sends. -/
theorem ProcessLines_partial_dropped_when_disabled {σ : Type} (isP : Option Error → Bool)
    (p : Parser σ) (line : String) (e : Error)
    (hconf : p.conf.LogPartials = false) (_ : isP (some e) = true) :
    (∀ (st : LoopState σ) (r : ParseResult σ),
      p.lineParser.ParseLogLine st.parser st.heap line = r → r.err = some e →
      Parser.ProcessLines.body isP p st line = ⟨st.calls, r.state, r.heap, st.sent⟩) ∧
    (∀ (before after : List String) (r : ParseResult σ),
      p.lineParser.ParseLogLine (Parser.ProcessLines.run isP p p.start before).parser
        (Parser.ProcessLines.run isP p p.start before).heap line = r →
      r.err = some e →
      p.ProcessLines isP (before ++ line :: after)
        = p.ProcessLines isP before ++
          (Parser.ProcessLines.run isP p
            ⟨(Parser.ProcessLines.run isP p p.start before).calls, r.state, r.heap, []⟩
            after).sent) ∧
    (∀ f : String → Fields × Option Error, p.lineParser.Answers f → (f line).2 = some e →
      ∀ before after : List String,
        p.ProcessLines isP (before ++ line :: after) = p.ProcessLines isP (before ++ after)) := by
  have hdrop : p.passesParse isP (some e) = false := by
    simp [Parser.passesParse, hconf]
  have hb : ∀ (st : LoopState σ) (r : ParseResult σ),
      p.lineParser.ParseLogLine st.parser st.heap line = r → r.err = some e →
      Parser.ProcessLines.body isP p st line = ⟨st.calls, r.state, r.heap, st.sent⟩ := by
    intro st r hr herr
    exact body_of_dropped_at_parse isP p st line r hr (by rw [herr]; exact hdrop)
  refine ⟨hb, fun before after r hr herr => ?_, fun f hf hfe before after => ?_⟩
  · have h := ProcessLines_split isP p before after line _ r.state r.heap []
      (by rw [hb _ r hr herr, List.append_nil])
    rw [h, List.append_nil]
  · exact ProcessLines_of_dropped isP p f hf line (by rw [hfe]; exact hdrop) before after

/-- C9 on a line with a valid timestamp that the line parser returns with a
partial-line error. -/
theorem ProcessLines_partial_dropped_when_disabled_witness :
    (Parser.testFailing false partialLogLineError (Date 2021 6 15 12 0 0 0 UTC)).conf.LogPartials
      = false ∧
    isPartialByType (some partialLogLineError) = true ∧
    (Parser.testFailing true partialLogLineError (Date 2021 6 15 12 0 0 0 UTC)).parseTimestamp 0
        (Fields.lineTimestamp "2021-06-15T10:00:00Z")
      = (Date 2021 6 15 10 0 0 0 UTC, none) ∧
    (Parser.testFailing false partialLogLineError (Date 2021 6 15 12 0 0 0 UTC)).ProcessLines
        isPartialByType ([] ++ "2021-06-15T10:00:00Z" :: [])
      = (Parser.testFailing false partialLogLineError (Date 2021 6 15 12 0 0 0 UTC)).ProcessLines
        isPartialByType ([] ++ []) ∧
    (Parser.testFailing false partialLogLineError (Date 2021 6 15 12 0 0 0 UTC)).ProcessLines
        isPartialByType ["2021-06-15T10:00:00Z"] = [] :=
  ⟨rfl, rfl, by decide,
    (ProcessLines_partial_dropped_when_disabled isPartialByType
      (Parser.testFailing false partialLogLineError (Date 2021 6 15 12 0 0 0 UTC))
      "2021-06-15T10:00:00Z" partialLogLineError rfl rfl).2.2 _ (fresh_Answers _) rfl [] [],
    rfl⟩

/-- C10. With `LogPartials` on, a line for which the line parser returns a
partial error and a map on whose fields `parseTimestamp` returns the time `t`
and no error sends exactly one event: the events of a run are those of the
lines before, then this one event, then those of the lines after. Its
`Timestamp` is `t`, and its `Data` binds every key other than `"timestamp"` as
the extracted fields do and does not bind `"timestamp"`. -/
theorem ProcessLines_partial_sent_when_enabled {σ : Type} (isP : Option Error → Bool)
    (p : Parser σ) (before after : List String) (line : String) (r : ParseResult σ)
    (values : Fields) (e : Error) (t : Time)
    (hconf : p.conf.LogPartials = true)
    (hparse : p.lineParser.ParseLogLine (Parser.ProcessLines.run isP p p.start before).parser
      (Parser.ProcessLines.run isP p p.start before).heap line = r)
    (herr : r.err = some e)
    (hvalues : r.heap.fields r.values = values)
    (hclass : isP (some e) = true)
    (hres : p.parseTimestamp (Parser.ProcessLines.run isP p p.start before).calls values
      = (t, none)) :
    ∃ ev : Event,
      p.ProcessLines isP (before ++ line :: after)
        = p.ProcessLines isP before ++ ev ::
            (Parser.ProcessLines.run isP p
              ⟨(Parser.ProcessLines.run isP p p.start before).calls + 1, r.state,
                r.heap.delete r.values "timestamp", []⟩ after).sent ∧
      ev.Timestamp = t ∧
      ∀ k : String, ev.Data k = if k = "timestamp" then none else values k := by
  refine ⟨⟨t, values.delete "timestamp"⟩, ?_, rfl, fun k => rfl⟩
  have hb := body_of_resolved isP p (Parser.ProcessLines.run isP p p.start before) line r t
    hparse (by simp [Parser.passesParse, herr, hconf, hclass]) (by rw [hvalues]; exact hres)
  rw [hvalues] at hb
  rw [ProcessLines_split isP p before after line _ _ _ _ hb]
  simp

/-- C10 on a line with a valid timestamp that the line parser returns with a
partial-line error. -/
theorem ProcessLines_partial_sent_when_enabled_witness :
    (Parser.testFailing true partialLogLineError (Date 2021 6 15 12 0 0 0 UTC)).conf.LogPartials
      = true ∧
    isPartialByType (some partialLogLineError) = true ∧
    ∃ ev : Event,
      (Parser.testFailing true partialLogLineError (Date 2021 6 15 12 0 0 0 UTC)).ProcessLines
          isPartialByType ([] ++ "2021-06-15T10:00:00Z" :: [])
        = [] ++ ev :: [] ∧
      ev.Timestamp = Date 2021 6 15 10 0 0 0 UTC ∧
      ev.Data "timestamp" = none ∧ ev.Data "line" = some (Value.int 1) := by
  obtain ⟨ev, h1, h2, h3⟩ := ProcessLines_partial_sent_when_enabled isPartialByType
    (Parser.testFailing true partialLogLineError (Date 2021 6 15 12 0 0 0 UTC)) [] []
    "2021-06-15T10:00:00Z" _ (Fields.lineTimestamp "2021-06-15T10:00:00Z") partialLogLineError
    (Date 2021 6 15 10 0 0 0 UTC) rfl rfl rfl rfl rfl (by decide)
  exact ⟨rfl, rfl, ev, h1, h2, by rw [h3]; rfl, by rw [h3]; rfl⟩

/-- C11. For either setting of `LogPartials`, a line for which the line parser
returns an error that is not classified as partial sends no event, whatever
fields came with the error and whatever the state of the line parser: the loop
body reads no clock and sends nothing, it only takes over the state in which
the line parser leaves itself and the heap, and the events of a run are those
of the lines before followed by those of the lines after. With a line parser
that answers by the line alone, the run on an input with that line in it sends
what the run on the input without the line sends. -/
theorem ProcessLines_hard_failure_dropped {σ : Type} (isP : Option Error → Bool)
    (p : Parser σ) (line : String) (e : Error) (hclass : isP (some e) = false) :
    (∀ (st : LoopState σ) (r : ParseResult σ),
      p.lineParser.ParseLogLine st.parser st.heap line = r → r.err = some e →
      Parser.ProcessLines.body isP p st line = ⟨st.calls, r.state, r.heap, st.sent⟩) ∧
    (∀ (before after : List String) (r : ParseResult σ),
      p.lineParser.ParseLogLine (Parser.ProcessLines.run isP p p.start before).parser
        (Parser.ProcessLines.run isP p p.start before).heap line = r →
      r.err = some e →
      p.ProcessLines isP (before ++ line :: after)
        = p.ProcessLines isP before ++
          (Parser.ProcessLines.run isP p
            ⟨(Parser.ProcessLines.run isP p p.start before).calls, r.state, r.heap, []⟩
            after).sent) ∧
    (∀ f : String → Fields × Option Error, p.lineParser.Answers f → (f line).2 = some e →
      ∀ before after : List String,
        p.ProcessLines isP (before ++ line :: after) = p.ProcessLines isP (before ++ after)) := by
  have hdrop : p.passesParse isP (some e) = false := by
    simp [Parser.passesParse, hclass]
  have hb : ∀ (st : LoopState σ) (r : ParseResult σ),
      p.lineParser.ParseLogLine st.parser st.heap line = r → r.err = some e →
      Parser.ProcessLines.body isP p st line = ⟨st.calls, r.state, r.heap, st.sent⟩ := by
    intro st r hr herr
    exact body_of_dropped_at_parse isP p st line r hr (by rw [herr]; exact hdrop)
  refine ⟨hb, fun before after r hr herr => ?_, fun f hf hfe before after => ?_⟩
  · have h := ProcessLines_split isP p before after line _ r.state r.heap []
      (by rw [hb _ r hr herr, List.append_nil])
    rw [h, List.append_nil]
  · exact ProcessLines_of_dropped isP p f hf line (by rw [hfe]; exact hdrop) before after

/-- C11 on a line with a valid timestamp that the line parser returns with an
error of another kind, with `LogPartials` on and off. -/
theorem ProcessLines_hard_failure_dropped_witness :
    isPartialByType (some (Error.foreign "logparser.parseError" "no match")) = false ∧
    (Parser.testFailing true (Error.foreign "logparser.parseError" "no match")
        (Date 2021 6 15 12 0 0 0 UTC)).parseTimestamp 0
        (Fields.lineTimestamp "2021-06-15T10:00:00Z")
      = (Date 2021 6 15 10 0 0 0 UTC, none) ∧
    (Parser.testFailing true (Error.foreign "logparser.parseError" "no match")
        (Date 2021 6 15 12 0 0 0 UTC)).ProcessLines isPartialByType
        ([] ++ "2021-06-15T10:00:00Z" :: [])
      = (Parser.testFailing true (Error.foreign "logparser.parseError" "no match")
        (Date 2021 6 15 12 0 0 0 UTC)).ProcessLines isPartialByType ([] ++ []) ∧
    (Parser.testFailing false (Error.foreign "logparser.parseError" "no match")
        (Date 2021 6 15 12 0 0 0 UTC)).ProcessLines isPartialByType
        ([] ++ "2021-06-15T10:00:00Z" :: [])
      = (Parser.testFailing false (Error.foreign "logparser.parseError" "no match")
        (Date 2021 6 15 12 0 0 0 UTC)).ProcessLines isPartialByType ([] ++ []) ∧
    (Parser.testFailing true (Error.foreign "logparser.parseError" "no match")
        (Date 2021 6 15 12 0 0 0 UTC)).ProcessLines isPartialByType ["2021-06-15T10:00:00Z"]
      = [] :=
  ⟨rfl, by decide,
    (ProcessLines_hard_failure_dropped isPartialByType
      (Parser.testFailing true (Error.foreign "logparser.parseError" "no match")
        (Date 2021 6 15 12 0 0 0 UTC))
      "2021-06-15T10:00:00Z" (Error.foreign "logparser.parseError" "no match") rfl).2.2 _
      (fresh_Answers _) rfl [] [],
    (ProcessLines_hard_failure_dropped isPartialByType
      (Parser.testFailing false (Error.foreign "logparser.parseError" "no match")
        (Date 2021 6 15 12 0 0 0 UTC))
      "2021-06-15T10:00:00Z" (Error.foreign "logparser.parseError" "no match") rfl).2.2 _
      (fresh_Answers _) rfl [] [],
    rfl⟩

/-- C12. The events sent by `ProcessLines` are the outcomes of the lines, taken
in the order of the input: every line has one outcome, which is one event if the
line passes the parse stage (no error, or a partial error with `LogPartials` on)
and its timestamp resolves, and nothing otherwise, and the output is the
sequence of those events with the empty outcomes left out. Nothing is
reordered, repeated or held back. -/
theorem ProcessLines_eq_outcomes {σ : Type} (isP : Option Error → Bool) (p : Parser σ)
    (lines : List String) :
    p.ProcessLines isP lines = (p.lineOutcomes isP p.start lines).reduceOption ∧
    (p.lineOutcomes isP p.start lines).length = lines.length ∧
    (p.ProcessLines isP lines).length ≤ lines.length := by
  have h1 : p.ProcessLines isP lines = (p.lineOutcomes isP p.start lines).reduceOption := by
    simp only [Parser.ProcessLines, run_eq_lineOutcomes, Parser.start, List.nil_append]
  refine ⟨h1, lineOutcomes_length isP p lines p.start, ?_⟩
  rw [h1, ← lineOutcomes_length isP p lines p.start]
  exact List.reduceOption_length_le _

/-- C12 on three lines: a valid ISO timestamp, a line that no layout parses and a
valid ctime timestamp. All three survive (the second one through the lost error
of `parseTimestamp`), in that order. -/
theorem ProcessLines_eq_outcomes_witness :
    ((Parser.test false (Date 2021 6 15 12 0 0 0 UTC)).ProcessLines isPartialByType
        ["2021-06-15T10:00:00Z", "not a timestamp", "Tue Jun 15 10:00:00"]).map
        Event.Timestamp
      = [Date 2021 6 15 10 0 0 0 UTC, Time.zero, Date 2021 6 15 10 0 0 0 UTC] ∧
    ((Parser.test false (Date 2021 6 15 12 0 0 0 UTC)).lineOutcomes isPartialByType
        (Parser.test false (Date 2021 6 15 12 0 0 0 UTC)).start
        ["2021-06-15T10:00:00Z", "not a timestamp", "Tue Jun 15 10:00:00"]).map
        (fun o => o.map Event.Timestamp)
      = [some (Date 2021 6 15 10 0 0 0 UTC), some Time.zero,
          some (Date 2021 6 15 10 0 0 0 UTC)] := by
  have w := ProcessLines_eq_outcomes isPartialByType
    (Parser.test false (Date 2021 6 15 12 0 0 0 UTC))
    ["2021-06-15T10:00:00Z", "not a timestamp", "Tue Jun 15 10:00:00"]
  refine ⟨?_, by decide⟩
  rw [w.1]
  decide

/-- C13. A call of `parseTimestamp` is determined by the reference time and the
fields, and it changes nothing but the clock's count of calls. Two calls that
see the same reference time and maps that agree on `"timestamp"` return the
same time and the same error, whichever parsers make them, whatever their
configuration and line parser, whatever else is on the heap and however often
the clocks were read before. The heap after the call is the heap before it,
so the map handed over reads at every key as it did before, `"timestamp"`
among them. The clock is read once. A second call right after the first, on
the same map, returns what the first returned when the clock answers the same
time. -/
theorem parseTimestamp_pure {σ τ : Type} (p : Parser σ) (q : Parser τ) (c1 c2 : Nat)
    (h1 h2 : Heap) (v1 v2 : Ref)
    (hnow : p.nower.Now c1 = q.nower.Now c2)
    (hts : h1.fields v1 "timestamp" = h2.fields v2 "timestamp") :
    ((Parser.parseTimestamp.call p c1 h1 v1).timestamp
        = (Parser.parseTimestamp.call q c2 h2 v2).timestamp ∧
      (Parser.parseTimestamp.call p c1 h1 v1).err
        = (Parser.parseTimestamp.call q c2 h2 v2).err) ∧
    (Parser.parseTimestamp.call p c1 h1 v1).heap = h1 ∧
    (∀ (r : Ref) (k : String),
      (Parser.parseTimestamp.call p c1 h1 v1).heap.fields r k = h1.fields r k) ∧
    (Parser.parseTimestamp.call p c1 h1 v1).calls = c1 + 1 ∧
    (p.nower.Now (c1 + 1) = p.nower.Now c1 →
      (Parser.parseTimestamp.call p (Parser.parseTimestamp.call p c1 h1 v1).calls
          (Parser.parseTimestamp.call p c1 h1 v1).heap v1).timestamp
        = (Parser.parseTimestamp.call p c1 h1 v1).timestamp ∧
      (Parser.parseTimestamp.call p (Parser.parseTimestamp.call p c1 h1 v1).calls
          (Parser.parseTimestamp.call p c1 h1 v1).heap v1).err
        = (Parser.parseTimestamp.call p c1 h1 v1).err) := by
  have hres : p.parseTimestamp c1 (h1.fields v1) = q.parseTimestamp c2 (h2.fields v2) := by
    simp only [Parser.parseTimestamp, Fields.stringAt, hnow, hts]
  refine ⟨⟨?_, ?_⟩, rfl, fun _ _ => rfl, rfl, fun hagain => ?_⟩
  · simp only [Parser.parseTimestamp.call, hres]
  · simp only [Parser.parseTimestamp.call, hres]
  · have hsecond : p.parseTimestamp (c1 + 1) (h1.fields v1) = p.parseTimestamp c1 (h1.fields v1) := by
      simp only [Parser.parseTimestamp, hagain]
    simp only [Parser.parseTimestamp.call, hsecond, and_self]

/-- C13 on two parsers that differ in configuration, line parser and number of
earlier clock readings, and on heaps that hold different maps at different
addresses, which agree on `"timestamp"`. After the call the map still binds
`"timestamp"`; after a round of the loop of `ProcessLines` on the same map it
does not. Another reference time or another `"timestamp"` gives another
result. -/
theorem parseTimestamp_pure_witness :
    ((Parser.parseTimestamp.call (Parser.test false (Date 2021 6 15 12 0 0 0 UTC)) 0
          (fun _ => Fields.timestamp "Tue Jun 15 10:00:00") (some 0)).timestamp
        = (Parser.parseTimestamp.call
            (Parser.testFailing true partialLogLineError (Date 2021 6 15 12 0 0 0 UTC)) 5
            (Heap.store (fun _ => Fields.empty) 3 (Fields.lineTimestamp "Tue Jun 15 10:00:00"))
            (some 3)).timestamp ∧
      (Parser.parseTimestamp.call (Parser.test false (Date 2021 6 15 12 0 0 0 UTC)) 0
          (fun _ => Fields.timestamp "Tue Jun 15 10:00:00") (some 0)).err
        = (Parser.parseTimestamp.call
            (Parser.testFailing true partialLogLineError (Date 2021 6 15 12 0 0 0 UTC)) 5
            (Heap.store (fun _ => Fields.empty) 3 (Fields.lineTimestamp "Tue Jun 15 10:00:00"))
            (some 3)).err) ∧
    (Parser.parseTimestamp.call (Parser.test false (Date 2021 6 15 12 0 0 0 UTC)) 0
        (fun _ => Fields.timestamp "Tue Jun 15 10:00:00") (some 0)).timestamp
      = Date 2021 6 15 10 0 0 0 UTC ∧
    (Parser.parseTimestamp.call (Parser.test false (Date 2021 6 15 12 0 0 0 UTC)) 0
        (fun _ => Fields.timestamp "Tue Jun 15 10:00:00") (some 0)).heap.fields (some 0)
        "timestamp"
      = some (Value.str "Tue Jun 15 10:00:00") ∧
    (Parser.ProcessLines.body isPartialByType
        (Parser.testShared "Tue Jun 15 10:00:00" (Date 2021 6 15 12 0 0 0 UTC))
        (Parser.testShared "Tue Jun 15 10:00:00" (Date 2021 6 15 12 0 0 0 UTC)).start
        "a").heap.fields (some 0) "timestamp"
      = none ∧
    (Parser.parseTimestamp.call (Parser.test false (Date 2021 6 1 0 0 0 0 UTC)) 0
        (fun _ => Fields.timestamp "Tue Jun 15 10:00:00") (some 0)).timestamp
      = Date 2020 6 15 10 0 0 0 UTC ∧
    (Parser.parseTimestamp.call (Parser.test false (Date 2021 6 15 12 0 0 0 UTC)) 0
        (fun _ => Fields.timestamp "Tue Jun 15 11:00:00") (some 0)).timestamp
      = Date 2021 6 15 11 0 0 0 UTC := by
  have w := parseTimestamp_pure (Parser.test false (Date 2021 6 15 12 0 0 0 UTC))
    (Parser.testFailing true partialLogLineError (Date 2021 6 15 12 0 0 0 UTC)) 0 5
    (fun _ => Fields.timestamp "Tue Jun 15 10:00:00")
    (Heap.store (fun _ => Fields.empty) 3 (Fields.lineTimestamp "Tue Jun 15 10:00:00"))
    (some 0) (some 3) rfl rfl
  refine ⟨w.1, by decide, ?_, by decide, by decide, by decide⟩
  rw [w.2.2.1 (some 0) "timestamp"]
  rfl

/-- C14 (counterexample). `"Sat Feb 29 10:00:00.500"` is validly formatted under
`ctimeTimeFormat`, which parses it to a time with month 2, day 29 and 500 ms,
and with the clock at 2021-06-15 12:00 UTC `parseTimestamp` returns
2021-03-01 10:00:00.5: the instant returned is not on the day that the string
denotes. -/
theorem parseTimestamp_valid_layout_feb29 :
    Parse ctimeTimeFormat "Sat Feb 29 10:00:00.500"
      = Except.ok (Date 0 2 29 10 0 0 500000000 UTC) ∧
    (Date 0 2 29 10 0 0 500000000 UTC).Month = 2 ∧
    (Date 0 2 29 10 0 0 500000000 UTC).Day = 29 ∧
    (Parser.test false (Date 2021 6 15 12 0 0 0 UTC)).parseTimestamp 0
        (Fields.timestamp "Sat Feb 29 10:00:00.500")
      = (Date 2021 3 1 10 0 0 500000000 UTC, none) ∧
    ((Parser.test false (Date 2021 6 15 12 0 0 0 UTC)).parseTimestamp 0
        (Fields.timestamp "Sat Feb 29 10:00:00.500")).1.Date = (2021, 3, 1) ∧
    ((Parser.test false (Date 2021 6 15 12 0 0 0 UTC)).parseTimestamp 0
        (Fields.timestamp "Sat Feb 29 10:00:00.500")).1.Month
      ≠ (Date 0 2 29 10 0 0 500000000 UTC).Month ∧
    ((Parser.test false (Date 2021 6 15 12 0 0 0 UTC)).parseTimestamp 0
        (Fields.timestamp "Sat Feb 29 10:00:00.500")).1.Day
      ≠ (Date 0 2 29 10 0 0 500000000 UTC).Day := by
  decide

/-- C14 (amended). For each of the four layouts of `timestampFormats`, a timestamp
string that parses under the layout to the time `t` resolves without error,
and `parseTimestamp` returns what its loop gives on that layout alone. For the
two ISO-8601 layouts the result is `t` itself. For the two year-absent layouts
the result is the time that `time.Date` gives in UTC for the year of the
result and the month, day, clock reading and nanoseconds of `t`; its year is
the year of the reference time when that time with the year of the reference
time is strictly before the reference time, and the year before when it is
strictly after; it has the clock reading and the nanoseconds of `t` (so a
string in the layout with milliseconds keeps them, although the layout without
milliseconds is tried before), and the month and day of `t` unless `t` is a
February 29 and the year of the result is a common year, in which case it is
March 1. -/
theorem parseTimestamp_valid_layout {σ : Type} (p : Parser σ) (calls : Nat) (values : Fields)
    (s f : String) (t : Time) (hv : values "timestamp" = some (Value.str s))
    (hf : f ∈ timestampFormats) (hparse : Parse f s = Except.ok t) :
    p.parseTimestamp calls values
        = Parser.parseTimestamp.loop (p.nower.Now calls) s none [f] ∧
    (p.parseTimestamp calls values).2 = none ∧
    (f = iso8601LocalTimeFormat ∨ f = iso8601UTCTimeFormat →
      p.parseTimestamp calls values = (t, none)) ∧
    (f = ctimeNoMSTimeFormat ∨ f = ctimeTimeFormat →
      (p.parseTimestamp calls values).1
          = Date (p.parseTimestamp calls values).1.Year t.Month t.Day t.Clock.1 t.Clock.2.1
              t.Clock.2.2 t.nsec UTC ∧
      ((Date (p.nower.Now calls).Year t.Month t.Day t.Clock.1 t.Clock.2.1 t.Clock.2.2 t.nsec
            UTC).Before (p.nower.Now calls) = true →
        (p.parseTimestamp calls values).1.Year = (p.nower.Now calls).Year) ∧
      ((Date (p.nower.Now calls).Year t.Month t.Day t.Clock.1 t.Clock.2.1 t.Clock.2.2 t.nsec
            UTC).After (p.nower.Now calls) = true →
        (p.parseTimestamp calls values).1.Year = (p.nower.Now calls).Year - 1) ∧
      (p.parseTimestamp calls values).1.Clock = t.Clock ∧
      (p.parseTimestamp calls values).1.nsec = t.nsec ∧
      (p.parseTimestamp calls values).1.loc = UTC ∧
      (¬ (t.Month = 2 ∧ t.Day = 29 ∧ isLeap (p.parseTimestamp calls values).1.Year = false) →
        (p.parseTimestamp calls values).1.Month = t.Month ∧
        (p.parseTimestamp calls values).1.Day = t.Day) ∧
      ((t.Month = 2 ∧ t.Day = 29 ∧ isLeap (p.parseTimestamp calls values).1.Year = false) →
        (p.parseTimestamp calls values).1.Month = 3 ∧
        (p.parseTimestamp calls values).1.Day = 1)) := by
  have herr := parseTimestamp_string_error p calls values s hv
  have hiso : f = iso8601LocalTimeFormat ∨ f = iso8601UTCTimeFormat →
      p.parseTimestamp calls values = (t, none) ∧
      p.parseTimestamp calls values
        = Parser.parseTimestamp.loop (p.nower.Now calls) s none [f] := by
    intro h
    have hone : Parser.parseTimestamp.loop (p.nower.Now calls) s none [f] = (t, none) := by
      simp only [Parser.parseTimestamp.loop, hparse]
      have hc : (f == ctimeTimeFormat || f == ctimeNoMSTimeFormat) = false := by
        rcases h with rfl | rfl <;> decide
      simp only [hc, Bool.false_eq_true, if_false]
    rw [hone, parseTimestamp_of_str p calls values s hv]
    rcases h with rfl | rfl
    · exact ⟨by simp only [timestampFormats, Parser.parseTimestamp.loop, hparse]; rfl,
        by simp only [timestampFormats, Parser.parseTimestamp.loop, hparse]; rfl⟩
    · obtain ⟨e, he⟩ := Parse_isoLocal_error_of_isoUTC s t hparse
      exact ⟨by simp only [timestampFormats, Parser.parseTimestamp.loop, he, hparse]; rfl,
        by simp only [timestampFormats, Parser.parseTimestamp.loop, he, hparse]; rfl⟩
  have hctime : f = ctimeNoMSTimeFormat ∨ f = ctimeTimeFormat →
      p.parseTimestamp calls values
        = (if (p.nower.Now calls).After (t.AddDate (p.nower.Now calls).Year 0 0) then
            (t.AddDate (p.nower.Now calls).Year 0 0, none)
          else (t.AddDate ((p.nower.Now calls).Year - 1) 0 0, none)) ∧
      ctimeParse s = some t ∧
      p.parseTimestamp calls values
        = Parser.parseTimestamp.loop (p.nower.Now calls) s none [f] := by
    intro h
    have hct : ctimeParse s = some t := by
      rcases h with rfl | rfl
      · simp only [ctimeParse, hparse]
      · rcases Parse_ctimeNoMS_of_ctime s t hparse with h1 | ⟨e, h1⟩
        · simp only [ctimeParse, h1]
        · simp only [ctimeParse, h1, hparse]
    refine ⟨parseTimestamp_ctime p calls values s t hv hct, hct, ?_⟩
    rw [parseTimestamp_ctime p calls values s t hv hct]
    simp only [Parser.parseTimestamp.loop, hparse]
    have hc : (f == ctimeTimeFormat || f == ctimeNoMSTimeFormat) = true := by
      rcases h with rfl | rfl <;> decide
    simp only [hc, if_true]
  have hcases : (f = iso8601LocalTimeFormat ∨ f = iso8601UTCTimeFormat) ∨
      (f = ctimeNoMSTimeFormat ∨ f = ctimeTimeFormat) := by
    simp only [timestampFormats, List.mem_cons, List.mem_singleton, List.not_mem_nil,
      or_false] at hf
    rcases hf with h | h | h | h
    · exact Or.inl (Or.inl h)
    · exact Or.inl (Or.inr h)
    · exact Or.inr (Or.inl h)
    · exact Or.inr (Or.inr h)
  refine ⟨?_, herr, fun h => (hiso h).1, fun h => ?_⟩
  · rcases hcases with h | h
    · exact (hiso h).2
    · exact (hctime h).2.2
  · obtain ⟨h1, hct, -⟩ := hctime h
    rw [← ctimeParse_AddDate_eq_Date s t (p.nower.Now calls).Year hct]
    have hfields : ∀ Y : Int, (p.parseTimestamp calls values).1 = t.AddDate Y 0 0 →
        (p.parseTimestamp calls values).1
            = Date (p.parseTimestamp calls values).1.Year t.Month t.Day t.Clock.1 t.Clock.2.1
                t.Clock.2.2 t.nsec UTC ∧
        (p.parseTimestamp calls values).1.Year = Y ∧
        (p.parseTimestamp calls values).1.Clock = t.Clock ∧
        (p.parseTimestamp calls values).1.nsec = t.nsec ∧
        (p.parseTimestamp calls values).1.loc = UTC ∧
        (¬ (t.Month = 2 ∧ t.Day = 29 ∧ isLeap (p.parseTimestamp calls values).1.Year = false) →
          (p.parseTimestamp calls values).1.Month = t.Month ∧
          (p.parseTimestamp calls values).1.Day = t.Day) ∧
        ((t.Month = 2 ∧ t.Day = 29 ∧ isLeap (p.parseTimestamp calls values).1.Year = false) →
          (p.parseTimestamp calls values).1.Month = 3 ∧
          (p.parseTimestamp calls values).1.Day = 1) := by
      intro Y hR
      have hfd := ctimeParse_AddDate_fields s t Y hct
      rw [hR, hfd.2.2.2.1]
      exact ⟨ctimeParse_AddDate_eq_Date s t Y hct, rfl, hfd.1, hfd.2.1, hfd.2.2.1,
        hfd.2.2.2.2.2, hfd.2.2.2.2.1⟩
    by_cases ha : (p.nower.Now calls).After (t.AddDate (p.nower.Now calls).Year 0 0) = true
    · have hR : (p.parseTimestamp calls values).1 = t.AddDate (p.nower.Now calls).Year 0 0 := by
        rw [h1]
        simp only [ha, if_true]
      obtain ⟨k1, k2, k3, k4, k5, k6, k7⟩ := hfields _ hR
      refine ⟨k1, fun _ => k2, fun haft => ?_, k3, k4, k5, k6, k7⟩
      rw [After_asymm _ _ haft] at ha
      exact absurd ha (by simp)
    · have hR : (p.parseTimestamp calls values).1
          = t.AddDate ((p.nower.Now calls).Year - 1) 0 0 := by
        rw [h1]
        simp only [ha, Bool.false_eq_true, if_false]
      obtain ⟨k1, k2, k3, k4, k5, k6, k7⟩ := hfields _ hR
      refine ⟨k1, fun hbef => ?_, fun _ => k2, k3, k4, k5, k6, k7⟩
      rw [After_eq_Before] at ha
      exact absurd hbef ha

/-- C14 (amended) on the four strings of the claim, resolved at 2021-06-15 12:00
UTC: the one with a zone offset of -07:00 is the instant 17:00:00.123456789
UTC, and the one with milliseconds keeps its 123 ms and its day. -/
theorem parseTimestamp_valid_layout_witness :
    Parse ctimeTimeFormat "Tue Jun 15 10:00:00.123"
      = Except.ok (Date 0 6 15 10 0 0 123000000 UTC) ∧
    (Parser.test false (Date 2021 6 15 12 0 0 0 UTC)).parseTimestamp 0
        (Fields.timestamp "Tue Jun 15 10:00:00.123")
      = (Date 2021 6 15 10 0 0 123000000 UTC, none) ∧
    ((Parser.test false (Date 2021 6 15 12 0 0 0 UTC)).parseTimestamp 0
        (Fields.timestamp "Tue Jun 15 10:00:00.123")).1.nsec = 123000000 ∧
    ((Parser.test false (Date 2021 6 15 12 0 0 0 UTC)).parseTimestamp 0
        (Fields.timestamp "Tue Jun 15 10:00:00.123")).1.Year = 2021 ∧
    (Parser.test false (Date 2021 6 15 12 0 0 0 UTC)).parseTimestamp 0
        (Fields.timestamp "Tue Jun 15 10:00:00")
      = (Date 2021 6 15 10 0 0 0 UTC, none) ∧
    (Parser.test false (Date 2021 6 15 12 0 0 0 UTC)).parseTimestamp 0
        (Fields.timestamp "2021-06-15T10:00:00Z")
      = (Date 2021 6 15 10 0 0 0 UTC, none) ∧
    (Parser.test false (Date 2021 6 15 12 0 0 0 UTC)).parseTimestamp 0
        (Fields.timestamp "2021-06-15T10:00:00.123456789-0700")
      = (⟨(Date 2021 6 15 17 0 0 0 UTC).sec, 123456789, ⟨-25200⟩⟩, none) ∧
    ((Parser.test false (Date 2021 6 15 12 0 0 0 UTC)).parseTimestamp 0
        (Fields.timestamp "2021-06-15T10:00:00.123456789-0700")).1.Equal
        (Date 2021 6 15 17 0 0 123456789 UTC) = true := by
  have hp : Parse ctimeTimeFormat "Tue Jun 15 10:00:00.123"
      = Except.ok (Date 0 6 15 10 0 0 123000000 UTC) := by decide
  have w := parseTimestamp_valid_layout (Parser.test false (Date 2021 6 15 12 0 0 0 UTC)) 0
    (Fields.timestamp "Tue Jun 15 10:00:00.123") "Tue Jun 15 10:00:00.123" ctimeTimeFormat _ rfl
    (by decide) hp
  refine ⟨hp, by decide, ?_, ?_, by decide, by decide, by decide, by decide⟩
  · rw [(w.2.2.2 (Or.inr rfl)).2.2.2.2.1]
    decide
  · rw [(w.2.2.2 (Or.inr rfl)).2.1 (by decide)]
    decide

/-- C15. For either setting of `LogPartials`, a line that passes the parse stage
(no error, or a partial error with `LogPartials` on) and whose fields bind
`"timestamp"` to no string sends no event, whatever the state of the line
parser: the loop body reads the clock and sends nothing, the map stays as the
line parser returned it, and the events of a run are those of the lines
before followed by those of the lines after. -/
theorem ProcessLines_missing_timestamp_dropped {σ : Type} (isP : Option Error → Bool)
    (p : Parser σ) (line : String) :
    (∀ (st : LoopState σ) (r : ParseResult σ),
      p.lineParser.ParseLogLine st.parser st.heap line = r →
      p.passesParse isP r.err = true →
      (∀ s, r.heap.fields r.values "timestamp" ≠ some (Value.str s)) →
      Parser.ProcessLines.body isP p st line = ⟨st.calls + 1, r.state, r.heap, st.sent⟩) ∧
    ∀ (before after : List String) (r : ParseResult σ),
      p.lineParser.ParseLogLine (Parser.ProcessLines.run isP p p.start before).parser
        (Parser.ProcessLines.run isP p p.start before).heap line = r →
      p.passesParse isP r.err = true →
      (∀ s, r.heap.fields r.values "timestamp" ≠ some (Value.str s)) →
      p.ProcessLines isP (before ++ line :: after)
        = p.ProcessLines isP before ++
          (Parser.ProcessLines.run isP p
            ⟨(Parser.ProcessLines.run isP p p.start before).calls + 1, r.state, r.heap, []⟩
            after).sent := by
  have hb : ∀ (st : LoopState σ) (r : ParseResult σ),
      p.lineParser.ParseLogLine st.parser st.heap line = r →
      p.passesParse isP r.err = true →
      (∀ s, r.heap.fields r.values "timestamp" ≠ some (Value.str s)) →
      Parser.ProcessLines.body isP p st line = ⟨st.calls + 1, r.state, r.heap, st.sent⟩ := by
    intro st r hr hpass hmissing
    exact body_of_unresolved isP p st line r Time.zero errTimestampMissing hr hpass
      (parseTimestamp_no_string p st.calls _ hmissing)
  refine ⟨hb, fun before after r hr hpass hmissing => ?_⟩
  have h := ProcessLines_split isP p before after line _ r.state r.heap []
    (by rw [hb _ r hr hpass hmissing, List.append_nil])
  rw [h, List.append_nil]

/-- C15 on a line parser that returns the nil map and no error, and on one that
returns a numeric `"timestamp"` with a partial error while `LogPartials` is
on. -/
theorem ProcessLines_missing_timestamp_dropped_witness :
    (Parser.mk ⟨false⟩ (LineParser.nilMap none)
        (Nower.fixed (Date 2021 6 15 12 0 0 0 UTC))).ProcessLines isPartialByType
        ([] ++ "any line" :: []) = [] ∧
    (Parser.mk ⟨true⟩
        (LineParser.fresh (fun _ => (Fields.empty.set "timestamp" (Value.int 1623751200),
          some partialLogLineError)))
        (Nower.fixed (Date 2021 6 15 12 0 0 0 UTC))).ProcessLines isPartialByType
        ([] ++ "any line" :: []) = [] :=
  ⟨((ProcessLines_missing_timestamp_dropped isPartialByType
      (Parser.mk ⟨false⟩ (LineParser.nilMap none)
        (Nower.fixed (Date 2021 6 15 12 0 0 0 UTC))) "any line").2 [] [] _ rfl rfl
      (fun s hs => by simp [Heap.fields, LineParser.nilMap, Fields.empty] at hs)).trans rfl,
   ((ProcessLines_missing_timestamp_dropped isPartialByType
      (Parser.mk ⟨true⟩
        (LineParser.fresh (fun _ => (Fields.empty.set "timestamp" (Value.int 1623751200),
          some partialLogLineError)))
        (Nower.fixed (Date 2021 6 15 12 0 0 0 UTC))) "any line").2 [] [] _ rfl rfl
      (fun s hs => by
        simp [Heap.fields, Heap.store, LineParser.fresh, Fields.set] at hs)).trans rfl⟩

/-- C16. For every timestamp string that parses under a year-absent layout and
every reference time, `parseTimestamp` returns without error a time whose year
is the year of the reference time or the year before it, and no other: the
former when the value with the year of the reference time attached is before
the reference time, the latter otherwise. A February 29 is no exception. -/
theorem parseTimestamp_ctime_year {σ : Type} (p : Parser σ) (calls : Nat) (values : Fields) (s : String)
    (t : Time) (hv : values "timestamp" = some (Value.str s)) (ht : ctimeParse s = some t) :
    (p.parseTimestamp calls values).2 = none ∧
    ((p.parseTimestamp calls values).1.Year = (p.nower.Now calls).Year ∨
      (p.parseTimestamp calls values).1.Year = (p.nower.Now calls).Year - 1) ∧
    (p.parseTimestamp calls values).1.Year
      = (if (t.AddDate (p.nower.Now calls).Year 0 0).Before (p.nower.Now calls) then
          (p.nower.Now calls).Year
        else (p.nower.Now calls).Year - 1) := by
  rw [parseTimestamp_ctime p calls values s t hv ht, After_eq_Before]
  by_cases hb : (t.AddDate (p.nower.Now calls).Year 0 0).Before (p.nower.Now calls) = true
  · simp only [hb, if_true]
    exact ⟨trivial, Or.inl (ctimeParse_AddDate_Year s t _ ht), ctimeParse_AddDate_Year s t _ ht⟩
  · simp only [hb, Bool.false_eq_true, if_false]
    exact ⟨trivial, Or.inr (ctimeParse_AddDate_Year s t _ ht), ctimeParse_AddDate_Year s t _ ht⟩

/-- C16 on a February 29: in the middle of 2021 it resolves to a time of the year
2021, and on 2021-02-01 to a time of the year 2020. -/
theorem parseTimestamp_ctime_year_witness :
    ctimeParse "Sat Feb 29 10:00:00" = some (Date 0 2 29 10 0 0 0 UTC) ∧
    ((Parser.test false (Date 2021 6 15 12 0 0 0 UTC)).parseTimestamp 0
        (Fields.timestamp "Sat Feb 29 10:00:00")).1.Year = 2021 ∧
    ((Parser.test false (Date 2021 2 1 0 0 0 0 UTC)).parseTimestamp 0
        (Fields.timestamp "Sat Feb 29 10:00:00")).1.Year = 2020 := by
  have ht : ctimeParse "Sat Feb 29 10:00:00" = some (Date 0 2 29 10 0 0 0 UTC) := by decide
  have w1 := (parseTimestamp_ctime_year (Parser.test false (Date 2021 6 15 12 0 0 0 UTC)) 0
    (Fields.timestamp "Sat Feb 29 10:00:00") _ _ rfl ht).2.2
  have w2 := (parseTimestamp_ctime_year (Parser.test false (Date 2021 2 1 0 0 0 0 UTC)) 0
    (Fields.timestamp "Sat Feb 29 10:00:00") _ _ rfl ht).2.2
  refine ⟨ht, ?_, ?_⟩
  · rw [w1]
    decide
  · rw [w2]
    decide

/-- C17 (counterexample). `"Sat Feb 29 10:00:00"` parses under
`ctimeNoMSTimeFormat` to a time with month 2 and day 29, and with the clock at
2021-06-15 12:00 UTC `parseTimestamp` returns 2021-03-01 10:00:00, with month 3
and day 1: month and day of the parsed string are not kept. -/
theorem parseTimestamp_feb29_moved :
    ctimeParse "Sat Feb 29 10:00:00" = some (Date 0 2 29 10 0 0 0 UTC) ∧
    (Date 0 2 29 10 0 0 0 UTC).Month = 2 ∧ (Date 0 2 29 10 0 0 0 UTC).Day = 29 ∧
    (Parser.test false (Date 2021 6 15 12 0 0 0 UTC)).parseTimestamp 0
        (Fields.timestamp "Sat Feb 29 10:00:00")
      = (Date 2021 3 1 10 0 0 0 UTC, none) ∧
    ((Parser.test false (Date 2021 6 15 12 0 0 0 UTC)).parseTimestamp 0
        (Fields.timestamp "Sat Feb 29 10:00:00")).1.Month = 3 ∧
    ((Parser.test false (Date 2021 6 15 12 0 0 0 UTC)).parseTimestamp 0
        (Fields.timestamp "Sat Feb 29 10:00:00")).1.Day = 1 ∧
    ¬ (((Parser.test false (Date 2021 6 15 12 0 0 0 UTC)).parseTimestamp 0
          (Fields.timestamp "Sat Feb 29 10:00:00")).1.Month = (Date 0 2 29 10 0 0 0 UTC).Month ∧
        ((Parser.test false (Date 2021 6 15 12 0 0 0 UTC)).parseTimestamp 0
          (Fields.timestamp "Sat Feb 29 10:00:00")).1.Day = (Date 0 2 29 10 0 0 0 UTC).Day) := by
  decide

/-- C17 (amended). For every timestamp string that parses under a year-absent
layout, with `t` the parsed value, and every reference time, the time that
`parseTimestamp` returns has the hour, minute, second and nanoseconds of `t`,
and the month and day of `t` unless `t` is a February 29 and the year of the
returned time is a common year; in that case the returned time is March 1 of
that year. -/
theorem parseTimestamp_ctime_fields {σ : Type} (p : Parser σ) (calls : Nat) (values : Fields) (s : String)
    (t : Time) (hv : values "timestamp" = some (Value.str s)) (ht : ctimeParse s = some t) :
    (p.parseTimestamp calls values).1.Clock = t.Clock ∧
    (p.parseTimestamp calls values).1.nsec = t.nsec ∧
    (¬ (t.Month = 2 ∧ t.Day = 29 ∧ isLeap (p.parseTimestamp calls values).1.Year = false) →
      (p.parseTimestamp calls values).1.Month = t.Month ∧
      (p.parseTimestamp calls values).1.Day = t.Day) ∧
    ((t.Month = 2 ∧ t.Day = 29 ∧ isLeap (p.parseTimestamp calls values).1.Year = false) →
      (p.parseTimestamp calls values).1.Month = 3 ∧
      (p.parseTimestamp calls values).1.Day = 1) := by
  rw [parseTimestamp_ctime p calls values s t hv ht]
  by_cases ha : (p.nower.Now calls).After (t.AddDate (p.nower.Now calls).Year 0 0) = true
  · simp only [ha, if_true]
    have h := ctimeParse_AddDate_fields s t (p.nower.Now calls).Year ht
    rw [h.2.2.2.1]
    exact ⟨h.1, h.2.1, h.2.2.2.2.2, h.2.2.2.2.1⟩
  · simp only [ha, Bool.false_eq_true, if_false]
    have h := ctimeParse_AddDate_fields s t ((p.nower.Now calls).Year - 1) ht
    rw [h.2.2.2.1]
    exact ⟨h.1, h.2.1, h.2.2.2.2.2, h.2.2.2.2.1⟩

/-- C17 (amended) on `"Thu Dec 31 23:59:59.250"` resolved on 2021-01-02, which
keeps month, day, clock reading and fraction, and on `"Sat Feb 29 10:00:00"`
resolved in 2021, which becomes March 1. -/
theorem parseTimestamp_ctime_fields_witness :
    ctimeParse "Thu Dec 31 23:59:59.250" = some (Date 0 12 31 23 59 59 250000000 UTC) ∧
    ((Parser.test false (Date 2021 1 2 0 0 0 0 UTC)).parseTimestamp 0
        (Fields.timestamp "Thu Dec 31 23:59:59.250")).1.Month = 12 ∧
    ((Parser.test false (Date 2021 1 2 0 0 0 0 UTC)).parseTimestamp 0
        (Fields.timestamp "Thu Dec 31 23:59:59.250")).1.Day = 31 ∧
    ((Parser.test false (Date 2021 1 2 0 0 0 0 UTC)).parseTimestamp 0
        (Fields.timestamp "Thu Dec 31 23:59:59.250")).1.Clock = (23, 59, 59) ∧
    ((Parser.test false (Date 2021 1 2 0 0 0 0 UTC)).parseTimestamp 0
        (Fields.timestamp "Thu Dec 31 23:59:59.250")).1.nsec = 250000000 ∧
    ((Parser.test false (Date 2021 6 15 12 0 0 0 UTC)).parseTimestamp 0
        (Fields.timestamp "Sat Feb 29 10:00:00")).1.Month = 3 ∧
    ((Parser.test false (Date 2021 6 15 12 0 0 0 UTC)).parseTimestamp 0
        (Fields.timestamp "Sat Feb 29 10:00:00")).1.Day = 1 := by
  have ht1 : ctimeParse "Thu Dec 31 23:59:59.250"
      = some (Date 0 12 31 23 59 59 250000000 UTC) := by decide
  have ht2 : ctimeParse "Sat Feb 29 10:00:00" = some (Date 0 2 29 10 0 0 0 UTC) := by decide
  have w1 := parseTimestamp_ctime_fields (Parser.test false (Date 2021 1 2 0 0 0 0 UTC)) 0
    (Fields.timestamp "Thu Dec 31 23:59:59.250") _ _ rfl ht1
  have w2 := parseTimestamp_ctime_fields (Parser.test false (Date 2021 6 15 12 0 0 0 UTC)) 0
    (Fields.timestamp "Sat Feb 29 10:00:00") _ _ rfl ht2
  have hmd := w1.2.2.1 (by decide)
  have hfeb := w2.2.2.2 (by decide)
  refine ⟨ht1, ?_, ?_, ?_, ?_, hfeb.1, hfeb.2⟩
  · rw [hmd.1]
    decide
  · rw [hmd.2]
    decide
  · rw [w1.1]
    decide
  · rw [w1.2.1]
    decide

/-- C18 (counterexample). A line parser that returns one and the same map with
every line, holding a valid `"timestamp"` before the first call, and a clock
that stands still: for the input `["a", "b"]` `ProcessLines` sends one event,
since the `delete` of the first round took `"timestamp"` from the map that the
second round gets, while for `["a"]` and for `["b"]` it sends one event each.
The output for `["a"]` followed by `["b"]` is not the output for `["a"]`
followed by the output for `["b"]`. -/
theorem ProcessLines_shared_map_not_append :
    (∀ k, (Parser.testShared "2021-06-15T10:00:00Z" (Date 2021 6 15 12 0 0 0 UTC)).nower.Now k
      = Date 2021 6 15 12 0 0 0 UTC) ∧
    ((Parser.testShared "2021-06-15T10:00:00Z" (Date 2021 6 15 12 0 0 0 UTC)).ProcessLines
        isPartialByType (["a"] ++ ["b"])).map Event.Timestamp
      = [Date 2021 6 15 10 0 0 0 UTC] ∧
    ((Parser.testShared "2021-06-15T10:00:00Z" (Date 2021 6 15 12 0 0 0 UTC)).ProcessLines
          isPartialByType ["a"] ++
        (Parser.testShared "2021-06-15T10:00:00Z" (Date 2021 6 15 12 0 0 0 UTC)).ProcessLines
          isPartialByType ["b"]).map Event.Timestamp
      = [Date 2021 6 15 10 0 0 0 UTC, Date 2021 6 15 10 0 0 0 UTC] ∧
    (Parser.testShared "2021-06-15T10:00:00Z" (Date 2021 6 15 12 0 0 0 UTC)).ProcessLines
        isPartialByType (["a"] ++ ["b"])
      ≠ (Parser.testShared "2021-06-15T10:00:00Z" (Date 2021 6 15 12 0 0 0 UTC)).ProcessLines
          isPartialByType ["a"] ++
        (Parser.testShared "2021-06-15T10:00:00Z" (Date 2021 6 15 12 0 0 0 UTC)).ProcessLines
          isPartialByType ["b"] := by
  have h1 : ((Parser.testShared "2021-06-15T10:00:00Z" (Date 2021 6 15 12 0 0 0 UTC)).ProcessLines
        isPartialByType (["a"] ++ ["b"])).map Event.Timestamp
      = [Date 2021 6 15 10 0 0 0 UTC] := by decide
  have h2 : ((Parser.testShared "2021-06-15T10:00:00Z" (Date 2021 6 15 12 0 0 0 UTC)).ProcessLines
          isPartialByType ["a"] ++
        (Parser.testShared "2021-06-15T10:00:00Z" (Date 2021 6 15 12 0 0 0 UTC)).ProcessLines
          isPartialByType ["b"]).map Event.Timestamp
      = [Date 2021 6 15 10 0 0 0 UTC, Date 2021 6 15 10 0 0 0 UTC] := by decide
  refine ⟨fun _ => rfl, h1, h2, fun h => ?_⟩
  rw [h, h2] at h1
  exact absurd (congrArg List.length h1) (by decide)

/-- C18 (amended). With a line parser that answers by the line alone (the error
and the content of the map it returns for a line are the same in every state
of its own and of the maps it returned earlier) and a clock that answers the
same time at every call, the events sent for an input `xs` followed by `ys`
are those sent for `xs` followed by those sent for `ys`; so the events of a
line and of all later lines do not depend on the lines before, dropped or
not. -/
theorem ProcessLines_append {σ : Type} (isP : Option Error → Bool) (p : Parser σ)
    (f : String → Fields × Option Error) (now : Time)
    (hparser : p.lineParser.Answers f) (hclock : ∀ k, p.nower.Now k = now) :
    (∀ xs ys : List String,
      p.ProcessLines isP (xs ++ ys) = p.ProcessLines isP xs ++ p.ProcessLines isP ys) ∧
    (∀ (x : String) (ys : List String),
      p.ProcessLines isP (x :: ys) = p.ProcessLines isP [x] ++ p.ProcessLines isP ys) ∧
    ∀ lines : List String,
      p.ProcessLines isP lines = lines.filterMap (p.lineOutcome isP p.start) := by
  have hall := ProcessLines_of_Answers_fixed isP p f hparser now hclock
  have happ : ∀ xs ys : List String,
      p.ProcessLines isP (xs ++ ys) = p.ProcessLines isP xs ++ p.ProcessLines isP ys := by
    intro xs ys
    rw [hall, hall, hall, List.filterMap_append]
  exact ⟨happ, fun x ys => happ [x] ys, hall⟩

/-- C18 (amended) on an input whose first part holds a dropped line: the second
part is processed as it is on its own. -/
theorem ProcessLines_append_witness :
    (∀ k, (Nower.fixed (Date 2021 6 15 12 0 0 0 UTC)).Now k = Date 2021 6 15 12 0 0 0 UTC) ∧
    ((Parser.mk ⟨false⟩
        (LineParser.fresh (fun line => (if line = "" then Fields.empty
          else Fields.timestamp line, none)))
        (Nower.fixed (Date 2021 6 15 12 0 0 0 UTC))).ProcessLines isPartialByType
        (["", "Tue Jun 15 10:00:00"] ++ ["", "2021-06-15T10:00:00Z"])).map Event.Timestamp
      = [Date 2021 6 15 10 0 0 0 UTC] ++ [Date 2021 6 15 10 0 0 0 UTC] := by
  refine ⟨fun _ => rfl, ?_⟩
  rw [(ProcessLines_append isPartialByType
    (Parser.mk ⟨false⟩
        (LineParser.fresh (fun line => (if line = "" then Fields.empty
          else Fields.timestamp line, none)))
        (Nower.fixed (Date 2021 6 15 12 0 0 0 UTC))) _ (Date 2021 6 15 12 0 0 0 UTC)
    (fresh_Answers _) (fun _ => rfl)).1]
  decide

/-- C19. For every timestamp string that parses under a year-absent layout and
every reference time in UTC, `parseTimestamp` returns without error a time
that is strictly before the reference time: it is neither after it nor equal
to it. -/
theorem parseTimestamp_ctime_before_now {σ : Type} (p : Parser σ) (calls : Nat) (values : Fields)
    (s : String) (t : Time) (hv : values "timestamp" = some (Value.str s))
    (ht : ctimeParse s = some t) (hutc : (p.nower.Now calls).loc = UTC) :
    (p.parseTimestamp calls values).2 = none ∧
    (p.parseTimestamp calls values).1.Before (p.nower.Now calls) = true ∧
    (p.parseTimestamp calls values).1.Equal (p.nower.Now calls) = false ∧
    (p.parseTimestamp calls values).1.After (p.nower.Now calls) = false := by
  have hb := ctimeParse_inferred_Before s t (p.nower.Now calls) ht hutc
  have he : (p.parseTimestamp calls values).2 = none := parseTimestamp_string_error p calls values s hv
  have hr : (p.parseTimestamp calls values).1
      = (if (p.nower.Now calls).After (t.AddDate (p.nower.Now calls).Year 0 0) then
          t.AddDate (p.nower.Now calls).Year 0 0
        else t.AddDate ((p.nower.Now calls).Year - 1) 0 0) := by
    rw [parseTimestamp_ctime p calls values s t hv ht]
    split <;> rfl
  rw [hr]
  exact ⟨he, hb, Before_not_Equal_After _ _ hb⟩

/-- C19 on a timestamp whose candidate is the reference time itself, and on one
whose candidate is a second after it: both resolve to the year before. -/
theorem parseTimestamp_ctime_before_now_witness :
    ctimeParse "Sat Jan  2 10:00:00" = some (Date 0 1 2 10 0 0 0 UTC) ∧
    (Date 2021 1 2 10 0 0 0 UTC).loc = UTC ∧
    ((Parser.test false (Date 2021 1 2 10 0 0 0 UTC)).parseTimestamp 0
        (Fields.timestamp "Sat Jan  2 10:00:00")).1.Before (Date 2021 1 2 10 0 0 0 UTC) = true ∧
    ((Parser.test false (Date 2021 1 2 9 59 59 0 UTC)).parseTimestamp 0
        (Fields.timestamp "Sat Jan  2 10:00:00")).1.Before (Date 2021 1 2 9 59 59 0 UTC) = true ∧
    (Parser.test false (Date 2021 1 2 9 59 59 0 UTC)).parseTimestamp 0
        (Fields.timestamp "Sat Jan  2 10:00:00") = (Date 2020 1 2 10 0 0 0 UTC, none) := by
  have ht : ctimeParse "Sat Jan  2 10:00:00" = some (Date 0 1 2 10 0 0 0 UTC) := by decide
  exact ⟨ht, rfl,
    (parseTimestamp_ctime_before_now (Parser.test false (Date 2021 1 2 10 0 0 0 UTC)) 0
      (Fields.timestamp "Sat Jan  2 10:00:00") _ _ rfl ht rfl).2.1,
    (parseTimestamp_ctime_before_now (Parser.test false (Date 2021 1 2 9 59 59 0 UTC)) 0
      (Fields.timestamp "Sat Jan  2 10:00:00") _ _ rfl ht rfl).2.1,
    by decide⟩

end Mongodb
